import Mathlib

/-!
# Particle motion engine and connection graph manager

A shallow embedding of `utils.js`, `ConnectionSystem.js`, `ParticleSystem.js`
and of the connection entry points of `ParticleSystemApp.js`.

* JavaScript numbers are elements of an arbitrary linearly ordered field `K`
  (exact arithmetic); the definitions are computable and can be run over `ℚ`,
  while the real numbers are the intended instance.
* JavaScript 32-bit integer operators (`<<`, `>>`, `|`, `&`) act on `Int`
  with explicit wrap-around modulo `2 ^ 32`.
* The buffers of the motion engine are `Float32Array`: every write of a number
  to them goes through the parameter `fround`, the narrowing to single
  precision, while `particles[i].position` keeps the number itself.
  `fround32` is that narrowing on `ℚ`.
* Functions of the three.js library (`Vector3.distanceTo`,
  `Vector3.applyMatrix4`) and the draws of `Math.random` are parameters; the
  `position` attribute of a `LineSegmentsGeometry` is the quad of 8 vertices
  that its constructor sets.
-/

namespace ParticleFriend

/-! ## JavaScript 32-bit integer operators -/

/-- ToUint32 of ECMAScript: the value modulo `2 ^ 32`, as a natural number. -/
def toUint32 (x : Int) : Nat := (x % 4294967296).toNat

/-- ToInt32 of ECMAScript: the value modulo `2 ^ 32`, read as a signed 32-bit integer. -/
def toInt32 (x : Int) : Int :=
  if x % 4294967296 < 2147483648 then x % 4294967296 else x % 4294967296 - 4294967296

/-- JavaScript `x << k`: the shift count is taken modulo 32 and the result wraps to 32 bits. -/
def jsShl (x : Int) (k : Nat) : Int := toInt32 (toInt32 x * 2 ^ (k % 32))

/-- JavaScript `x >> k`: sign-propagating right shift of the 32-bit value. -/
def jsShr (x : Int) (k : Nat) : Int := Int.fdiv (toInt32 x) (2 ^ (k % 32))

/-- JavaScript `x | y` on 32-bit integers. -/
def jsOr (x y : Int) : Int := toInt32 (Int.ofNat (toUint32 x ||| toUint32 y))

/-- JavaScript `x & y` on 32-bit integers. -/
def jsAnd (x y : Int) : Int := toInt32 (Int.ofNat (toUint32 x &&& toUint32 y))

/-! ## `MathUtils` (utils.js) -/

/-- `MathUtils.getConnectionKey(i, j)`: `i < j ? (i << 16) | j : (j << 16) | i`. -/
def getConnectionKey (i j : Nat) : Int :=
  if i < j then jsOr (jsShl (Int.ofNat i) 16) (Int.ofNat j)
  else jsOr (jsShl (Int.ofNat j) 16) (Int.ofNat i)

/-- The decoding of a key in `updatePersistentConnections`:
`i = (key >> 16) & 0xFFFF`, `j = key & 0xFFFF`. -/
def decodeConnectionKey (key : Int) : Nat × Nat :=
  ((jsAnd (jsShr key 16) 65535).toNat, (jsAnd key 65535).toNat)


/-- `MathUtils.easeInOutQuint(t)`:
`t < 0.5 ? 16 * t * t * t * t * t : 1 - Math.pow(-2 * t + 2, 5) / 2`. -/
def easeInOutQuint {K : Type} [LinearOrderedField K] (t : K) : K :=
  if t < 1 / 2 then 16 * t * t * t * t * t else 1 - (-2 * t + 2) ^ 5 / 2

/-! ## Vectors, particles and configuration -/

/-- A `THREE.Vector3`. -/
structure Vector3 (K : Type) where
  x : K
  y : K
  z : K
deriving DecidableEq

/-- An entry of `ParticleSystem.particles`: `{ position, basePosition }`. -/
structure Particle (K : Type) where
  position : Vector3 K
  basePosition : Vector3 K
deriving DecidableEq

/-- The entries of `CONFIG` (config.js) that the motion engine and the connection
manager read. -/
structure Config (K : Type) where
  PARTICLE_COUNT : Nat
  SPHERE_RADIUS : K
  ENTROPY_FACTOR : K
  CONNECTION_DISTANCE : K
  MOVE_DURATION : K
  WAIT_DURATION : K
  RESET_CYCLE_COUNT : Nat

/-- The values of config.js. -/
def CONFIG {K : Type} [LinearOrderedField K] : Config K where
  PARTICLE_COUNT := 500
  SPHERE_RADIUS := 10
  ENTROPY_FACTOR := 20 / 100
  CONNECTION_DISTANCE := 32 / 10
  MOVE_DURATION := 5
  WAIT_DURATION := 1 / 10
  RESET_CYCLE_COUNT := 5

section Geometry

variable {K : Type} [LinearOrderedField K]

/-- `Vector3.add`. -/
def Vector3.add (p q : Vector3 K) : Vector3 K := ⟨p.x + q.x, p.y + q.y, p.z + q.z⟩

/-- `Vector3.distanceToSquared`: `dx * dx + dy * dy + dz * dz`. -/
def Vector3.distanceToSquared (p q : Vector3 K) : K :=
  (p.x - q.x) * (p.x - q.x) + (p.y - q.y) * (p.y - q.y) + (p.z - q.z) * (p.z - q.z)

/-- The contract of the library function `Vector3.distanceTo`, the square root of
`distanceToSquared`: a non-negative number whose square is the squared distance. -/
def IsEuclidean (distanceTo : Vector3 K → Vector3 K → K) : Prop :=
  ∀ p q : Vector3 K, 0 ≤ distanceTo p q ∧ distanceTo p q * distanceTo p q = p.distanceToSquared q

/-- `Vector3.lerpVectors(v1, v2, alpha)`: `v1 + (v2 - v1) * alpha` per component. -/
def lerpVectors (v1 v2 : Vector3 K) (alpha : K) : Vector3 K :=
  ⟨v1.x + (v2.x - v1.x) * alpha, v1.y + (v2.y - v1.y) * alpha, v1.z + (v2.z - v1.z) * alpha⟩

/-- `Vector3.fromArray(array, offset)`. The buffers it is applied to are typed arrays of
length `PARTICLE_COUNT * 3` and every offset used is `i * 3` with `i < PARTICLE_COUNT`. -/
def fromArray (array : List K) (offset : Nat) : Vector3 K :=
  ⟨array.getD offset 0, array.getD (offset + 1) 0, array.getD (offset + 2) 0⟩

/-- The value that a `Float32Array` holds after the three components of `v` are written to
it: each component narrowed by `fround`. -/
def froundVec (fround : K → K) (v : Vector3 K) : Vector3 K :=
  ⟨fround v.x, fround v.y, fround v.z⟩

/-- The three writes `a[i * 3] = v.x; a[i * 3 + 1] = v.y; a[i * 3 + 2] = v.z`
(also `BufferAttribute.setXYZ(i, x, y, z)` on an attribute of item size 3) into a
`Float32Array`: every write narrows the number to single precision, `fround` being that
narrowing (`Math.fround`). A typed array ignores a write past its end. -/
def setXYZ (fround : K → K) (a : List K) (i : Nat) (v : Vector3 K) : List K :=
  ((a.set (i * 3) (fround v.x)).set (i * 3 + 1) (fround v.y)).set (i * 3 + 2) (fround v.z)

/-- `TypedArray.prototype.set(source)`: the entries of `source` overwrite the front of
`target`. It is called on buffers of equal length only, both `Float32Array`, so the entries
are copied unchanged. -/
def typedArraySet (target source : List K) : List K :=
  source ++ target.drop source.length

end Geometry

/-! ## Single precision -/

/-- Rounding to the nearest integer, ties to the even one. -/
def roundHalfEven (x : ℚ) : ℤ :=
  if x - ⌊x⌋ < 1 / 2 then ⌊x⌋
  else if 1 / 2 < x - ⌊x⌋ then ⌊x⌋ + 1
  else if ⌊x⌋ % 2 = 0 then ⌊x⌋ else ⌊x⌋ + 1

/-- `Math.fround` on the rationals, the narrowing of a write to a `Float32Array`: round to
the nearest number `n * 2 ^ (e - 23)`, ties to even, where `e` is the binary exponent of `x`
and at least `-126` (below that the spacing of the subnormal numbers applies). It is meant
for `|x| < 2 ^ 128`, the finite range of single precision. -/
def fround32 (x : ℚ) : ℚ :=
  if x = 0 then 0
  else (roundHalfEven (x / 2 ^ (max (Int.log 2 |x|) (-126) - 23)) : ℚ)
    * 2 ^ (max (Int.log 2 |x|) (-126) - 23)

/-! ## `ConnectionSystem` (ConnectionSystem.js) -/

/-- `CONFIG.CONNECTION_MODES`. -/
inductive ConnectionMode where
  | DYNAMIC
  | PERSISTENT
deriving DecidableEq

/-- The fields of a `ConnectionSystem` that its methods compute with. The JavaScript `Set`
`persistentConnections` is the list of its keys in insertion order. -/
structure ConnectionSystem (K : Type) where
  connectionMode : ConnectionMode
  persistentConnections : List Int
  linePositions : List K
  lineColors : List K

/-- `Set.prototype.add`: a key already present stays where it is, a new key goes last. -/
def setAdd (s : List Int) (key : Int) : List Int :=
  if key ∈ s then s else s ++ [key]

/-- The index pairs visited by
`for (i = 0; i < n; i++) for (j = i + 1; j < n; j++)`, in order. -/
def indexPairs (n : Nat) : List (Nat × Nat) :=
  (List.range n).flatMap fun i => (List.range' (i + 1) (n - (i + 1))).map fun j => (i, j)

section Connections

variable {K : Type} [LinearOrderedField K]

/-- The state built by the constructor: DYNAMIC mode, empty set, empty buffers. -/
def ConnectionSystem.new : ConnectionSystem K :=
  { connectionMode := ConnectionMode.DYNAMIC, persistentConnections := [],
    linePositions := [], lineColors := [] }

/-- The body of the double loop of `initializePersistentConnections`, at the pair `ij`;
`none` is the TypeError of reading `.position` of a missing particle. -/
def seedStep (distanceTo : Vector3 K → Vector3 K → K) (cfg : Config K)
    (particles : List (Particle K)) (s : ConnectionSystem K) (ij : Nat × Nat) :
    Option (ConnectionSystem K) := do
  let pi ← particles[ij.1]?
  let pj ← particles[ij.2]?
  let dist := distanceTo pi.position pj.position
  if dist < cfg.CONNECTION_DISTANCE then
    pure { s with persistentConnections :=
                    setAdd s.persistentConnections (getConnectionKey ij.1 ij.2) }
  else pure s

/-- `initializePersistentConnections(particles)`; `none` as argument is a call without
argument (`if (!particles) return;`). -/
def initializePersistentConnections (distanceTo : Vector3 K → Vector3 K → K) (cfg : Config K)
    (particles : Option (List (Particle K))) (s : ConnectionSystem K) :
    Option (ConnectionSystem K) :=
  match particles with
  | none => some s
  | some particles =>
    (indexPairs particles.length).foldlM (seedStep distanceTo cfg particles)
      { s with persistentConnections := [] }

/-- `setConnectionMode(mode)`: it calls `initializePersistentConnections()` without
argument. -/
def setConnectionMode (distanceTo : Vector3 K → Vector3 K → K) (cfg : Config K)
    (mode : ConnectionMode) (s : ConnectionSystem K) : Option (ConnectionSystem K) :=
  let s := { s with connectionMode := mode }
  match mode with
  | ConnectionMode.PERSISTENT => initializePersistentConnections distanceTo cfg none s
  | ConnectionMode.DYNAMIC => some { s with persistentConnections := [] }

/-- The six scalars that `addLineSegment` pushes on `lineColors`. -/
def segmentColors (cfg : Config K) (dist : K) (isDynamic : Bool) : List K :=
  if isDynamic then
    let normalizedDist := dist / cfg.CONNECTION_DISTANCE
    let proximity := 1 - normalizedDist
    let r := max (3 / 10) (7 / 10 + proximity * (2 / 10))
    let g := max (3 / 10) (3 / 10 + proximity * (8 / 10))
    let b := max (3 / 10) (3 / 10 + proximity * (8 / 10))
    [r, g, b, r, g, b]
  else
    let intensity := max (3 / 10) (1 - dist / cfg.CONNECTION_DISTANCE)
    [intensity, intensity * (5 / 10), 2 / 10, intensity, intensity * (5 / 10), 2 / 10]

/-- `addLineSegment(particles, i, j, dist, isDynamic)`; `none` is the TypeError of reading
`.position` of a missing particle. -/
def addLineSegment (cfg : Config K) (particles : List (Particle K)) (i j : Nat) (dist : K)
    (isDynamic : Bool) (s : ConnectionSystem K) : Option (ConnectionSystem K) := do
  let pi ← particles[i]?
  let pj ← particles[j]?
  pure { s with
    linePositions := s.linePositions ++
      [pi.position.x, pi.position.y, pi.position.z,
       pj.position.x, pj.position.y, pj.position.z],
    lineColors := s.lineColors ++ segmentColors cfg dist isDynamic }

/-- The body of the double loop of `updateDynamicConnections`, at the pair `ij`. -/
def dynamicStep (distanceTo : Vector3 K → Vector3 K → K) (cfg : Config K)
    (particles : List (Particle K)) (s : ConnectionSystem K) (ij : Nat × Nat) :
    Option (ConnectionSystem K) := do
  let pi ← particles[ij.1]?
  let pj ← particles[ij.2]?
  let dist := distanceTo pi.position pj.position
  if dist < cfg.CONNECTION_DISTANCE then addLineSegment cfg particles ij.1 ij.2 dist true s
  else pure s

/-- `updateDynamicConnections(particles)`. -/
def updateDynamicConnections (distanceTo : Vector3 K → Vector3 K → K) (cfg : Config K)
    (particles : List (Particle K)) (s : ConnectionSystem K) : Option (ConnectionSystem K) :=
  (indexPairs particles.length).foldlM (dynamicStep distanceTo cfg particles)
    { s with linePositions := [], lineColors := [] }

/-- The body of the first double loop of `updatePersistentConnections` (the check for new
connections), at the pair `ij`. -/
def scanStep (distanceTo : Vector3 K → Vector3 K → K) (cfg : Config K)
    (particles : List (Particle K)) (s : ConnectionSystem K) (ij : Nat × Nat) :
    Option (ConnectionSystem K) := do
  let pi ← particles[ij.1]?
  let pj ← particles[ij.2]?
  let dist := distanceTo pi.position pj.position
  let key := getConnectionKey ij.1 ij.2
  if dist < cfg.CONNECTION_DISTANCE ∧ ¬ key ∈ s.persistentConnections then
    pure { s with persistentConnections := setAdd s.persistentConnections key }
  else pure s

/-- The body of the second loop of `updatePersistentConnections` (the drawing of all
persistent connections), at the key `key`; `i = (key >> 16) & 0xFFFF` and `j = key & 0xFFFF`
are the components of `decodeConnectionKey key`. -/
def drawStep (distanceTo : Vector3 K → Vector3 K → K) (cfg : Config K)
    (particles : List (Particle K)) (s : ConnectionSystem K) (key : Int) :
    Option (ConnectionSystem K) := do
  let i := (decodeConnectionKey key).1
  let j := (decodeConnectionKey key).2
  let pi ← particles[i]?
  let pj ← particles[j]?
  let dist := distanceTo pi.position pj.position
  addLineSegment cfg particles i j dist false s

/-- `updatePersistentConnections(particles)` (the material properties it resets are not
part of the state). -/
def updatePersistentConnections (distanceTo : Vector3 K → Vector3 K → K) (cfg : Config K)
    (particles : List (Particle K)) (s : ConnectionSystem K) : Option (ConnectionSystem K) := do
  let s ← (indexPairs particles.length).foldlM (scanStep distanceTo cfg particles)
    { s with linePositions := [], lineColors := [] }
  s.persistentConnections.foldlM (drawStep distanceTo cfg particles) s

/-- `update(particles)`: the dispatch on the mode (the render geometry that `updateGeometry`
rebuilds from the two buffers is not part of the state). -/
def ConnectionSystem.update (distanceTo : Vector3 K → Vector3 K → K) (cfg : Config K)
    (particles : List (Particle K)) (s : ConnectionSystem K) : Option (ConnectionSystem K) :=
  match s.connectionMode with
  | ConnectionMode.DYNAMIC => updateDynamicConnections distanceTo cfg particles s
  | ConnectionMode.PERSISTENT => updatePersistentConnections distanceTo cfg particles s

/-- `resetConnections()`. -/
def resetConnections (s : ConnectionSystem K) : ConnectionSystem K :=
  { s with persistentConnections := [] }

/-- `ParticleSystemApp.setConnectionMode(mode)`: the connection system's `setConnectionMode`,
then, for PERSISTENT, `initializePersistentConnections(particleSystem.getParticles())`. -/
def appSetConnectionMode (distanceTo : Vector3 K → Vector3 K → K) (cfg : Config K)
    (particles : List (Particle K)) (mode : ConnectionMode) (s : ConnectionSystem K) :
    Option (ConnectionSystem K) := do
  let s ← setConnectionMode distanceTo cfg mode s
  if mode = ConnectionMode.PERSISTENT then
    initializePersistentConnections distanceTo cfg (some particles) s
  else pure s

/-! ### The render geometry and the calls of the connection system -/

/-- The three branches of `updateGeometry`. -/
inductive GeometryAction where
  | installEmpty
  | recreate
  | updateInPlace
deriving DecidableEq

/-- `currentLineCount` in `updateGeometry`:
`geometry.attributes.position ? geometry.attributes.position.count / 2 : 0`; the argument is
the `count` of the attribute of the three.js geometry, `none` when the attribute is absent. -/
def currentLineCount (positionCount : Option Nat) : K :=
  match positionCount with
  | some count => (count : K) / 2
  | none => 0

/-- The branch that `updateGeometry()` takes, from `this.linePositions` and the `count` of
the position attribute of the current geometry. -/
def updateGeometry (linePositions : List K) (positionCount : Option Nat) : GeometryAction :=
  if linePositions.length > 0 then
    let newLineCount : K := (linePositions.length : K) / 6
    let current : K := currentLineCount positionCount
    if |newLineCount - current| > current * (1 / 10) then GeometryAction.recreate
    else GeometryAction.updateInPlace
  else GeometryAction.installEmpty

/-- What the model keeps of a three.js `LineSegmentsGeometry`: `positionCount` is
`attributes.position.count`, and `instancePositions` is the array last given to
`setPositions`, six scalars for every segment that the geometry renders. -/
structure LineSegmentsGeometry (K : Type) where
  positionCount : Nat
  instancePositions : List K

/-- The constructor `new LineSegmentsGeometry()` of three.js: it sets the attribute
`position` to the eight vertices of the quad that is drawn once for every segment; no
segment is rendered yet. -/
def LineSegmentsGeometry.new : LineSegmentsGeometry K :=
  { positionCount := 8, instancePositions := [] }

/-- The method `setPositions(array)` of three.js: the segments go to the attributes
`instanceStart` and `instanceEnd`; the attribute `position` is not touched. -/
def LineSegmentsGeometry.setPositions (g : LineSegmentsGeometry K) (array : List K) :
    LineSegmentsGeometry K :=
  { g with instancePositions := array }

/-- The number of segments that a geometry renders. -/
def renderedLineCount (g : LineSegmentsGeometry K) : K :=
  (g.instancePositions.length : K) / 6

/-- The geometry of `this.lines` after `updateGeometry()`, from `this.linePositions` and
the geometry before the call. -/
def updateGeometryOf (linePositions : List K) (g : LineSegmentsGeometry K) :
    LineSegmentsGeometry K :=
  match updateGeometry linePositions (some g.positionCount) with
  | GeometryAction.recreate =>
    LineSegmentsGeometry.setPositions LineSegmentsGeometry.new linePositions
  | GeometryAction.updateInPlace => LineSegmentsGeometry.setPositions g linePositions
  | GeometryAction.installEmpty => LineSegmentsGeometry.new

/-- The geometry of `this.lines` after `createLinesMesh()` and a sequence of calls of
`updateGeometry()`, given the contents of `this.linePositions` at every call. -/
def geometryAfter (calls : List (List K)) : LineSegmentsGeometry K :=
  calls.foldl (fun g linePositions => updateGeometryOf linePositions g)
    (LineSegmentsGeometry.setPositions LineSegmentsGeometry.new [])

/-- A call of one of the methods `setConnectionMode`, `update`, `resetConnections`. -/
inductive ConnectionCall (K : Type) where
  | setConnectionMode (mode : ConnectionMode)
  | update (particles : List (Particle K))
  | resetConnections

/-- The effect of one call; `none` is a TypeError. -/
def ConnectionSystem.call (distanceTo : Vector3 K → Vector3 K → K) (cfg : Config K)
    (s : ConnectionSystem K) (c : ConnectionCall K) : Option (ConnectionSystem K) :=
  match c with
  | ConnectionCall.setConnectionMode mode => setConnectionMode distanceTo cfg mode s
  | ConnectionCall.update particles => ConnectionSystem.update distanceTo cfg particles s
  | ConnectionCall.resetConnections => some (resetConnections s)

/-- A sequence of calls, in order. -/
def ConnectionSystem.calls (distanceTo : Vector3 K → Vector3 K → K) (cfg : Config K)
    (cs : List (ConnectionCall K)) (s : ConnectionSystem K) : Option (ConnectionSystem K) :=
  cs.foldlM (ConnectionSystem.call distanceTo cfg) s

/-! ### Vocabulary of the statements about connections -/

/-- The six scalars of the segment that joins the particles `ij.1` and `ij.2`: the
coordinates of the first, then of the second. -/
def segmentPositions (particles : List (Particle K)) (ij : Nat × Nat) : List K :=
  match particles[ij.1]?, particles[ij.2]? with
  | some pi, some pj =>
    [pi.position.x, pi.position.y, pi.position.z, pj.position.x, pj.position.y, pj.position.z]
  | _, _ => []

/-- The pair `(i, j)` is connected: `i < j`, both particles exist and their distance is
strictly below `CONNECTION_DISTANCE`. -/
def Connected (distanceTo : Vector3 K → Vector3 K → K) (cfg : Config K)
    (particles : List (Particle K)) (i j : Nat) : Prop :=
  i < j ∧ ∃ pi pj, particles[i]? = some pi ∧ particles[j]? = some pj ∧
    distanceTo pi.position pj.position < cfg.CONNECTION_DISTANCE

/-- Boolean form of `Connected` for a pair of valid indices: the test `dist < CONFIG.CONNECTION_DISTANCE`
of the three double loops. -/
def isClose (distanceTo : Vector3 K → Vector3 K → K) (cfg : Config K)
    (particles : List (Particle K)) (ij : Nat × Nat) : Bool :=
  match particles[ij.1]?, particles[ij.2]? with
  | some pi, some pj => decide (distanceTo pi.position pj.position < cfg.CONNECTION_DISTANCE)
  | _, _ => false

/-- The distance between the particles `ij.1` and `ij.2` (0 when one is missing). -/
def pairDistance (distanceTo : Vector3 K → Vector3 K → K) (particles : List (Particle K))
    (ij : Nat × Nat) : K :=
  match particles[ij.1]?, particles[ij.2]? with
  | some pi, some pj => distanceTo pi.position pj.position
  | _, _ => 0

/-- The red channel of a dynamic segment in the words of the specification:
`max(0.3, 0.7 + 0.2 p)` with `p = 1 - d / CONNECTION_DISTANCE`. -/
def specDynamicRed (cfg : Config K) (d : K) : K :=
  max (3 / 10) (7 / 10 + 2 / 10 * (1 - d / cfg.CONNECTION_DISTANCE))

/-- The green and blue channels of a dynamic segment in the words of the specification:
`max(0.3, 0.3 + 0.8 p)` with `p = 1 - d / CONNECTION_DISTANCE`. -/
def specDynamicGreenBlue (cfg : Config K) (d : K) : K :=
  max (3 / 10) (3 / 10 + 8 / 10 * (1 - d / cfg.CONNECTION_DISTANCE))

/-- The configuration of the scenario: the values of config.js with threshold 1.5. -/
def scenarioConfig : Config K := { (CONFIG : Config K) with CONNECTION_DISTANCE := 3 / 2 }

/-- A particle at `(x, y, z)`. -/
def particleAt (x y z : K) : Particle K :=
  { position := ⟨x, y, z⟩, basePosition := ⟨x, y, z⟩ }

/-- The four particles of the scenario: `(0,0,0)`, `(1,0,0)`, `(10,0,0)`, `(10,1,0)`. -/
def scenarioParticles : List (Particle K) :=
  [particleAt 0 0 0, particleAt 1 0 0, particleAt 10 0 0, particleAt 10 1 0]

/-- The scenario after particle 1 has moved to `(100,0,0)`; `basePosition` stays. -/
def scenarioMoved : List (Particle K) :=
  [particleAt 0 0 0, { position := ⟨100, 0, 0⟩, basePosition := ⟨1, 0, 0⟩ },
   particleAt 10 0 0, particleAt 10 1 0]

end Connections

/-! ## `ParticleSystem` (ParticleSystem.js) -/

/-- `CONFIG.ANIMATION_STATES`. -/
inductive AnimationState where
  | WAITING
  | MOVING
deriving DecidableEq

/-- The fields of a `ParticleSystem`. `positionAttribute` is the array of
`points.geometry.attributes.position`. `cycleLog` is a history variable that is not in the
source: the `reset` argument of every call of `startNewCycle` so far, oldest first. -/
structure ParticleSystem (K : Type) where
  particles : List (Particle K)
  startPositions : List K
  endPositions : List K
  originalPositions : List K
  positionAttribute : List K
  currentState : AnimationState
  progress : K
  resetProgress : Nat
  cycleLog : List Bool

/-- The random draws of one call of `startNewCycle(false)`: the two matrices of
`MathUtils.createRandomMatrix()` and the group (0 or 1) drawn for every particle. -/
structure CycleRandom (M : Type) where
  matrix1 : M
  matrix2 : M
  particleGroups : Nat → Nat

/-- The functions and the constant of the JavaScript `Math` object that
`generateSpherePoint` uses; they are parameters of the model. -/
structure JsMath (K : Type) where
  sin : K → K
  cos : K → K
  acos : K → K
  PI : K

/-- The five draws of `Math.random()` for one particle of `createParticles`, in call order:
two in `generateSpherePoint` (for `theta` and `phi`), three for the entropy vector. -/
structure ParticleRandom (K : Type) where
  r1 : K
  r2 : K
  r3 : K
  r4 : K
  r5 : K

section Motion

variable {K : Type} [LinearOrderedField K] {M : Type}

/-- The buffers are typed arrays of length `PARTICLE_COUNT * 3`, fixed at construction, and
`particles` has `PARTICLE_COUNT` entries. -/
def ParticleSystem.WellFormed (cfg : Config K) (s : ParticleSystem K) : Prop :=
  s.particles.length = cfg.PARTICLE_COUNT ∧
  s.startPositions.length = cfg.PARTICLE_COUNT * 3 ∧
  s.endPositions.length = cfg.PARTICLE_COUNT * 3 ∧
  s.originalPositions.length = cfg.PARTICLE_COUNT * 3 ∧
  s.positionAttribute.length = cfg.PARTICLE_COUNT * 3

/-- The body of the loop of `createParticles`, at particle `i` with the position generated
for it. -/
def createStep (fround : K → K) (currentPosition : Nat → Vector3 K) (s : ParticleSystem K)
    (i : Nat) : ParticleSystem K :=
  { s with
    positionAttribute := setXYZ fround s.positionAttribute i (currentPosition i),
    startPositions := setXYZ fround s.startPositions i (currentPosition i),
    endPositions := setXYZ fround s.endPositions i (currentPosition i),
    originalPositions := setXYZ fround s.originalPositions i (currentPosition i),
    particles := s.particles ++
      [{ position := currentPosition i, basePosition := currentPosition i }] }

/-- The constructor with `createParticles`: the sphere point and the entropy vector drawn
for particle `i` are `basePosition i` and `entropy i`. -/
def ParticleSystem.new (fround : K → K) (cfg : Config K)
    (basePosition entropy : Nat → Vector3 K) : ParticleSystem K :=
  (List.range cfg.PARTICLE_COUNT).foldl
    (createStep fround (fun i => (basePosition i).add (entropy i)))
    { particles := [],
      startPositions := List.replicate (cfg.PARTICLE_COUNT * 3) 0,
      endPositions := List.replicate (cfg.PARTICLE_COUNT * 3) 0,
      originalPositions := List.replicate (cfg.PARTICLE_COUNT * 3) 0,
      positionAttribute := List.replicate (cfg.PARTICLE_COUNT * 3) 0,
      currentState := AnimationState.WAITING,
      progress := 0,
      resetProgress := 0,
      cycleLog := [] }

/-- The body of the loop of `startNewCycle` that calculates the new target positions, at
particle `i`. -/
def cycleStep (fround : K → K) (applyMatrix4 : M → Vector3 K → Vector3 K)
    (rnd : CycleRandom M) (s : ParticleSystem K) (i : Nat) : ParticleSystem K :=
  let tempVec := fromArray s.startPositions (i * 3)
  let tempVec :=
    if rnd.particleGroups i = 0 then applyMatrix4 rnd.matrix1 tempVec
    else applyMatrix4 rnd.matrix2 tempVec
  { s with endPositions := setXYZ fround s.endPositions i tempVec }

/-- `startNewCycle(reset)`. -/
def startNewCycle (fround : K → K) (applyMatrix4 : M → Vector3 K → Vector3 K)
    (cfg : Config K) (rnd : CycleRandom M) (reset : Bool) (s : ParticleSystem K) :
    ParticleSystem K :=
  let s := { s with startPositions := typedArraySet s.startPositions s.endPositions,
                    cycleLog := s.cycleLog ++ [reset] }
  if !reset then
    (List.range cfg.PARTICLE_COUNT).foldl (cycleStep fround applyMatrix4 rnd) s
  else
    { s with endPositions := typedArraySet s.endPositions s.originalPositions }

/-- The body of the interpolation loop of `updateMovingState`, at particle `i`. -/
def moveStep (fround : K → K) (easedProgress : K) (s : ParticleSystem K) (i : Nat) :
    ParticleSystem K :=
  let tempVecStart := fromArray s.startPositions (i * 3)
  let tempVecEnd := fromArray s.endPositions (i * 3)
  let finalPos := lerpVectors tempVecStart tempVecEnd easedProgress
  { s with
    positionAttribute := setXYZ fround s.positionAttribute i finalPos,
    particles := s.particles.modify (fun p => { p with position := finalPos }) i }

/-- `updateMovingState(deltaTime, positionAttribute)`. -/
def updateMovingState (fround : K → K) (cfg : Config K) (deltaTime : K)
    (s : ParticleSystem K) : ParticleSystem K :=
  let s := { s with progress := s.progress + deltaTime / cfg.MOVE_DURATION }
  let linearProgress := min s.progress 1
  let easedProgress := easeInOutQuint linearProgress
  let s : ParticleSystem K :=
    (List.range cfg.PARTICLE_COUNT).foldl (moveStep fround easedProgress) s
  if s.progress ≥ 1 then
    { s with progress := 0, currentState := AnimationState.WAITING }
  else s

/-- `updateWaitingState(deltaTime)`. -/
def updateWaitingState (fround : K → K) (applyMatrix4 : M → Vector3 K → Vector3 K)
    (cfg : Config K) (rnd : CycleRandom M) (deltaTime : K) (s : ParticleSystem K) :
    ParticleSystem K :=
  let s := { s with progress := s.progress + deltaTime / cfg.WAIT_DURATION }
  if s.progress ≥ 1 then
    let s := { s with resetProgress := s.resetProgress + 1 }
    let shouldReset : Bool := decide (s.resetProgress ≥ cfg.RESET_CYCLE_COUNT)
    let s : ParticleSystem K :=
      if shouldReset then
        startNewCycle fround applyMatrix4 cfg rnd true { s with resetProgress := 0 }
      else
        startNewCycle fround applyMatrix4 cfg rnd false s
    { s with progress := 0, currentState := AnimationState.MOVING }
  else s

/-- `update(deltaTime)`; `rnd` holds the random draws the call makes if it starts a cycle. -/
def ParticleSystem.update (fround : K → K) (applyMatrix4 : M → Vector3 K → Vector3 K)
    (cfg : Config K) (rnd : CycleRandom M) (deltaTime : K) (s : ParticleSystem K) :
    ParticleSystem K :=
  match s.currentState with
  | AnimationState.MOVING => updateMovingState fround cfg deltaTime s
  | AnimationState.WAITING => updateWaitingState fround applyMatrix4 cfg rnd deltaTime s

/-- A sequence of `update` calls, each with its delta time and its random draws. -/
def ParticleSystem.updates (fround : K → K) (applyMatrix4 : M → Vector3 K → Vector3 K)
    (cfg : Config K) (s : ParticleSystem K) (calls : List (K × CycleRandom M)) :
    ParticleSystem K :=
  calls.foldl (fun s c => ParticleSystem.update fround applyMatrix4 cfg c.2 c.1 s) s

/-- The position of particle `i` (the zero vector stands for a missing particle). -/
def ParticleSystem.position (s : ParticleSystem K) (i : Nat) : Vector3 K :=
  match s.particles[i]? with
  | some p => p.position
  | none => ⟨0, 0, 0⟩

/-- `Vector3.lengthSq`: `x * x + y * y + z * z`. -/
def Vector3.lengthSq (v : Vector3 K) : K := v.x * v.x + v.y * v.y + v.z * v.z

/-- `MathUtils.generateSpherePoint(radius)` with its two draws of `Math.random()`. -/
def generateSpherePoint (m : JsMath K) (radius : K) (random1 random2 : K) : Vector3 K :=
  let theta := random1 * m.PI * 2
  let phi := m.acos (2 * random2 - 1)
  ⟨radius * m.sin phi * m.cos theta, radius * m.sin phi * m.sin theta, radius * m.cos phi⟩

/-- The entropy vector of `createParticles`:
`(Math.random() - 0.5) * CONFIG.ENTROPY_FACTOR * CONFIG.SPHERE_RADIUS` per component. -/
def entropyVector (cfg : Config K) (r : ParticleRandom K) : Vector3 K :=
  ⟨(r.r3 - 1 / 2) * cfg.ENTROPY_FACTOR * cfg.SPHERE_RADIUS,
   (r.r4 - 1 / 2) * cfg.ENTROPY_FACTOR * cfg.SPHERE_RADIUS,
   (r.r5 - 1 / 2) * cfg.ENTROPY_FACTOR * cfg.SPHERE_RADIUS⟩

/-- `currentPosition` of particle `i` in `createParticles`:
`basePosition.clone().add(entropy)`. -/
def createdPosition (m : JsMath K) (cfg : Config K) (draws : Nat → ParticleRandom K)
    (i : Nat) : Vector3 K :=
  (generateSpherePoint m cfg.SPHERE_RADIUS (draws i).r1 (draws i).r2).add
    (entropyVector cfg (draws i))

/-- The constructor with `createParticles`, the draws of `Math.random()` for particle `i`
being `draws i`. -/
def createParticles (fround : K → K) (m : JsMath K) (cfg : Config K)
    (draws : Nat → ParticleRandom K) : ParticleSystem K :=
  ParticleSystem.new fround cfg
    (fun i => generateSpherePoint m cfg.SPHERE_RADIUS (draws i).r1 (draws i).r2)
    (fun i => entropyVector cfg (draws i))

/-- Every particle below `PARTICLE_COUNT` sits on its `endPositions` entry. -/
def OnTargets (cfg : Config K) (s : ParticleSystem K) : Prop :=
  ∀ i < cfg.PARTICLE_COUNT, s.position i = fromArray s.endPositions (i * 3)

/-- Every particle below `PARTICLE_COUNT` sits on the eased interpolation between its
`startPositions` and `endPositions` entries. -/
def Interpolated (cfg : Config K) (s : ParticleSystem K) : Prop :=
  ∀ i < cfg.PARTICLE_COUNT,
    s.position i = lerpVectors (fromArray s.startPositions (i * 3))
      (fromArray s.endPositions (i * 3)) (easeInOutQuint (min s.progress 1))

/-- The invariant of the motion engine. The state is well-formed. In WAITING, either a
cycle has been started and every particle sits on its `endPositions` entry, or no cycle has
been started yet and `endPositions` holds the single-precision narrowing of every position.
In MOVING a cycle has been started, and every particle sits on the eased interpolation, or
the state is the one right after the first transition to MOVING (progress 0, one cycle
started) and `startPositions` holds the narrowing of every position. -/
def MotionInvariant (fround : K → K) (cfg : Config K) (s : ParticleSystem K) : Prop :=
  s.WellFormed cfg ∧
  (s.currentState = AnimationState.WAITING →
    (s.cycleLog ≠ [] ∧ OnTargets cfg s) ∨
    (s.cycleLog = [] ∧ ∀ i < cfg.PARTICLE_COUNT,
      fromArray s.endPositions (i * 3) = froundVec fround (s.position i))) ∧
  (s.currentState = AnimationState.MOVING →
    s.cycleLog ≠ [] ∧
    (Interpolated cfg s ∨
      (s.progress = 0 ∧ s.cycleLog.length = 1 ∧ ∀ i < cfg.PARTICLE_COUNT,
        fromArray s.startPositions (i * 3) = froundVec fround (s.position i))))

/-- Random draws for a run without matrices: `M` is `Unit` and every group is 0. -/
def idleRandom : CycleRandom Unit :=
  { matrix1 := (), matrix2 := (), particleGroups := fun _ => 0 }

/-- The motion engine of config.js with every particle generated at the origin. -/
@[irreducible]
def originSystem (fround : K → K) : ParticleSystem K :=
  ParticleSystem.new fround CONFIG (fun _ => ⟨0, 0, 0⟩) (fun _ => ⟨0, 0, 0⟩)

/-- The function `applyMatrix4` for the matrix of a translation by `m` along the x-axis
(`Matrix4.compose` with no rotation and scale 1). -/
def translateX (m : K) (v : Vector3 K) : Vector3 K := ⟨v.x + m, v.y, v.z⟩

/-- The invariant of the cycle counter: `resetProgress` stays below `RESET_CYCLE_COUNT`, it
is the number of cycles started so far modulo `RESET_CYCLE_COUNT`, and the `n`-th cycle
(counted from 1) was started as a reset cycle exactly when `RESET_CYCLE_COUNT` divides `n`. -/
def CycleInvariant (cfg : Config K) (s : ParticleSystem K) : Prop :=
  s.resetProgress < cfg.RESET_CYCLE_COUNT ∧
  s.resetProgress = s.cycleLog.length % cfg.RESET_CYCLE_COUNT ∧
  ∀ n, n < s.cycleLog.length →
    s.cycleLog[n]? = some (decide (cfg.RESET_CYCLE_COUNT ∣ n + 1))

end Motion

/-- A `Math` object on the rationals for a particle generated on the x-axis: `sin` and `cos`
have the values of the real functions at the angle 0 and, at every other angle, their
values at a right angle; `acos` returns such an angle. `sin² + cos² = 1` holds at every
angle. -/
def axisMath : JsMath ℚ :=
  { sin := fun x => if x = 0 then 0 else 1,
    cos := fun x => if x = 0 then 1 else 0,
    acos := fun _ => 1,
    PI := 3 }

/-- Draws of `Math.random()` for a particle generated on the x-axis: 0 and 0.5 for the sphere
point `(10, 0, 0)`, then 0.45, 0.5, 0.5 for the entropy vector `(-0.1, 0, 0)`. -/
def axisDraws : Nat → ParticleRandom ℚ :=
  fun _ => { r1 := 0, r2 := 1 / 2, r3 := 9 / 20, r4 := 1 / 2, r5 := 1 / 2 }

/-- The motion engine of config.js constructed with the draws `axisDraws`, its buffers being
`Float32Array`: every particle is generated at `(9.9, 0, 0)`. -/
@[irreducible]
def axisSystem : ParticleSystem ℚ :=
  createParticles fround32 axisMath CONFIG axisDraws

/-! ## Lemmas -/

/-! ### Arithmetic of the packed key -/

theorem toUint32_ofNat (n : Nat) : toUint32 (Int.ofNat n) = n % 4294967296 := by
  unfold toUint32
  have h : (Int.ofNat n) % 4294967296 = Int.ofNat (n % 4294967296) := by
    simp [Int.ofNat_eq_coe]
  rw [h]
  rfl

theorem toUint32_toInt32 (x : Int) : toUint32 (toInt32 x) = toUint32 x := by
  unfold toUint32 toInt32
  split <;> congr 1 <;> omega

theorem toInt32_injOn {a b : Nat} (ha : a < 4294967296) (hb : b < 4294967296)
    (h : toInt32 (Int.ofNat a) = toInt32 (Int.ofNat b)) : a = b := by
  unfold toInt32 at h
  simp only [Int.ofNat_eq_coe] at h
  split at h <;> split at h <;> omega

/-- The unsigned value of `(a << 16) | b` for `a, b < 65536` is `a * 65536 + b`. -/
theorem toUint32_pack {a b : Nat} (ha : a < 65536) (hb : b < 65536) :
    toUint32 (jsOr (jsShl (Int.ofNat a) 16) (Int.ofNat b)) = a * 65536 + b := by
  have hshl : toUint32 (jsShl (Int.ofNat a) 16) = 65536 * a := by
    unfold jsShl
    rw [toUint32_toInt32]
    unfold toUint32 toInt32
    have hp : (2 : Int) ^ (16 % 32) = 65536 := by norm_num
    rw [hp]
    simp only [Int.ofNat_eq_coe]
    split <;> omega
  unfold jsOr
  rw [toUint32_toInt32, toUint32_ofNat, hshl, toUint32_ofNat]
  have hb' : b % 4294967296 = b := Nat.mod_eq_of_lt (by omega)
  rw [hb']
  have hor : 2 ^ 16 * a + b = 2 ^ 16 * a ||| b := Nat.mul_add_lt_is_or (by omega) a
  have h16 : (2 : Nat) ^ 16 = 65536 := by norm_num
  rw [h16] at hor
  rw [← hor]
  omega

theorem getConnectionKey_of_lt {i j : Nat} (h : i < j) :
    getConnectionKey i j = jsOr (jsShl (Int.ofNat i) 16) (Int.ofNat j) := by
  simp [getConnectionKey, h]

theorem getConnectionKey_comm (i j : Nat) (h : i ≠ j) :
    getConnectionKey i j = getConnectionKey j i := by
  unfold getConnectionKey
  rcases Nat.lt_or_gt_of_ne h with hlt | hgt
  · have : ¬ j < i := by omega
    simp [hlt, this]
  · have : ¬ i < j := by omega
    simp [hgt, this]

/-- For `i < j < 65536` the unsigned value of the key is `i * 65536 + j`. -/
theorem toUint32_getConnectionKey {i j : Nat} (hij : i < j) (hj : j < 65536) :
    toUint32 (getConnectionKey i j) = i * 65536 + j := by
  rw [getConnectionKey_of_lt hij]
  exact toUint32_pack (by omega) hj

theorem getConnectionKey_inj_of_lt {i j k l : Nat} (hij : i < j) (hkl : k < l)
    (hj : j < 65536) (hl : l < 65536)
    (h : getConnectionKey i j = getConnectionKey k l) : i = k ∧ j = l := by
  have h1 := toUint32_getConnectionKey hij hj
  have h2 := toUint32_getConnectionKey hkl hl
  rw [h] at h1
  omega


theorem toInt32_ofNat_of_lt {n : Nat} (h : n < 2147483648) : toInt32 (Int.ofNat n) = Int.ofNat n := by
  unfold toInt32
  simp only [Int.ofNat_eq_coe]
  split <;> omega

theorem jsAnd_65535_toNat (x : Int) : (jsAnd x 65535).toNat = toUint32 x % 65536 := by
  have h1 : toUint32 65535 = 2 ^ 16 - 1 := by decide
  have h2 : (2 : Nat) ^ 16 = 65536 := by norm_num
  unfold jsAnd
  rw [h1, Nat.and_pow_two_sub_one_eq_mod, h2, toInt32_ofNat_of_lt (by omega)]
  rfl

theorem toUint32_jsShr_16 {key : Int} {a b : Nat} (ha : a < 65536) (hb : b < 65536)
    (h : toUint32 key = a * 65536 + b) : toUint32 (jsShr key 16) % 65536 = a := by
  have hp : (2 : Int) ^ (16 % 32) = 65536 := by norm_num
  unfold jsShr
  rw [hp, Int.fdiv_eq_ediv _ (by norm_num)]
  unfold toUint32 toInt32 at *
  split <;> omega

/-- The decoding of `updatePersistentConnections` recovers the pair behind a key. -/
theorem decodeConnectionKey_getConnectionKey {i j : Nat} (hij : i < j) (hj : j < 65536) :
    decodeConnectionKey (getConnectionKey i j) = (i, j) := by
  have hu := toUint32_getConnectionKey hij hj
  have hi : i < 65536 := by omega
  unfold decodeConnectionKey
  rw [jsAnd_65535_toNat, jsAnd_65535_toNat, toUint32_jsShr_16 hi hj hu, hu]
  congr 1
  omega

/-! ### The double loop and the key set -/

theorem mem_indexPairs {n i j : Nat} : (i, j) ∈ indexPairs n ↔ i < j ∧ j < n := by
  unfold indexPairs
  simp only [List.mem_flatMap, List.mem_range, List.mem_map, List.mem_range', Prod.mk.injEq]
  constructor
  · rintro ⟨a, ha, b, ⟨c, hc, rfl⟩, rfl, rfl⟩
    omega
  · rintro ⟨h1, h2⟩
    exact ⟨i, by omega, j, ⟨j - (i + 1), by omega, by omega⟩, rfl, rfl⟩

theorem nodup_indexPairs (n : Nat) : (indexPairs n).Nodup := by
  unfold indexPairs
  rw [List.nodup_flatMap]
  constructor
  · intro i _
    refine (List.nodup_range' _ _).map ?_
    intro a b h
    simpa using h
  · refine List.Pairwise.imp ?_ (List.nodup_range n)
    intro a b hab
    simp only [Function.onFun, List.disjoint_left, List.mem_map, not_exists, not_and]
    rintro p ⟨x, _, rfl⟩ y _ h
    have hba : b = a := by simpa using congrArg Prod.fst h
    exact hab hba.symm

theorem mem_foldl_setAdd (ks S : List Int) (k : Int) :
    k ∈ ks.foldl setAdd S ↔ k ∈ S ∨ k ∈ ks := by
  induction ks generalizing S with
  | nil => simp
  | cons a t ih =>
    rw [List.foldl_cons, ih]
    unfold setAdd
    split <;> simp <;> aesop

theorem nodup_foldl_setAdd (ks S : List Int) (h : S.Nodup) : (ks.foldl setAdd S).Nodup := by
  induction ks generalizing S with
  | nil => simpa using h
  | cons a t ih =>
    rw [List.foldl_cons]
    apply ih
    unfold setAdd
    split
    · exact h
    · rename_i hmem
      exact List.Nodup.append h (List.nodup_singleton a) (by simpa using hmem)

theorem foldl_setAdd_of_nodup (ks S : List Int) (h : (S ++ ks).Nodup) :
    ks.foldl setAdd S = S ++ ks := by
  induction ks generalizing S with
  | nil => simp
  | cons a t ih =>
    have ha : a ∉ S := by
      intro hmem
      have := List.nodup_append.mp h
      exact this.2.2 hmem (List.mem_cons_self a t)
    have hstep : setAdd S a = S ++ [a] := by simp [setAdd, ha]
    rw [List.foldl_cons, hstep, ih (S ++ [a]) (by simpa using h)]
    simp

/-! ### The loops of the connection system -/

section ConnectionLemmas

set_option linter.unusedSectionVars false

variable {K : Type} [LinearOrderedField K]

theorem segmentPositions_length (particles : List (Particle K)) {ij : Nat × Nat}
    (h1 : ij.1 < particles.length) (h2 : ij.2 < particles.length) :
    (segmentPositions particles ij).length = 6 := by
  unfold segmentPositions
  rw [List.getElem?_eq_getElem h1, List.getElem?_eq_getElem h2]
  rfl

theorem length_flatMap_segmentPositions (particles : List (Particle K)) (l : List (Nat × Nat))
    (hl : ∀ ij ∈ l, ij.1 < particles.length ∧ ij.2 < particles.length) :
    (l.flatMap (segmentPositions particles)).length = 6 * l.length := by
  induction l with
  | nil => simp
  | cons a t ih =>
    have ha := hl a (List.mem_cons_self a t)
    have ht := ih (fun ij h => hl ij (List.mem_cons_of_mem a h))
    simp only [List.flatMap_cons, List.length_append, List.length_cons, ht,
      segmentPositions_length particles ha.1 ha.2]
    omega

theorem isClose_iff (distanceTo : Vector3 K → Vector3 K → K) (cfg : Config K)
    (particles : List (Particle K)) (i j : Nat) :
    (i < j ∧ isClose distanceTo cfg particles (i, j) = true) ↔
      Connected distanceTo cfg particles i j := by
  unfold isClose Connected
  constructor
  · rintro ⟨hij, h⟩
    refine ⟨hij, ?_⟩
    split at h
    · rename_i pi pj hi hj
      exact ⟨pi, pj, hi, hj, by simpa using h⟩
    · simp at h
  · rintro ⟨hij, pi, pj, hi, hj, h⟩
    refine ⟨hij, ?_⟩
    rw [hi, hj]
    simpa using h

theorem addLineSegment_eq (cfg : Config K) (particles : List (Particle K)) {i j : Nat}
    (hi : i < particles.length) (hj : j < particles.length) (dist : K) (isDynamic : Bool)
    (s : ConnectionSystem K) :
    addLineSegment cfg particles i j dist isDynamic s =
      some { s with
        linePositions := s.linePositions ++ segmentPositions particles (i, j),
        lineColors := s.lineColors ++ segmentColors cfg dist isDynamic } := by
  unfold addLineSegment segmentPositions
  simp only [List.getElem?_eq_getElem hi, List.getElem?_eq_getElem hj]
  rfl

theorem dynamicStep_eq (distanceTo : Vector3 K → Vector3 K → K) (cfg : Config K)
    (particles : List (Particle K)) {ij : Nat × Nat}
    (hi : ij.1 < particles.length) (hj : ij.2 < particles.length) (s : ConnectionSystem K) :
    dynamicStep distanceTo cfg particles s ij =
      some (if isClose distanceTo cfg particles ij = true then
          { s with
            linePositions := s.linePositions ++ segmentPositions particles ij,
            lineColors := s.lineColors ++
              segmentColors cfg (pairDistance distanceTo particles ij) true }
        else s) := by
  unfold dynamicStep isClose pairDistance
  simp only [List.getElem?_eq_getElem hi, List.getElem?_eq_getElem hj, Option.bind_eq_bind,
    Option.some_bind, decide_eq_true_eq]
  split
  · exact addLineSegment_eq cfg particles hi hj _ true s
  · rfl

theorem foldlM_dynamicStep (distanceTo : Vector3 K → Vector3 K → K) (cfg : Config K)
    (particles : List (Particle K)) (l : List (Nat × Nat))
    (hl : ∀ ij ∈ l, ij.1 < particles.length ∧ ij.2 < particles.length)
    (s : ConnectionSystem K) :
    l.foldlM (dynamicStep distanceTo cfg particles) s =
      some { s with
        linePositions := s.linePositions ++
          (l.filter (isClose distanceTo cfg particles)).flatMap (segmentPositions particles),
        lineColors := s.lineColors ++
          (l.filter (isClose distanceTo cfg particles)).flatMap
            (fun ij => segmentColors cfg (pairDistance distanceTo particles ij) true) } := by
  induction l generalizing s with
  | nil => simp
  | cons a t ih =>
    have ha := hl a (List.mem_cons_self a t)
    rw [List.foldlM_cons, dynamicStep_eq distanceTo cfg particles ha.1 ha.2]
    simp only [Option.bind_eq_bind, Option.some_bind]
    rw [ih (fun ij h => hl ij (List.mem_cons_of_mem a h))]
    by_cases hc : isClose distanceTo cfg particles a = true
    · simp [hc, List.filter_cons]
    · simp [hc, List.filter_cons]

/-- The keys that one scan of the pairs `l` offers to the set, in order. -/
theorem scanStep_eq (distanceTo : Vector3 K → Vector3 K → K) (cfg : Config K)
    (particles : List (Particle K)) {ij : Nat × Nat}
    (hi : ij.1 < particles.length) (hj : ij.2 < particles.length) (s : ConnectionSystem K) :
    scanStep distanceTo cfg particles s ij =
      some (if isClose distanceTo cfg particles ij = true then
          { s with persistentConnections :=
                     setAdd s.persistentConnections (getConnectionKey ij.1 ij.2) }
        else s) := by
  unfold scanStep isClose
  simp only [List.getElem?_eq_getElem hi, List.getElem?_eq_getElem hj, Option.bind_eq_bind,
    Option.some_bind, decide_eq_true_eq]
  by_cases hd : distanceTo particles[ij.1].position particles[ij.2].position
      < cfg.CONNECTION_DISTANCE
  · by_cases hm : getConnectionKey ij.1 ij.2 ∈ s.persistentConnections
    · simp [hd, hm, setAdd]
    · simp [hd, hm]
  · simp [hd]

theorem seedStep_eq_scanStep (distanceTo : Vector3 K → Vector3 K → K) (cfg : Config K)
    (particles : List (Particle K)) {ij : Nat × Nat}
    (hi : ij.1 < particles.length) (hj : ij.2 < particles.length) (s : ConnectionSystem K) :
    seedStep distanceTo cfg particles s ij = scanStep distanceTo cfg particles s ij := by
  rw [scanStep_eq distanceTo cfg particles hi hj]
  unfold seedStep isClose
  simp only [List.getElem?_eq_getElem hi, List.getElem?_eq_getElem hj, Option.bind_eq_bind,
    Option.some_bind, decide_eq_true_eq]
  split <;> rfl

theorem foldlM_scanStep (distanceTo : Vector3 K → Vector3 K → K) (cfg : Config K)
    (particles : List (Particle K)) (l : List (Nat × Nat))
    (hl : ∀ ij ∈ l, ij.1 < particles.length ∧ ij.2 < particles.length)
    (s : ConnectionSystem K) :
    l.foldlM (scanStep distanceTo cfg particles) s =
      some { s with persistentConnections :=
        (((l.filter (isClose distanceTo cfg particles)).map
          (fun ij => getConnectionKey ij.1 ij.2)).foldl setAdd s.persistentConnections) } := by
  induction l generalizing s with
  | nil => simp
  | cons a t ih =>
    have ha := hl a (List.mem_cons_self a t)
    rw [List.foldlM_cons, scanStep_eq distanceTo cfg particles ha.1 ha.2]
    simp only [Option.bind_eq_bind, Option.some_bind]
    rw [ih (fun ij h => hl ij (List.mem_cons_of_mem a h))]
    by_cases hc : isClose distanceTo cfg particles a = true
    · simp [hc, List.filter_cons]
    · simp [hc, List.filter_cons]

theorem foldlM_seedStep (distanceTo : Vector3 K → Vector3 K → K) (cfg : Config K)
    (particles : List (Particle K)) (l : List (Nat × Nat))
    (hl : ∀ ij ∈ l, ij.1 < particles.length ∧ ij.2 < particles.length)
    (s : ConnectionSystem K) :
    l.foldlM (seedStep distanceTo cfg particles) s =
      l.foldlM (scanStep distanceTo cfg particles) s := by
  induction l generalizing s with
  | nil => simp
  | cons a t ih =>
    have ha := hl a (List.mem_cons_self a t)
    rw [List.foldlM_cons, List.foldlM_cons, seedStep_eq_scanStep distanceTo cfg particles ha.1 ha.2]
    rw [scanStep_eq distanceTo cfg particles ha.1 ha.2]
    simp only [Option.bind_eq_bind, Option.some_bind]
    exact ih (fun ij h => hl ij (List.mem_cons_of_mem a h)) _

theorem drawStep_eq (distanceTo : Vector3 K → Vector3 K → K) (cfg : Config K)
    (particles : List (Particle K)) {key : Int}
    (hi : (decodeConnectionKey key).1 < particles.length)
    (hj : (decodeConnectionKey key).2 < particles.length) (s : ConnectionSystem K) :
    drawStep distanceTo cfg particles s key =
      some { s with
        linePositions := s.linePositions ++ segmentPositions particles (decodeConnectionKey key),
        lineColors := s.lineColors ++
          segmentColors cfg (pairDistance distanceTo particles (decodeConnectionKey key))
            false } := by
  unfold drawStep
  generalize decodeConnectionKey key = ij at hi hj
  unfold pairDistance
  simp only [List.getElem?_eq_getElem hi, List.getElem?_eq_getElem hj, Option.bind_eq_bind,
    Option.some_bind]
  exact addLineSegment_eq cfg particles hi hj _ false s

theorem foldlM_drawStep (distanceTo : Vector3 K → Vector3 K → K) (cfg : Config K)
    (particles : List (Particle K)) (keys : List Int)
    (hk : ∀ key ∈ keys, (decodeConnectionKey key).1 < particles.length ∧
      (decodeConnectionKey key).2 < particles.length)
    (s : ConnectionSystem K) :
    keys.foldlM (drawStep distanceTo cfg particles) s =
      some { s with
        linePositions := s.linePositions ++
          keys.flatMap (fun key => segmentPositions particles (decodeConnectionKey key)),
        lineColors := s.lineColors ++
          keys.flatMap (fun key =>
            segmentColors cfg (pairDistance distanceTo particles (decodeConnectionKey key))
              false) } := by
  induction keys generalizing s with
  | nil => simp
  | cons a t ih =>
    have ha := hk a (List.mem_cons_self a t)
    rw [List.foldlM_cons, drawStep_eq distanceTo cfg particles ha.1 ha.2]
    simp only [Option.bind_eq_bind, Option.some_bind]
    rw [ih (fun key h => hk key (List.mem_cons_of_mem a h))]
    simp

theorem indexPairs_valid (n : Nat) : ∀ ij ∈ indexPairs n, ij.1 < n ∧ ij.2 < n := by
  rintro ⟨i, j⟩ h
  have := mem_indexPairs.mp h
  exact ⟨by omega, this.2⟩

end ConnectionLemmas

/-! ### The methods of the connection system -/

section ConnectionMethods

set_option linter.unusedSectionVars false

variable {K : Type} [LinearOrderedField K]

/-- The connected pairs in the order of the double loop. -/
theorem mem_filter_isClose (distanceTo : Vector3 K → Vector3 K → K) (cfg : Config K)
    (particles : List (Particle K)) (i j : Nat) :
    (i, j) ∈ (indexPairs particles.length).filter (isClose distanceTo cfg particles) ↔
      Connected distanceTo cfg particles i j := by
  rw [List.mem_filter, mem_indexPairs, ← isClose_iff]
  constructor
  · rintro ⟨⟨h1, _⟩, h3⟩
    exact ⟨h1, h3⟩
  · rintro ⟨h1, h3⟩
    refine ⟨⟨h1, ?_⟩, h3⟩
    have hc := (isClose_iff distanceTo cfg particles i j).mp ⟨h1, h3⟩
    obtain ⟨_, pi, pj, _, hj, _⟩ := hc
    by_contra hlt
    rw [List.getElem?_eq_none (by omega)] at hj
    exact Option.noConfusion hj

theorem nodup_filter_isClose (distanceTo : Vector3 K → Vector3 K → K) (cfg : Config K)
    (particles : List (Particle K)) :
    ((indexPairs particles.length).filter (isClose distanceTo cfg particles)).Nodup :=
  (nodup_indexPairs _).filter _

theorem filter_isClose_valid (distanceTo : Vector3 K → Vector3 K → K) (cfg : Config K)
    (particles : List (Particle K)) :
    ∀ ij ∈ (indexPairs particles.length).filter (isClose distanceTo cfg particles),
      ij.1 < particles.length ∧ ij.2 < particles.length :=
  fun ij h => indexPairs_valid _ ij (List.mem_of_mem_filter h)

theorem updateDynamicConnections_eq (distanceTo : Vector3 K → Vector3 K → K) (cfg : Config K)
    (particles : List (Particle K)) (s : ConnectionSystem K) :
    updateDynamicConnections distanceTo cfg particles s =
      some { s with
        linePositions :=
          ((indexPairs particles.length).filter (isClose distanceTo cfg particles)).flatMap
            (segmentPositions particles),
        lineColors :=
          ((indexPairs particles.length).filter (isClose distanceTo cfg particles)).flatMap
            (fun ij => segmentColors cfg (pairDistance distanceTo particles ij) true) } := by
  unfold updateDynamicConnections
  rw [foldlM_dynamicStep distanceTo cfg particles _ (indexPairs_valid _)]
  simp

theorem decodeConnectionKey_lt (key : Int) :
    (decodeConnectionKey key).1 < 65536 ∧ (decodeConnectionKey key).2 < 65536 := by
  unfold decodeConnectionKey
  simp only [jsAnd_65535_toNat]
  omega

/-- A key made by a scan of `n` particles decodes to two indices below `n`. -/
theorem decodeConnectionKey_valid {n i j : Nat} (hij : i < j) (hj : j < n) :
    (decodeConnectionKey (getConnectionKey i j)).1 < n ∧
      (decodeConnectionKey (getConnectionKey i j)).2 < n := by
  by_cases hn : n ≤ 65536
  · rw [decodeConnectionKey_getConnectionKey hij (by omega)]
    exact ⟨by omega, hj⟩
  · have := decodeConnectionKey_lt (getConnectionKey i j)
    omega

theorem updatePersistentConnections_eq (distanceTo : Vector3 K → Vector3 K → K)
    (cfg : Config K) (particles : List (Particle K)) (s : ConnectionSystem K)
    (hvalid : ∀ key ∈ s.persistentConnections,
      (decodeConnectionKey key).1 < particles.length ∧
        (decodeConnectionKey key).2 < particles.length) :
    updatePersistentConnections distanceTo cfg particles s =
      some { s with
        persistentConnections :=
          (((indexPairs particles.length).filter (isClose distanceTo cfg particles)).map
            (fun ij => getConnectionKey ij.1 ij.2)).foldl setAdd s.persistentConnections,
        linePositions :=
          ((((indexPairs particles.length).filter (isClose distanceTo cfg particles)).map
            (fun ij => getConnectionKey ij.1 ij.2)).foldl setAdd s.persistentConnections).flatMap
              (fun key => segmentPositions particles (decodeConnectionKey key)),
        lineColors :=
          ((((indexPairs particles.length).filter (isClose distanceTo cfg particles)).map
            (fun ij => getConnectionKey ij.1 ij.2)).foldl setAdd s.persistentConnections).flatMap
              (fun key => segmentColors cfg
                (pairDistance distanceTo particles (decodeConnectionKey key)) false) } := by
  unfold updatePersistentConnections
  rw [foldlM_scanStep distanceTo cfg particles _ (indexPairs_valid _)]
  simp only [Option.bind_eq_bind, Option.some_bind]
  rw [foldlM_drawStep]
  · simp
  · intro key hkey
    rcases (mem_foldl_setAdd _ _ _).mp hkey with h | h
    · exact hvalid key h
    · obtain ⟨⟨i, j⟩, hmem, rfl⟩ := List.mem_map.mp h
      have := mem_indexPairs.mp (List.mem_of_mem_filter hmem)
      exact decodeConnectionKey_valid this.1 this.2

theorem initializePersistentConnections_eq (distanceTo : Vector3 K → Vector3 K → K)
    (cfg : Config K) (particles : List (Particle K)) (s : ConnectionSystem K) :
    initializePersistentConnections distanceTo cfg (some particles) s =
      some { s with
        persistentConnections :=
          (((indexPairs particles.length).filter (isClose distanceTo cfg particles)).map
            (fun ij => getConnectionKey ij.1 ij.2)).foldl setAdd [] } := by
  unfold initializePersistentConnections
  simp only
  rw [foldlM_seedStep distanceTo cfg particles _ (indexPairs_valid _),
    foldlM_scanStep distanceTo cfg particles _ (indexPairs_valid _)]

/-- Below the ceiling of 65536 particles the keys of distinct connected pairs differ. -/
theorem nodup_keys (distanceTo : Vector3 K → Vector3 K → K) (cfg : Config K)
    (particles : List (Particle K)) (hn : particles.length ≤ 65536) :
    (((indexPairs particles.length).filter (isClose distanceTo cfg particles)).map
      (fun ij => getConnectionKey ij.1 ij.2)).Nodup := by
  refine List.Nodup.map_on ?_ (nodup_filter_isClose distanceTo cfg particles)
  rintro ⟨i, j⟩ h1 ⟨k, l⟩ h2 h
  have a := mem_indexPairs.mp (List.mem_of_mem_filter h1)
  have b := mem_indexPairs.mp (List.mem_of_mem_filter h2)
  have := getConnectionKey_inj_of_lt a.1 b.1 (by omega) (by omega) h
  simp [this.1, this.2]

theorem flatMap_decode_keys (f : Nat × Nat → List K)
    (l : List (Nat × Nat)) (hl : ∀ ij ∈ l, ij.1 < ij.2 ∧ ij.2 < 65536) :
    (l.map (fun ij => getConnectionKey ij.1 ij.2)).flatMap
        (fun key => f (decodeConnectionKey key)) = l.flatMap f := by
  induction l with
  | nil => simp
  | cons a t ih =>
    have ha := hl a (List.mem_cons_self a t)
    simp only [List.map_cons, List.flatMap_cons]
    rw [ih (fun ij h => hl ij (List.mem_cons_of_mem a h)),
      decodeConnectionKey_getConnectionKey ha.1 ha.2]

/-- The threshold test on a Euclidean distance, in terms of the squared distance. -/
theorem euclidean_lt_iff {distanceTo : Vector3 K → Vector3 K → K} (hE : IsEuclidean distanceTo)
    (p q : Vector3 K) (D : K) :
    distanceTo p q < D ↔ 0 < D ∧ p.distanceToSquared q < D * D := by
  obtain ⟨h0, hsq⟩ := hE p q
  rw [← hsq]
  constructor
  · intro h
    exact ⟨lt_of_le_of_lt h0 h, mul_self_lt_mul_self h0 h⟩
  · rintro ⟨hD, h⟩
    by_contra hle
    have hle : D ≤ distanceTo p q := not_lt.mp hle
    have := mul_self_le_mul_self hD.le hle
    exact absurd h (not_lt.mpr this)

end ConnectionMethods

/-! ### The four-particle scenario -/

section Scenario

variable {K : Type} [LinearOrderedField K]

theorem isClose_of_euclidean {distanceTo : Vector3 K → Vector3 K → K}
    (hE : IsEuclidean distanceTo) (cfg : Config K) (particles : List (Particle K))
    (ij : Nat × Nat) (pi pj : Particle K) (hi : particles[ij.1]? = some pi)
    (hj : particles[ij.2]? = some pj) :
    isClose distanceTo cfg particles ij =
      decide (0 < cfg.CONNECTION_DISTANCE ∧
        pi.position.distanceToSquared pj.position
          < cfg.CONNECTION_DISTANCE * cfg.CONNECTION_DISTANCE) := by
  unfold isClose
  rw [hi, hj]
  simp only [euclidean_lt_iff hE]

theorem indexPairs_four : indexPairs 4 = [(0, 1), (0, 2), (0, 3), (1, 2), (1, 3), (2, 3)] := by
  decide

theorem scenario_closePairs {distanceTo : Vector3 K → Vector3 K → K}
    (hE : IsEuclidean distanceTo) :
    (indexPairs (scenarioParticles : List (Particle K)).length).filter
      (isClose distanceTo scenarioConfig scenarioParticles) = [(0, 1), (2, 3)] := by
  have hlen : (scenarioParticles : List (Particle K)).length = 4 := rfl
  rw [hlen, indexPairs_four]
  have h01 : isClose distanceTo scenarioConfig (scenarioParticles : List (Particle K)) (0, 1)
      = true := by
    rw [isClose_of_euclidean hE _ _ (0, 1) (particleAt 0 0 0) (particleAt 1 0 0) rfl rfl]
    norm_num [scenarioConfig, CONFIG, particleAt, Vector3.distanceToSquared]
  have h02 : isClose distanceTo scenarioConfig (scenarioParticles : List (Particle K)) (0, 2)
      = false := by
    rw [isClose_of_euclidean hE _ _ (0, 2) (particleAt 0 0 0) (particleAt 10 0 0) rfl rfl]
    norm_num [scenarioConfig, CONFIG, particleAt, Vector3.distanceToSquared]
  have h03 : isClose distanceTo scenarioConfig (scenarioParticles : List (Particle K)) (0, 3)
      = false := by
    rw [isClose_of_euclidean hE _ _ (0, 3) (particleAt 0 0 0) (particleAt 10 1 0) rfl rfl]
    norm_num [scenarioConfig, CONFIG, particleAt, Vector3.distanceToSquared]
  have h12 : isClose distanceTo scenarioConfig (scenarioParticles : List (Particle K)) (1, 2)
      = false := by
    rw [isClose_of_euclidean hE _ _ (1, 2) (particleAt 1 0 0) (particleAt 10 0 0) rfl rfl]
    norm_num [scenarioConfig, CONFIG, particleAt, Vector3.distanceToSquared]
  have h13 : isClose distanceTo scenarioConfig (scenarioParticles : List (Particle K)) (1, 3)
      = false := by
    rw [isClose_of_euclidean hE _ _ (1, 3) (particleAt 1 0 0) (particleAt 10 1 0) rfl rfl]
    norm_num [scenarioConfig, CONFIG, particleAt, Vector3.distanceToSquared]
  have h23 : isClose distanceTo scenarioConfig (scenarioParticles : List (Particle K)) (2, 3)
      = true := by
    rw [isClose_of_euclidean hE _ _ (2, 3) (particleAt 10 0 0) (particleAt 10 1 0) rfl rfl]
    norm_num [scenarioConfig, CONFIG, particleAt, Vector3.distanceToSquared]
  simp [List.filter_cons, h01, h02, h03, h12, h13, h23]

theorem scenarioMoved_closePairs {distanceTo : Vector3 K → Vector3 K → K}
    (hE : IsEuclidean distanceTo) :
    (indexPairs (scenarioMoved : List (Particle K)).length).filter
      (isClose distanceTo scenarioConfig scenarioMoved) = [(2, 3)] := by
  have hlen : (scenarioMoved : List (Particle K)).length = 4 := rfl
  rw [hlen, indexPairs_four]
  have h01 : isClose distanceTo scenarioConfig (scenarioMoved : List (Particle K)) (0, 1)
      = false := by
    rw [isClose_of_euclidean hE _ _ (0, 1) (particleAt 0 0 0) ⟨⟨100, 0, 0⟩, ⟨1, 0, 0⟩⟩ rfl rfl]
    norm_num [scenarioConfig, CONFIG, particleAt, Vector3.distanceToSquared]
  have h02 : isClose distanceTo scenarioConfig (scenarioMoved : List (Particle K)) (0, 2)
      = false := by
    rw [isClose_of_euclidean hE _ _ (0, 2) (particleAt 0 0 0) (particleAt 10 0 0) rfl rfl]
    norm_num [scenarioConfig, CONFIG, particleAt, Vector3.distanceToSquared]
  have h03 : isClose distanceTo scenarioConfig (scenarioMoved : List (Particle K)) (0, 3)
      = false := by
    rw [isClose_of_euclidean hE _ _ (0, 3) (particleAt 0 0 0) (particleAt 10 1 0) rfl rfl]
    norm_num [scenarioConfig, CONFIG, particleAt, Vector3.distanceToSquared]
  have h12 : isClose distanceTo scenarioConfig (scenarioMoved : List (Particle K)) (1, 2)
      = false := by
    rw [isClose_of_euclidean hE _ _ (1, 2) ⟨⟨100, 0, 0⟩, ⟨1, 0, 0⟩⟩ (particleAt 10 0 0) rfl rfl]
    norm_num [scenarioConfig, CONFIG, particleAt, Vector3.distanceToSquared]
  have h13 : isClose distanceTo scenarioConfig (scenarioMoved : List (Particle K)) (1, 3)
      = false := by
    rw [isClose_of_euclidean hE _ _ (1, 3) ⟨⟨100, 0, 0⟩, ⟨1, 0, 0⟩⟩ (particleAt 10 1 0) rfl rfl]
    norm_num [scenarioConfig, CONFIG, particleAt, Vector3.distanceToSquared]
  have h23 : isClose distanceTo scenarioConfig (scenarioMoved : List (Particle K)) (2, 3)
      = true := by
    rw [isClose_of_euclidean hE _ _ (2, 3) (particleAt 10 0 0) (particleAt 10 1 0) rfl rfl]
    norm_num [scenarioConfig, CONFIG, particleAt, Vector3.distanceToSquared]
  simp [List.filter_cons, h01, h02, h03, h12, h13, h23]

theorem scenario_keys : getConnectionKey 0 1 = 1 ∧ getConnectionKey 2 3 = 131075 := by
  decide

end Scenario

section ConnectionFacts

set_option linter.unusedSectionVars false

variable {K : Type} [LinearOrderedField K]

theorem length_flatMap_decode (particles : List (Particle K)) (keys : List Int)
    (hk : ∀ key ∈ keys, (decodeConnectionKey key).1 < particles.length ∧
      (decodeConnectionKey key).2 < particles.length) :
    (keys.flatMap (fun key => segmentPositions particles (decodeConnectionKey key))).length
      = 6 * keys.length := by
  induction keys with
  | nil => simp
  | cons a t ih =>
    have ha := hk a (List.mem_cons_self a t)
    have ht := ih (fun key h => hk key (List.mem_cons_of_mem a h))
    simp only [List.flatMap_cons, List.length_append, List.length_cons, ht,
      segmentPositions_length particles ha.1 ha.2]
    omega

/-- The keys of the set after a scan decode to indices of the particle list. -/
theorem scanned_keys_valid (distanceTo : Vector3 K → Vector3 K → K) (cfg : Config K)
    (particles : List (Particle K)) (S : List Int)
    (hvalid : ∀ key ∈ S, (decodeConnectionKey key).1 < particles.length ∧
      (decodeConnectionKey key).2 < particles.length) :
    ∀ key ∈ (((indexPairs particles.length).filter (isClose distanceTo cfg particles)).map
        (fun ij => getConnectionKey ij.1 ij.2)).foldl setAdd S,
      (decodeConnectionKey key).1 < particles.length ∧
        (decodeConnectionKey key).2 < particles.length := by
  intro key hkey
  rcases (mem_foldl_setAdd _ _ _).mp hkey with h | h
  · exact hvalid key h
  · obtain ⟨⟨i, j⟩, hmem, rfl⟩ := List.mem_map.mp h
    have := mem_indexPairs.mp (List.mem_of_mem_filter hmem)
    exact decodeConnectionKey_valid this.1 this.2

/-- The set seeded by a scan from the empty set holds exactly the keys of the connected
pairs. -/
theorem mem_seeded_iff (distanceTo : Vector3 K → Vector3 K → K) (cfg : Config K)
    (particles : List (Particle K)) (key : Int) :
    key ∈ (((indexPairs particles.length).filter (isClose distanceTo cfg particles)).map
        (fun ij => getConnectionKey ij.1 ij.2)).foldl setAdd [] ↔
      ∃ i j, Connected distanceTo cfg particles i j ∧ key = getConnectionKey i j := by
  rw [mem_foldl_setAdd]
  constructor
  · rintro (h | h)
    · simp at h
    · obtain ⟨⟨i, j⟩, hmem, rfl⟩ := List.mem_map.mp h
      exact ⟨i, j, (mem_filter_isClose distanceTo cfg particles i j).mp hmem, rfl⟩
  · rintro ⟨i, j, hc, rfl⟩
    exact Or.inr (List.mem_map.mpr
      ⟨(i, j), (mem_filter_isClose distanceTo cfg particles i j).mpr hc, rfl⟩)

theorem isEuclidean_sqrt :
    IsEuclidean (fun p q : Vector3 ℝ => Real.sqrt (p.distanceToSquared q)) := by
  intro p q
  exact ⟨Real.sqrt_nonneg _, Real.mul_self_sqrt
    (add_nonneg (add_nonneg (mul_self_nonneg _) (mul_self_nonneg _)) (mul_self_nonneg _))⟩

/-- The two keys of the scenario decode to indices of the four particles. -/
theorem scenario_keys_valid (particles : List (Particle K)) (h : particles.length = 4) :
    ∀ key ∈ [getConnectionKey 0 1, getConnectionKey 2 3],
      (decodeConnectionKey key).1 < particles.length ∧
        (decodeConnectionKey key).2 < particles.length := by
  intro key hkey
  simp only [List.mem_cons, List.mem_singleton, List.not_mem_nil, or_false] at hkey
  rcases hkey with rfl | rfl
  · rw [decodeConnectionKey_getConnectionKey (by decide) (by decide), h]
    decide
  · rw [decodeConnectionKey_getConnectionKey (by decide) (by decide), h]
    decide

theorem scenario_setAdd :
    List.foldl setAdd [getConnectionKey 0 1, getConnectionKey 2 3]
        (List.map (fun ij : Nat × Nat => getConnectionKey ij.1 ij.2) [(2, 3)])
      = [getConnectionKey 0 1, getConnectionKey 2 3] := by
  simp [setAdd]

theorem scenarioMoved_segments :
    [getConnectionKey 0 1, getConnectionKey 2 3].flatMap
        (fun key => segmentPositions (scenarioMoved : List (Particle K))
          (decodeConnectionKey key)) =
      [0, 0, 0, 100, 0, 0, 10, 0, 0, 10, 1, 0] := by
  simp only [List.flatMap_cons, List.flatMap_nil]
  rw [decodeConnectionKey_getConnectionKey (by decide) (by decide),
    decodeConnectionKey_getConnectionKey (by decide) (by decide)]
  rfl

theorem scenario_segments :
    [((0 : Nat), (1 : Nat)), (2, 3)].flatMap
        (segmentPositions (scenarioParticles : List (Particle K))) =
      [0, 0, 0, 1, 0, 0, 10, 0, 0, 10, 1, 0] := by
  rfl

theorem scenario_seed :
    List.foldl setAdd []
        (List.map (fun ij : Nat × Nat => getConnectionKey ij.1 ij.2) [(0, 1), (2, 3)])
      = [getConnectionKey 0 1, getConnectionKey 2 3] := by
  simp [setAdd, scenario_keys]

end ConnectionFacts

theorem segmentColors_length {K : Type} [LinearOrderedField K] (cfg : Config K) (dist : K)
    (isDynamic : Bool) : (segmentColors cfg dist isDynamic).length = 6 := by
  unfold segmentColors
  split <;> rfl

theorem length_flatMap_segmentColors {K : Type} [LinearOrderedField K] {α : Type}
    (cfg : Config K) (f : α → K) (isDynamic : Bool) (l : List α) :
    (l.flatMap (fun a => segmentColors cfg (f a) isDynamic)).length = 6 * l.length := by
  induction l with
  | nil => simp
  | cons a t ih =>
    simp only [List.flatMap_cons, List.length_append, List.length_cons, ih,
      segmentColors_length]
    omega

section ModeSwitch

variable {K : Type} [LinearOrderedField K]

theorem setConnectionMode_persistent_eq (distanceTo : Vector3 K → Vector3 K → K)
    (cfg : Config K) (s : ConnectionSystem K) :
    setConnectionMode distanceTo cfg ConnectionMode.PERSISTENT s =
      some { s with connectionMode := ConnectionMode.PERSISTENT } := rfl

theorem appSetConnectionMode_persistent_eq (distanceTo : Vector3 K → Vector3 K → K)
    (cfg : Config K) (particles : List (Particle K)) (s : ConnectionSystem K) :
    appSetConnectionMode distanceTo cfg particles ConnectionMode.PERSISTENT s =
      some { s with
        connectionMode := ConnectionMode.PERSISTENT,
        persistentConnections :=
          (((indexPairs particles.length).filter (isClose distanceTo cfg particles)).map
            (fun ij => getConnectionKey ij.1 ij.2)).foldl setAdd [] } := by
  unfold appSetConnectionMode
  rw [setConnectionMode_persistent_eq]
  simp only [Option.bind_eq_bind, Option.some_bind, if_true]
  rw [initializePersistentConnections_eq]

theorem scenario_connected_iff {distanceTo : Vector3 K → Vector3 K → K}
    (hE : IsEuclidean distanceTo) (i j : Nat) :
    Connected distanceTo scenarioConfig (scenarioParticles : List (Particle K)) i j ↔
      (i, j) ∈ [((0 : Nat), (1 : Nat)), (2, 3)] := by
  rw [← mem_filter_isClose, scenario_closePairs hE]

end ModeSwitch

section Reset

variable {K : Type} [LinearOrderedField K]

/-- After a reset, an update in PERSISTENT mode of at most 65536 particles draws the
connected pairs, in the order of the double loop. -/
theorem update_resetConnections_eq (distanceTo : Vector3 K → Vector3 K → K) (cfg : Config K)
    (particles : List (Particle K)) (s : ConnectionSystem K)
    (hmode : s.connectionMode = ConnectionMode.PERSISTENT) (hn : particles.length ≤ 65536) :
    ∃ s' : ConnectionSystem K,
      ConnectionSystem.update distanceTo cfg particles (resetConnections s) = some s' ∧
      s'.linePositions =
        ((indexPairs particles.length).filter (isClose distanceTo cfg particles)).flatMap
          (segmentPositions particles) := by
  have hupd : ConnectionSystem.update distanceTo cfg particles (resetConnections s) =
      updatePersistentConnections distanceTo cfg particles (resetConnections s) := by
    unfold ConnectionSystem.update resetConnections
    simp only [hmode]
  rw [hupd, updatePersistentConnections_eq distanceTo cfg particles _
    (by simp [resetConnections])]
  refine ⟨_, rfl, ?_⟩
  have hset : (resetConnections s).persistentConnections = [] := rfl
  simp only [hset]
  rw [foldl_setAdd_of_nodup _ _ (by simpa using nodup_keys distanceTo cfg particles hn)]
  simp only [List.nil_append]
  apply flatMap_decode_keys
  intro ij hij
  have := mem_indexPairs.mp (List.mem_of_mem_filter hij)
  exact ⟨this.1, by omega⟩

end Reset

/-! ### Single precision -/

theorem roundHalfEven_eq (y : ℚ) (n : ℤ) (h1 : (n : ℚ) - 1 / 2 < y) (h2 : y < n + 1 / 2) :
    roundHalfEven y = n := by
  unfold roundHalfEven
  have hf : ⌊y⌋ = n ∨ ⌊y⌋ = n - 1 := by
    have a : n - 1 ≤ ⌊y⌋ := Int.le_floor.mpr (by push_cast; linarith)
    have b : ⌊y⌋ < n + 1 := Int.floor_lt.mpr (by push_cast; linarith)
    omega
  rcases hf with hf | hf
  · rw [hf, if_pos (by linarith)]
  · have hfl : (⌊y⌋ : ℚ) + 1 > y := Int.lt_floor_add_one y
    rw [hf] at hfl ⊢
    push_cast at hfl ⊢
    rw [if_neg (by linarith), if_pos (by linarith)]
    ring

/-- The value of `fround32` at `x` from the binary exponent `e` of `x` and the integer `n`
nearest to `x / 2 ^ (e - 23)`. -/
theorem fround32_eq (x : ℚ) (e n : ℤ) (hx : x ≠ 0) (he1 : (2 : ℚ) ^ e ≤ |x|)
    (he2 : |x| < (2 : ℚ) ^ (e + 1)) (hmin : -126 ≤ e)
    (h1 : (n : ℚ) - 1 / 2 < x / 2 ^ (e - 23)) (h2 : x / 2 ^ (e - 23) < n + 1 / 2) :
    fround32 x = n * 2 ^ (e - 23) := by
  have hpos : 0 < |x| := abs_pos.mpr hx
  have hlog : Int.log 2 |x| = e := by
    have a : e ≤ Int.log 2 |x| :=
      (Int.zpow_le_iff_le_log (by norm_num) hpos).mp (by exact_mod_cast he1)
    have b : Int.log 2 |x| < e + 1 :=
      (Int.lt_zpow_iff_log_lt (by norm_num) hpos).mp (by exact_mod_cast he2)
    omega
  unfold fround32
  rw [if_neg hx, hlog, max_eq_left hmin, roundHalfEven_eq _ n h1 h2]

/-- Single precision has no number `9.9`: it is stored as `10380902 / 2 ^ 20`,
that is `9.899999618530273`. -/
theorem fround32_99_10 : fround32 (99 / 10) = 10380902 / 1048576 := by
  rw [fround32_eq (99 / 10) 3 10380902 (by norm_num) (by norm_num [abs_of_pos])
    (by norm_num [abs_of_pos]) (by norm_num) (by norm_num) (by norm_num)]
  norm_num

/-- Single precision has no number `1.1`: it is stored as `9227469 / 2 ^ 23`,
that is `1.100000023841858`. -/
theorem fround32_11_10 : fround32 (11 / 10) = 9227469 / 8388608 := by
  rw [fround32_eq (11 / 10) 0 9227469 (by norm_num) (by norm_num [abs_of_pos])
    (by norm_num [abs_of_pos]) (by norm_num) (by norm_num) (by norm_num)]
  norm_num

theorem fround32_zero : fround32 0 = 0 := by
  unfold fround32
  rw [if_pos rfl]

/-! ### Buffers of the motion engine -/

section Buffers

set_option linter.unusedSectionVars false

variable {K : Type} [LinearOrderedField K] (fround : K → K)

theorem easeInOutQuint_one : easeInOutQuint (1 : K) = 1 := by
  unfold easeInOutQuint
  norm_num

theorem lerpVectors_one (v1 v2 : Vector3 K) : lerpVectors v1 v2 1 = v2 := by
  unfold lerpVectors
  cases v2
  simp

theorem lerpVectors_zero (v1 v2 : Vector3 K) : lerpVectors v1 v2 0 = v1 := by
  unfold lerpVectors
  cases v1
  simp

theorem length_setXYZ (a : List K) (i : Nat) (v : Vector3 K) :
    (setXYZ fround a i v).length = a.length := by
  simp [setXYZ]

theorem getElem?_setXYZ_of_lt (a : List K) (k : Nat) (v : Vector3 K) (m : Nat)
    (h : m < k * 3) : (setXYZ fround a k v)[m]? = a[m]? := by
  unfold setXYZ
  rw [List.getElem?_set_ne (by omega), List.getElem?_set_ne (by omega),
    List.getElem?_set_ne (by omega)]

theorem getElem?_setXYZ_of_ge (a : List K) (k : Nat) (v : Vector3 K) (m : Nat)
    (h : k * 3 + 3 ≤ m) : (setXYZ fround a k v)[m]? = a[m]? := by
  unfold setXYZ
  rw [List.getElem?_set_ne (by omega), List.getElem?_set_ne (by omega),
    List.getElem?_set_ne (by omega)]

theorem fromArray_congr (a b : List K) (o : Nat)
    (h : ∀ m, o ≤ m → m < o + 3 → a[m]? = b[m]?) : fromArray a o = fromArray b o := by
  unfold fromArray
  simp only [List.getD_eq_getElem?_getD]
  rw [h o (by omega) (by omega), h (o + 1) (by omega) (by omega),
    h (o + 2) (by omega) (by omega)]

theorem fromArray_setXYZ_self (a : List K) (k : Nat) (v : Vector3 K)
    (h : k * 3 + 2 < a.length) :
    fromArray (setXYZ fround a k v) (k * 3) = froundVec fround v := by
  unfold fromArray setXYZ
  simp only [List.getD_eq_getElem?_getD]
  rw [List.getElem?_set_ne (by omega), List.getElem?_set_ne (by omega),
    List.getElem?_set_self (by omega),
    List.getElem?_set_ne (by omega),
    List.getElem?_set_self (by simpa using (by omega : k * 3 + 1 < a.length)),
    List.getElem?_set_self (by simpa using h)]
  rfl

theorem fromArray_setXYZ_of_ne (a : List K) (k i : Nat) (v : Vector3 K) (h : i ≠ k) :
    fromArray (setXYZ fround a k v) (i * 3) = fromArray a (i * 3) := by
  apply fromArray_congr
  intro m h1 h2
  rcases Nat.lt_or_gt_of_ne h with hlt | hgt
  · exact getElem?_setXYZ_of_lt fround a k v m (by omega)
  · exact getElem?_setXYZ_of_ge fround a k v m (by omega)

theorem typedArraySet_eq (target source : List K) (h : source.length = target.length) :
    typedArraySet target source = source := by
  unfold typedArraySet
  rw [h, List.drop_length, List.append_nil]

end Buffers

/-! ### The loops of the motion engine -/

section MotionLoops

set_option linter.unusedSectionVars false

variable {K : Type} [LinearOrderedField K] {M : Type} (fround : K → K)

/-- The transform that `startNewCycle(false)` applies to the entry of particle `i`. -/
theorem foldl_cycleStep_fields (applyMatrix4 : M → Vector3 K → Vector3 K) (rnd : CycleRandom M)
    (l : List Nat) (s : ParticleSystem K) :
    (l.foldl (cycleStep fround applyMatrix4 rnd) s).startPositions = s.startPositions ∧
    (l.foldl (cycleStep fround applyMatrix4 rnd) s).originalPositions = s.originalPositions ∧
    (l.foldl (cycleStep fround applyMatrix4 rnd) s).particles = s.particles ∧
    (l.foldl (cycleStep fround applyMatrix4 rnd) s).positionAttribute = s.positionAttribute ∧
    (l.foldl (cycleStep fround applyMatrix4 rnd) s).currentState = s.currentState ∧
    (l.foldl (cycleStep fround applyMatrix4 rnd) s).progress = s.progress ∧
    (l.foldl (cycleStep fround applyMatrix4 rnd) s).resetProgress = s.resetProgress ∧
    (l.foldl (cycleStep fround applyMatrix4 rnd) s).cycleLog = s.cycleLog ∧
    (l.foldl (cycleStep fround applyMatrix4 rnd) s).endPositions.length = s.endPositions.length := by
  induction l generalizing s with
  | nil => simp
  | cons a t ih =>
    rw [List.foldl_cons]
    have h := ih (cycleStep fround applyMatrix4 rnd s a)
    simpa [cycleStep, length_setXYZ fround] using h

theorem cycleStep_endPositions (applyMatrix4 : M → Vector3 K → Vector3 K) (rnd : CycleRandom M)
    (s : ParticleSystem K) (i : Nat) :
    (cycleStep fround applyMatrix4 rnd s i).endPositions =
      setXYZ fround s.endPositions i
        (if rnd.particleGroups i = 0 then
          applyMatrix4 rnd.matrix1 (fromArray s.startPositions (i * 3))
        else applyMatrix4 rnd.matrix2 (fromArray s.startPositions (i * 3))) := by
  unfold cycleStep
  split <;> simp_all

theorem moveStep_particles (e : K) (s : ParticleSystem K) (i : Nat) :
    (moveStep fround e s i).particles =
      s.particles.modify
        (fun p => { p with
          position := lerpVectors (fromArray s.startPositions (i * 3))
            (fromArray s.endPositions (i * 3)) e })
        i := rfl

theorem foldl_cycleStep_range (applyMatrix4 : M → Vector3 K → Vector3 K) (rnd : CycleRandom M)
    (n : Nat) (s : ParticleSystem K) (hn : n * 3 ≤ s.endPositions.length) :
    (∀ i < n, fromArray ((List.range n).foldl (cycleStep fround applyMatrix4 rnd) s).endPositions
        (i * 3) =
      froundVec fround
        (if rnd.particleGroups i = 0 then
          applyMatrix4 rnd.matrix1 (fromArray s.startPositions (i * 3))
         else applyMatrix4 rnd.matrix2 (fromArray s.startPositions (i * 3)))) ∧
    (∀ m, n * 3 ≤ m →
      ((List.range n).foldl (cycleStep fround applyMatrix4 rnd) s).endPositions[m]? =
        s.endPositions[m]?) := by
  induction n with
  | zero => simp
  | succ n ih =>
    obtain ⟨ih1, ih2⟩ := ih (by omega)
    have hf := foldl_cycleStep_fields fround applyMatrix4 rnd (List.range n) s
    rw [List.range_succ, List.foldl_append]
    simp only [List.foldl_cons, List.foldl_nil]
    constructor
    · intro i hi
      by_cases hin : i = n
      · subst hin
        rw [cycleStep_endPositions fround, hf.1,
          fromArray_setXYZ_self fround _ _ _ (by rw [hf.2.2.2.2.2.2.2.2]; omega)]
      · have hlt : i < n := by omega
        rw [cycleStep_endPositions fround, fromArray_setXYZ_of_ne fround _ _ _ _ hin]
        exact ih1 i hlt
    · intro m hm
      rw [cycleStep_endPositions fround, getElem?_setXYZ_of_ge fround _ _ _ _ (by omega)]
      exact ih2 m (by omega)

theorem foldl_moveStep_fields (e : K) (l : List Nat) (s : ParticleSystem K) :
    (l.foldl (moveStep fround e) s).startPositions = s.startPositions ∧
    (l.foldl (moveStep fround e) s).endPositions = s.endPositions ∧
    (l.foldl (moveStep fround e) s).originalPositions = s.originalPositions ∧
    (l.foldl (moveStep fround e) s).currentState = s.currentState ∧
    (l.foldl (moveStep fround e) s).progress = s.progress ∧
    (l.foldl (moveStep fround e) s).resetProgress = s.resetProgress ∧
    (l.foldl (moveStep fround e) s).cycleLog = s.cycleLog ∧
    (l.foldl (moveStep fround e) s).particles.length = s.particles.length ∧
    (l.foldl (moveStep fround e) s).positionAttribute.length = s.positionAttribute.length := by
  induction l generalizing s with
  | nil => simp
  | cons a t ih =>
    rw [List.foldl_cons]
    have h := ih (moveStep fround e s a)
    simpa [moveStep, length_setXYZ fround, List.length_modify] using h

theorem foldl_moveStep_range (e : K) (n : Nat) (s : ParticleSystem K)
    (hn : n ≤ s.particles.length) :
    (∀ i < n, ((List.range n).foldl (moveStep fround e) s).position i =
      lerpVectors (fromArray s.startPositions (i * 3)) (fromArray s.endPositions (i * 3)) e) ∧
    (∀ i, n ≤ i → ((List.range n).foldl (moveStep fround e) s).particles[i]? = s.particles[i]?) := by
  induction n with
  | zero => simp
  | succ n ih =>
    obtain ⟨ih1, ih2⟩ := ih (by omega)
    have hf := foldl_moveStep_fields fround e (List.range n) s
    rw [List.range_succ, List.foldl_append]
    simp only [List.foldl_cons, List.foldl_nil]
    constructor
    · intro i hi
      by_cases hin : i = n
      · subst hin
        unfold ParticleSystem.position
        rw [moveStep_particles fround, hf.1, hf.2.1, List.getElem?_modify_eq, ih2 i (le_refl i),
          List.getElem?_eq_getElem (by omega)]
        rfl
      · have hlt : i < n := by omega
        have := ih1 i hlt
        unfold ParticleSystem.position at this ⊢
        rw [moveStep_particles fround, List.getElem?_modify_ne _ _ (by omega)]
        exact this
    · intro i hi
      rw [moveStep_particles fround, List.getElem?_modify_ne _ _ (by omega)]
      exact ih2 i (by omega)

theorem foldl_createStep_fields (pos : Nat → Vector3 K) (l : List Nat) (s : ParticleSystem K) :
    (l.foldl (createStep fround pos) s).startPositions.length = s.startPositions.length ∧
    (l.foldl (createStep fround pos) s).endPositions.length = s.endPositions.length ∧
    (l.foldl (createStep fround pos) s).originalPositions.length = s.originalPositions.length ∧
    (l.foldl (createStep fround pos) s).positionAttribute.length = s.positionAttribute.length ∧
    (l.foldl (createStep fround pos) s).particles.length = s.particles.length + l.length ∧
    (l.foldl (createStep fround pos) s).currentState = s.currentState ∧
    (l.foldl (createStep fround pos) s).progress = s.progress ∧
    (l.foldl (createStep fround pos) s).resetProgress = s.resetProgress ∧
    (l.foldl (createStep fround pos) s).cycleLog = s.cycleLog := by
  induction l generalizing s with
  | nil => simp
  | cons a t ih =>
    rw [List.foldl_cons]
    obtain ⟨h1, h2, h3, h4, h5, h6, h7, h8, h9⟩ := ih (createStep fround pos s a)
    refine ⟨h1.trans (length_setXYZ fround _ _ _), h2.trans (length_setXYZ fround _ _ _),
      h3.trans (length_setXYZ fround _ _ _), h4.trans (length_setXYZ fround _ _ _), ?_, h6, h7, h8, h9⟩
    rw [h5]
    simp only [createStep, List.length_append, List.length_cons, List.length_nil]
    omega

end MotionLoops

/-! ### The methods of the motion engine -/

section MotionMethods

set_option linter.unusedSectionVars false

variable {K : Type} [LinearOrderedField K] {M : Type} (fround : K → K)

theorem new_fields (cfg : Config K) (basePosition entropy : Nat → Vector3 K) :
    (ParticleSystem.new fround cfg basePosition entropy).WellFormed cfg ∧
    (ParticleSystem.new fround cfg basePosition entropy).currentState = AnimationState.WAITING ∧
    (ParticleSystem.new fround cfg basePosition entropy).progress = 0 ∧
    (ParticleSystem.new fround cfg basePosition entropy).resetProgress = 0 ∧
    (ParticleSystem.new fround cfg basePosition entropy).cycleLog = [] := by
  unfold ParticleSystem.new ParticleSystem.WellFormed
  obtain ⟨h1, h2, h3, h4, h5, h6, h7, h8, h9⟩ :=
    foldl_createStep_fields fround (fun i => (basePosition i).add (entropy i))
      (List.range cfg.PARTICLE_COUNT)
      { particles := [],
        startPositions := List.replicate (cfg.PARTICLE_COUNT * 3) 0,
        endPositions := List.replicate (cfg.PARTICLE_COUNT * 3) 0,
        originalPositions := List.replicate (cfg.PARTICLE_COUNT * 3) 0,
        positionAttribute := List.replicate (cfg.PARTICLE_COUNT * 3) 0,
        currentState := AnimationState.WAITING,
        progress := 0,
        resetProgress := 0,
        cycleLog := [] }
  refine ⟨⟨?_, ?_, ?_, ?_, ?_⟩, h6, h7, h8, h9⟩
  · rw [h5]
    simp
  · rw [h1]
    simp
  · rw [h2]
    simp
  · rw [h3]
    simp
  · rw [h4]
    simp

/-- What `startNewCycle` does to the fields other than the two target buffers. -/
theorem startNewCycle_fields (applyMatrix4 : M → Vector3 K → Vector3 K) (cfg : Config K)
    (rnd : CycleRandom M) (reset : Bool) (s : ParticleSystem K) :
    (startNewCycle fround applyMatrix4 cfg rnd reset s).startPositions =
      typedArraySet s.startPositions s.endPositions ∧
    (startNewCycle fround applyMatrix4 cfg rnd reset s).originalPositions = s.originalPositions ∧
    (startNewCycle fround applyMatrix4 cfg rnd reset s).particles = s.particles ∧
    (startNewCycle fround applyMatrix4 cfg rnd reset s).positionAttribute = s.positionAttribute ∧
    (startNewCycle fround applyMatrix4 cfg rnd reset s).currentState = s.currentState ∧
    (startNewCycle fround applyMatrix4 cfg rnd reset s).progress = s.progress ∧
    (startNewCycle fround applyMatrix4 cfg rnd reset s).resetProgress = s.resetProgress ∧
    (startNewCycle fround applyMatrix4 cfg rnd reset s).cycleLog = s.cycleLog ++ [reset] := by
  unfold startNewCycle
  cases reset
  · obtain ⟨h1, h2, h3, h4, h5, h6, h7, h8, _⟩ :=
      foldl_cycleStep_fields fround applyMatrix4 rnd (List.range cfg.PARTICLE_COUNT)
        { s with startPositions := typedArraySet s.startPositions s.endPositions,
                 cycleLog := s.cycleLog ++ [false] }
    exact ⟨h1, h2, h3, h4, h5, h6, h7, h8⟩
  · exact ⟨rfl, rfl, rfl, rfl, rfl, rfl, rfl, rfl⟩

theorem startNewCycle_false (applyMatrix4 : M → Vector3 K → Vector3 K) (cfg : Config K)
    (rnd : CycleRandom M) (s : ParticleSystem K) :
    startNewCycle fround applyMatrix4 cfg rnd false s =
      (List.range cfg.PARTICLE_COUNT).foldl (cycleStep fround applyMatrix4 rnd)
        { s with startPositions := typedArraySet s.startPositions s.endPositions,
                 cycleLog := s.cycleLog ++ [false] } := rfl

theorem startNewCycle_true (applyMatrix4 : M → Vector3 K → Vector3 K) (cfg : Config K)
    (rnd : CycleRandom M) (s : ParticleSystem K) :
    startNewCycle fround applyMatrix4 cfg rnd true s =
      { s with startPositions := typedArraySet s.startPositions s.endPositions,
               cycleLog := s.cycleLog ++ [true],
               endPositions := typedArraySet s.endPositions s.originalPositions } := rfl

theorem startNewCycle_reset_eq (applyMatrix4 : M → Vector3 K → Vector3 K) (cfg : Config K)
    (rnd : CycleRandom M) (s : ParticleSystem K) (hwf : s.WellFormed cfg) :
    (startNewCycle fround applyMatrix4 cfg rnd true s).startPositions = s.endPositions ∧
    (startNewCycle fround applyMatrix4 cfg rnd true s).endPositions = s.originalPositions := by
  obtain ⟨_, h2, h3, h4, _⟩ := hwf
  constructor
  · rw [(startNewCycle_fields fround applyMatrix4 cfg rnd true s).1]
    exact typedArraySet_eq _ _ (by rw [h2, h3])
  · rw [startNewCycle_true fround]
    exact typedArraySet_eq _ _ (by rw [h3, h4])

theorem startNewCycle_transform_eq (applyMatrix4 : M → Vector3 K → Vector3 K) (cfg : Config K)
    (rnd : CycleRandom M) (s : ParticleSystem K) (hwf : s.WellFormed cfg) :
    (startNewCycle fround applyMatrix4 cfg rnd false s).startPositions = s.endPositions ∧
    (startNewCycle fround applyMatrix4 cfg rnd false s).endPositions.length = cfg.PARTICLE_COUNT * 3 ∧
    ∀ i < cfg.PARTICLE_COUNT,
      fromArray (startNewCycle fround applyMatrix4 cfg rnd false s).endPositions (i * 3) =
        froundVec fround
          (if rnd.particleGroups i = 0 then
            applyMatrix4 rnd.matrix1 (fromArray s.endPositions (i * 3))
          else applyMatrix4 rnd.matrix2 (fromArray s.endPositions (i * 3))) := by
  obtain ⟨_, h2, h3, h4, _⟩ := hwf
  have hset : typedArraySet s.startPositions s.endPositions = s.endPositions :=
    typedArraySet_eq _ _ (by rw [h2, h3])
  refine ⟨?_, ?_, ?_⟩
  · rw [(startNewCycle_fields fround applyMatrix4 cfg rnd false s).1, hset]
  · rw [startNewCycle_false fround, (foldl_cycleStep_fields fround applyMatrix4 rnd _ _).2.2.2.2.2.2.2.2]
    exact h3
  · intro i hi
    rw [startNewCycle_false fround]
    have := (foldl_cycleStep_range fround applyMatrix4 rnd cfg.PARTICLE_COUNT
      { s with startPositions := typedArraySet s.startPositions s.endPositions,
               cycleLog := s.cycleLog ++ [false] } (by simp [h3])).1 i hi
    simp only [hset] at this
    simpa [hset] using this

theorem startNewCycle_wellFormed (applyMatrix4 : M → Vector3 K → Vector3 K) (cfg : Config K)
    (rnd : CycleRandom M) (reset : Bool) (s : ParticleSystem K) (hwf : s.WellFormed cfg) :
    (startNewCycle fround applyMatrix4 cfg rnd reset s).WellFormed cfg := by
  obtain ⟨hs1, hs2, hs3, hs4, hs5, _⟩ := startNewCycle_fields fround applyMatrix4 cfg rnd reset s
  have hwf' := hwf
  obtain ⟨h1, h2, h3, h4, h5⟩ := hwf
  refine ⟨by rw [hs3, h1], ?_, ?_, by rw [hs2, h4], by rw [hs4, h5]⟩
  · rw [hs1, typedArraySet_eq _ _ (by rw [h2, h3]), h3]
  · cases reset
    · exact (startNewCycle_transform_eq fround applyMatrix4 cfg rnd s hwf').2.1
    · rw [(startNewCycle_reset_eq fround applyMatrix4 cfg rnd s hwf').2, h4]

end MotionMethods

section MovingState

set_option linter.unusedSectionVars false

variable {K : Type} [LinearOrderedField K] {M : Type} (fround : K → K)

/-- The state after the interpolation loop of `updateMovingState`. -/
theorem updateMovingState_def (cfg : Config K) (deltaTime : K) (s : ParticleSystem K) :
    updateMovingState fround cfg deltaTime s =
      if 1 ≤ s.progress + deltaTime / cfg.MOVE_DURATION then
        { (List.range cfg.PARTICLE_COUNT).foldl
            (moveStep fround (easeInOutQuint (min (s.progress + deltaTime / cfg.MOVE_DURATION) 1)))
            { s with progress := s.progress + deltaTime / cfg.MOVE_DURATION } with
          progress := 0, currentState := AnimationState.WAITING }
      else
        (List.range cfg.PARTICLE_COUNT).foldl
          (moveStep fround (easeInOutQuint (min (s.progress + deltaTime / cfg.MOVE_DURATION) 1)))
          { s with progress := s.progress + deltaTime / cfg.MOVE_DURATION } := by
  have hp := (foldl_moveStep_fields fround
    (easeInOutQuint (min (s.progress + deltaTime / cfg.MOVE_DURATION) 1))
    (List.range cfg.PARTICLE_COUNT)
    { s with progress := s.progress + deltaTime / cfg.MOVE_DURATION }).2.2.2.2.1
  unfold updateMovingState
  simp only [ge_iff_le, hp]

theorem updateMovingState_fields (cfg : Config K) (deltaTime : K) (s : ParticleSystem K) :
    (updateMovingState fround cfg deltaTime s).startPositions = s.startPositions ∧
    (updateMovingState fround cfg deltaTime s).endPositions = s.endPositions ∧
    (updateMovingState fround cfg deltaTime s).originalPositions = s.originalPositions ∧
    (updateMovingState fround cfg deltaTime s).resetProgress = s.resetProgress ∧
    (updateMovingState fround cfg deltaTime s).cycleLog = s.cycleLog ∧
    (updateMovingState fround cfg deltaTime s).particles.length = s.particles.length ∧
    (updateMovingState fround cfg deltaTime s).positionAttribute.length
      = s.positionAttribute.length := by
  obtain ⟨h1, h2, h3, _, _, h6, h7, h8, h9⟩ := foldl_moveStep_fields fround
    (easeInOutQuint (min (s.progress + deltaTime / cfg.MOVE_DURATION) 1))
    (List.range cfg.PARTICLE_COUNT)
    { s with progress := s.progress + deltaTime / cfg.MOVE_DURATION }
  rw [updateMovingState_def fround]
  split
  · exact ⟨h1, h2, h3, h6, h7, h8, h9⟩
  · exact ⟨h1, h2, h3, h6, h7, h8, h9⟩

theorem updateMovingState_wellFormed (cfg : Config K) (deltaTime : K) (s : ParticleSystem K)
    (hwf : s.WellFormed cfg) : (updateMovingState fround cfg deltaTime s).WellFormed cfg := by
  obtain ⟨h1, h2, h3, _, _, h6, h7⟩ := updateMovingState_fields fround cfg deltaTime s
  obtain ⟨w1, w2, w3, w4, w5⟩ := hwf
  exact ⟨by rw [h6, w1], by rw [h1, w2], by rw [h2, w3], by rw [h3, w4], by rw [h7, w5]⟩

theorem updateMovingState_below (cfg : Config K) (deltaTime : K) (s : ParticleSystem K)
    (h : s.progress + deltaTime / cfg.MOVE_DURATION < 1) :
    (updateMovingState fround cfg deltaTime s).currentState = s.currentState ∧
    (updateMovingState fround cfg deltaTime s).progress
      = s.progress + deltaTime / cfg.MOVE_DURATION := by
  obtain ⟨_, _, _, h4, h5, _⟩ := foldl_moveStep_fields fround
    (easeInOutQuint (min (s.progress + deltaTime / cfg.MOVE_DURATION) 1))
    (List.range cfg.PARTICLE_COUNT)
    { s with progress := s.progress + deltaTime / cfg.MOVE_DURATION }
  rw [updateMovingState_def fround, if_neg (not_le.mpr h)]
  exact ⟨h4, h5⟩

theorem updateMovingState_done (cfg : Config K) (deltaTime : K) (s : ParticleSystem K)
    (h : 1 ≤ s.progress + deltaTime / cfg.MOVE_DURATION)
    (hlen : cfg.PARTICLE_COUNT ≤ s.particles.length) :
    (updateMovingState fround cfg deltaTime s).currentState = AnimationState.WAITING ∧
    (updateMovingState fround cfg deltaTime s).progress = 0 ∧
    ∀ i < cfg.PARTICLE_COUNT,
      (updateMovingState fround cfg deltaTime s).position i = fromArray s.endPositions (i * 3) := by
  rw [updateMovingState_def fround, if_pos h]
  refine ⟨rfl, rfl, ?_⟩
  intro i hi
  have := (foldl_moveStep_range fround
    (easeInOutQuint (min (s.progress + deltaTime / cfg.MOVE_DURATION) 1))
    cfg.PARTICLE_COUNT { s with progress := s.progress + deltaTime / cfg.MOVE_DURATION }
    hlen).1 i hi
  simp only [min_eq_right h, easeInOutQuint_one] at this ⊢
  rw [lerpVectors_one] at this
  exact this

/-- A run of updates in MOVING that stays below progress 1. -/
theorem updates_moving_below (applyMatrix4 : M → Vector3 K → Vector3 K) (cfg : Config K)
    (hMD : 0 < cfg.MOVE_DURATION) (calls : List (K × CycleRandom M)) (s : ParticleSystem K)
    (hwf : s.WellFormed cfg) (hstate : s.currentState = AnimationState.MOVING)
    (hnonneg : ∀ c ∈ calls, 0 ≤ c.1)
    (hbelow : s.progress + (calls.map (fun c => c.1 / cfg.MOVE_DURATION)).sum < 1) :
    (ParticleSystem.updates fround applyMatrix4 cfg s calls).WellFormed cfg ∧
    (ParticleSystem.updates fround applyMatrix4 cfg s calls).currentState = AnimationState.MOVING ∧
    (ParticleSystem.updates fround applyMatrix4 cfg s calls).progress =
      s.progress + (calls.map (fun c => c.1 / cfg.MOVE_DURATION)).sum ∧
    (ParticleSystem.updates fround applyMatrix4 cfg s calls).endPositions = s.endPositions := by
  induction calls generalizing s with
  | nil => simpa [ParticleSystem.updates] using ⟨hwf, hstate⟩
  | cons c t ih =>
    have hrest : 0 ≤ (t.map (fun c => c.1 / cfg.MOVE_DURATION)).sum := by
      apply List.sum_nonneg
      intro x hx
      obtain ⟨c', hc', rfl⟩ := List.mem_map.mp hx
      exact div_nonneg (hnonneg c' (List.mem_cons_of_mem c hc')) hMD.le
    simp only [List.map_cons, List.sum_cons] at hbelow
    have hstep : ParticleSystem.update fround applyMatrix4 cfg c.2 c.1 s
        = updateMovingState fround cfg c.1 s := by
      unfold ParticleSystem.update
      rw [hstate]
    have hlt : s.progress + c.1 / cfg.MOVE_DURATION < 1 := by linarith
    obtain ⟨b1, b2⟩ := updateMovingState_below fround cfg c.1 s hlt
    have hf := updateMovingState_fields fround cfg c.1 s
    have := ih (updateMovingState fround cfg c.1 s) (updateMovingState_wellFormed fround cfg c.1 s hwf)
      (by rw [b1, hstate]) (fun c' hc' => hnonneg c' (List.mem_cons_of_mem c hc'))
      (by rw [b2]; linarith)
    have hupd : ParticleSystem.updates fround applyMatrix4 cfg s (c :: t) =
        ParticleSystem.updates fround applyMatrix4 cfg (updateMovingState fround cfg c.1 s) t := by
      unfold ParticleSystem.updates
      rw [List.foldl_cons, hstep]
    rw [hupd]
    refine ⟨this.1, this.2.1, ?_, ?_⟩
    · rw [this.2.2.1, b2]
      simp only [List.map_cons, List.sum_cons]
      ring
    · rw [this.2.2.2, hf.2.1]

theorem originSystem_fields :
    (originSystem fround : ParticleSystem K).WellFormed CONFIG ∧
    (originSystem fround : ParticleSystem K).currentState = AnimationState.WAITING ∧
    (originSystem fround : ParticleSystem K).progress = 0 ∧
    (originSystem fround : ParticleSystem K).resetProgress = 0 ∧
    (originSystem fround : ParticleSystem K).cycleLog = [] := by
  unfold originSystem
  exact new_fields fround CONFIG _ _

theorem wellFormed_withState (cfg : Config K) (s : ParticleSystem K) (st : AnimationState)
    (h : s.WellFormed cfg) : ({ s with currentState := st } : ParticleSystem K).WellFormed cfg :=
  h

theorem updates_append_singleton (applyMatrix4 : M → Vector3 K → Vector3 K) (cfg : Config K)
    (s : ParticleSystem K) (calls : List (K × CycleRandom M)) (c : K × CycleRandom M) :
    ParticleSystem.updates fround applyMatrix4 cfg s (calls ++ [c]) =
      ParticleSystem.update fround applyMatrix4 cfg c.2 c.1
        (ParticleSystem.updates fround applyMatrix4 cfg s calls) := by
  unfold ParticleSystem.updates
  rw [List.foldl_append]
  rfl

end MovingState

section WaitingState

set_option linter.unusedSectionVars false

variable {K : Type} [LinearOrderedField K] {M : Type} (fround : K → K)

theorem updateWaitingState_stay (applyMatrix4 : M → Vector3 K → Vector3 K) (cfg : Config K)
    (rnd : CycleRandom M) (deltaTime : K) (s : ParticleSystem K)
    (h : s.progress + deltaTime / cfg.WAIT_DURATION < 1) :
    updateWaitingState fround applyMatrix4 cfg rnd deltaTime s =
      { s with progress := s.progress + deltaTime / cfg.WAIT_DURATION } := by
  unfold updateWaitingState
  simp only [ge_iff_le, if_neg (not_le.mpr h)]

theorem updateWaitingState_cross (applyMatrix4 : M → Vector3 K → Vector3 K) (cfg : Config K)
    (rnd : CycleRandom M) (deltaTime : K) (s : ParticleSystem K)
    (h : 1 ≤ s.progress + deltaTime / cfg.WAIT_DURATION) :
    (updateWaitingState fround applyMatrix4 cfg rnd deltaTime s).currentState
      = AnimationState.MOVING ∧
    (updateWaitingState fround applyMatrix4 cfg rnd deltaTime s).progress = 0 ∧
    (updateWaitingState fround applyMatrix4 cfg rnd deltaTime s).cycleLog =
      s.cycleLog ++ [decide (cfg.RESET_CYCLE_COUNT ≤ s.resetProgress + 1)] ∧
    (updateWaitingState fround applyMatrix4 cfg rnd deltaTime s).resetProgress =
      if cfg.RESET_CYCLE_COUNT ≤ s.resetProgress + 1 then 0 else s.resetProgress + 1 := by
  unfold updateWaitingState
  simp only [ge_iff_le, if_pos h]
  by_cases hK : cfg.RESET_CYCLE_COUNT ≤ s.resetProgress + 1
  · simp only [hK, decide_True, if_true]
    refine ⟨trivial, trivial, ?_, ?_⟩
    · exact (startNewCycle_fields fround applyMatrix4 cfg rnd true _).2.2.2.2.2.2.2
    · exact (startNewCycle_fields fround applyMatrix4 cfg rnd true _).2.2.2.2.2.2.1
  · simp only [hK, decide_False, if_false]
    refine ⟨trivial, trivial, ?_, ?_⟩
    · exact (startNewCycle_fields fround applyMatrix4 cfg rnd false _).2.2.2.2.2.2.2
    · exact (startNewCycle_fields fround applyMatrix4 cfg rnd false _).2.2.2.2.2.2.1

theorem cycleInvariant_extend (cfg : Config K) (hK : 1 ≤ cfg.RESET_CYCLE_COUNT) (rp : Nat)
    (log : List Bool) (h1 : rp < cfg.RESET_CYCLE_COUNT)
    (h2 : rp = log.length % cfg.RESET_CYCLE_COUNT)
    (h3 : ∀ n, n < log.length → log[n]? = some (decide (cfg.RESET_CYCLE_COUNT ∣ n + 1))) :
    (decide (cfg.RESET_CYCLE_COUNT ≤ rp + 1) = decide (cfg.RESET_CYCLE_COUNT ∣ log.length + 1)) ∧
    (if cfg.RESET_CYCLE_COUNT ≤ rp + 1 then 0 else rp + 1) < cfg.RESET_CYCLE_COUNT ∧
    (if cfg.RESET_CYCLE_COUNT ≤ rp + 1 then 0 else rp + 1)
      = (log ++ [decide (cfg.RESET_CYCLE_COUNT ≤ rp + 1)]).length % cfg.RESET_CYCLE_COUNT ∧
    ∀ n, n < (log ++ [decide (cfg.RESET_CYCLE_COUNT ≤ rp + 1)]).length →
      (log ++ [decide (cfg.RESET_CYCLE_COUNT ≤ rp + 1)])[n]?
        = some (decide (cfg.RESET_CYCLE_COUNT ∣ n + 1)) := by
  have hmod : (log.length + 1) % cfg.RESET_CYCLE_COUNT
      = (rp + 1) % cfg.RESET_CYCLE_COUNT := by
    rw [Nat.add_mod, ← h2, Nat.add_mod_mod]
  have hdvd : cfg.RESET_CYCLE_COUNT ≤ rp + 1 ↔ cfg.RESET_CYCLE_COUNT ∣ log.length + 1 := by
    rw [Nat.dvd_iff_mod_eq_zero, hmod]
    constructor
    · intro hle
      have : rp + 1 = cfg.RESET_CYCLE_COUNT := by omega
      rw [this, Nat.mod_self]
    · intro hz
      by_contra hlt
      rw [Nat.mod_eq_of_lt (by omega)] at hz
      omega
  have hdec : decide (cfg.RESET_CYCLE_COUNT ≤ rp + 1)
      = decide (cfg.RESET_CYCLE_COUNT ∣ log.length + 1) := by
    simp only [hdvd]
  refine ⟨hdec, ?_, ?_, ?_⟩
  · split <;> omega
  · rw [List.length_append, List.length_singleton, hmod]
    split
    · rename_i hle
      have : rp + 1 = cfg.RESET_CYCLE_COUNT := by omega
      rw [this, Nat.mod_self]
    · rename_i hlt
      rw [Nat.mod_eq_of_lt (by omega)]
  · intro n hn
    rw [List.length_append, List.length_singleton] at hn
    by_cases hlast : n = log.length
    · subst hlast
      rw [List.getElem?_append_right (le_refl _)]
      simp only [Nat.sub_self, List.getElem?_cons_zero, hdec]
    · rw [List.getElem?_append_left (by omega)]
      exact h3 n (by omega)

theorem update_cycleInvariant (applyMatrix4 : M → Vector3 K → Vector3 K) (cfg : Config K)
    (hK : 1 ≤ cfg.RESET_CYCLE_COUNT) (rnd : CycleRandom M) (deltaTime : K)
    (s : ParticleSystem K) (hinv : CycleInvariant cfg s) :
    CycleInvariant cfg (ParticleSystem.update fround applyMatrix4 cfg rnd deltaTime s) := by
  obtain ⟨h1, h2, h3⟩ := hinv
  unfold ParticleSystem.update
  split
  · obtain ⟨_, _, _, f4, f5, _⟩ := updateMovingState_fields fround cfg deltaTime s
    unfold CycleInvariant
    rw [f4, f5]
    exact ⟨h1, h2, h3⟩
  · by_cases hc : 1 ≤ s.progress + deltaTime / cfg.WAIT_DURATION
    · obtain ⟨_, _, c3, c4⟩ := updateWaitingState_cross fround applyMatrix4 cfg rnd deltaTime s hc
      obtain ⟨_, e2, e3, e4⟩ := cycleInvariant_extend cfg hK s.resetProgress s.cycleLog h1 h2 h3
      unfold CycleInvariant
      rw [c3, c4]
      exact ⟨e2, e3, e4⟩
    · rw [updateWaitingState_stay fround applyMatrix4 cfg rnd deltaTime s (not_le.mp hc)]
      exact ⟨h1, h2, h3⟩

theorem updates_cycleInvariant (applyMatrix4 : M → Vector3 K → Vector3 K) (cfg : Config K)
    (hK : 1 ≤ cfg.RESET_CYCLE_COUNT) (calls : List (K × CycleRandom M))
    (s : ParticleSystem K) (hinv : CycleInvariant cfg s) :
    CycleInvariant cfg (ParticleSystem.updates fround applyMatrix4 cfg s calls) := by
  induction calls generalizing s with
  | nil => exact hinv
  | cons c t ih =>
    unfold ParticleSystem.updates
    rw [List.foldl_cons]
    exact ih _ (update_cycleInvariant fround applyMatrix4 cfg hK c.2 c.1 s hinv)

theorem new_cycleInvariant (cfg : Config K) (hK : 1 ≤ cfg.RESET_CYCLE_COUNT)
    (basePosition entropy : Nat → Vector3 K) :
    CycleInvariant cfg (ParticleSystem.new fround cfg basePosition entropy) := by
  obtain ⟨_, _, _, h4, h5⟩ := new_fields fround cfg basePosition entropy
  unfold CycleInvariant
  rw [h4, h5]
  refine ⟨by omega, by simp, ?_⟩
  intro n hn
  simp at hn

/-- Which updates start a cycle: exactly those that lead from WAITING to MOVING, and each
of them records one call of `startNewCycle`. -/
theorem update_cycleLog (applyMatrix4 : M → Vector3 K → Vector3 K) (cfg : Config K)
    (rnd : CycleRandom M) (deltaTime : K) (s : ParticleSystem K) :
    (s.currentState = AnimationState.WAITING ∧
      (ParticleSystem.update fround applyMatrix4 cfg rnd deltaTime s).currentState
        = AnimationState.MOVING ∧
      (ParticleSystem.update fround applyMatrix4 cfg rnd deltaTime s).cycleLog =
        s.cycleLog ++ [decide (cfg.RESET_CYCLE_COUNT ≤ s.resetProgress + 1)]) ∨
    (¬ (s.currentState = AnimationState.WAITING ∧
      (ParticleSystem.update fround applyMatrix4 cfg rnd deltaTime s).currentState
        = AnimationState.MOVING) ∧
      (ParticleSystem.update fround applyMatrix4 cfg rnd deltaTime s).cycleLog = s.cycleLog) := by
  cases hst : s.currentState
  · -- WAITING
    have hupd : ParticleSystem.update fround applyMatrix4 cfg rnd deltaTime s
        = updateWaitingState fround applyMatrix4 cfg rnd deltaTime s := by
      unfold ParticleSystem.update
      rw [hst]
    rw [hupd]
    by_cases hc : 1 ≤ s.progress + deltaTime / cfg.WAIT_DURATION
    · obtain ⟨c1, _, c3, _⟩ := updateWaitingState_cross fround applyMatrix4 cfg rnd deltaTime s hc
      exact Or.inl ⟨rfl, c1, c3⟩
    · rw [updateWaitingState_stay fround applyMatrix4 cfg rnd deltaTime s (not_le.mp hc)]
      refine Or.inr ⟨?_, rfl⟩
      simp [hst]
  · -- MOVING
    refine Or.inr ⟨by simp, ?_⟩
    have hupd : ParticleSystem.update fround applyMatrix4 cfg rnd deltaTime s
        = updateMovingState fround cfg deltaTime s := by
      unfold ParticleSystem.update
      rw [hst]
    rw [hupd]
    exact (updateMovingState_fields fround cfg deltaTime s).2.2.2.2.1

end WaitingState

/-! ### The easing curve -/

section Easing

variable {K : Type} [LinearOrderedField K]

theorem easeInOutQuint_zero : easeInOutQuint (0 : K) = 0 := by
  unfold easeInOutQuint
  norm_num

theorem easeInOutQuint_of_lt {t : K} (h : t < 1 / 2) : easeInOutQuint t = 16 * t ^ 5 := by
  unfold easeInOutQuint
  rw [if_pos h]
  ring

theorem easeInOutQuint_of_ge {t : K} (h : 1 / 2 ≤ t) :
    easeInOutQuint t = 1 - (2 - 2 * t) ^ 5 / 2 := by
  unfold easeInOutQuint
  rw [if_neg (not_lt.mpr h)]
  ring

/-- On the first branch the curve stays at or below one half on `[0, 1/2]`. -/
theorem easeInOutQuint_le_half {t : K} (h0 : 0 ≤ t) (h : t < 1 / 2) :
    easeInOutQuint t ≤ 1 / 2 := by
  rw [easeInOutQuint_of_lt h]
  have hp : t ^ 5 ≤ (1 / 2 : K) ^ 5 := pow_le_pow_left₀ h0 h.le 5
  have h32 : (1 / 2 : K) ^ 5 = 1 / 32 := by norm_num
  rw [h32] at hp
  linarith

/-- On the second branch the curve stays at or above one half on `[1/2, 1]`. -/
theorem half_le_easeInOutQuint {t : K} (h : 1 / 2 ≤ t) (h1 : t ≤ 1) :
    1 / 2 ≤ easeInOutQuint t := by
  rw [easeInOutQuint_of_ge h]
  have hp : (2 - 2 * t) ^ 5 ≤ 1 := pow_le_one₀ (by linarith) (by linarith)
  linarith

end Easing

/-! ### Colours and decoding -/

section ColoursAndDecoding

set_option linter.unusedSectionVars false

variable {K : Type} [LinearOrderedField K]

theorem segmentColors_dynamic (cfg : Config K) (d : K) :
    segmentColors cfg d true =
      [specDynamicRed cfg d, specDynamicGreenBlue cfg d, specDynamicGreenBlue cfg d,
       specDynamicRed cfg d, specDynamicGreenBlue cfg d, specDynamicGreenBlue cfg d] := by
  unfold segmentColors specDynamicRed specDynamicGreenBlue
  simp only [if_true]
  have e1 : (7 / 10 : K) + (1 - d / cfg.CONNECTION_DISTANCE) * (2 / 10)
      = 7 / 10 + 2 / 10 * (1 - d / cfg.CONNECTION_DISTANCE) := by ring
  have e2 : (3 / 10 : K) + (1 - d / cfg.CONNECTION_DISTANCE) * (8 / 10)
      = 3 / 10 + 8 / 10 * (1 - d / cfg.CONNECTION_DISTANCE) := by ring
  rw [e1, e2]

theorem specDynamicRed_antitone (cfg : Config K) (hD : 0 < cfg.CONNECTION_DISTANCE)
    {d1 d2 : K} (h : d1 ≤ d2) : specDynamicRed cfg d2 ≤ specDynamicRed cfg d1 := by
  unfold specDynamicRed
  have hdiv : d1 / cfg.CONNECTION_DISTANCE ≤ d2 / cfg.CONNECTION_DISTANCE :=
    div_le_div_of_nonneg_right h hD.le
  exact max_le_max (le_refl _) (by linarith)

theorem specDynamicGreenBlue_antitone (cfg : Config K) (hD : 0 < cfg.CONNECTION_DISTANCE)
    {d1 d2 : K} (h : d1 ≤ d2) :
    specDynamicGreenBlue cfg d2 ≤ specDynamicGreenBlue cfg d1 := by
  unfold specDynamicGreenBlue
  have hdiv : d1 / cfg.CONNECTION_DISTANCE ≤ d2 / cfg.CONNECTION_DISTANCE :=
    div_le_div_of_nonneg_right h hD.le
  exact max_le_max (le_refl _) (by linarith)

theorem jsAnd_65535_eq (x : Int) : jsAnd x 65535 = Int.ofNat (toUint32 x % 65536) := by
  have h1 : toUint32 65535 = 2 ^ 16 - 1 := by decide
  have h2 : (2 : Nat) ^ 16 = 65536 := by norm_num
  unfold jsAnd
  rw [h1, Nat.and_pow_two_sub_one_eq_mod, h2, toInt32_ofNat_of_lt (by omega)]

theorem drawStep_getConnectionKey (distanceTo : Vector3 K → Vector3 K → K) (cfg : Config K)
    (particles : List (Particle K)) {i j : Nat} (hij : i < j) (hj : j < 65536)
    (hN : j < particles.length) (s : ConnectionSystem K) :
    drawStep distanceTo cfg particles s (getConnectionKey i j) =
      some { s with
        linePositions := s.linePositions ++ segmentPositions particles (i, j),
        lineColors := s.lineColors ++
          segmentColors cfg (pairDistance distanceTo particles (i, j)) false } := by
  have hd := decodeConnectionKey_getConnectionKey hij hj
  rw [drawStep_eq distanceTo cfg particles (by rw [hd]; exact lt_trans hij hN)
    (by rw [hd]; exact hN), hd]

end ColoursAndDecoding

/-! ### Sequences of calls of the connection system -/

section ConnectionCalls

set_option linter.unusedSectionVars false

variable {K : Type} [LinearOrderedField K]

theorem foldlM_some_invariant {σ α : Type} (f : σ → α → Option σ) (P : σ → Prop)
    (hstep : ∀ s a s', f s a = some s' → P s → P s') :
    ∀ (l : List α) (s s' : σ), l.foldlM f s = some s' → P s → P s' := by
  intro l
  induction l with
  | nil =>
    intro s s' h hP
    simp only [List.foldlM_nil] at h
    cases h
    exact hP
  | cons a t ih =>
    intro s s' h hP
    rw [List.foldlM_cons] at h
    obtain ⟨s1, h1, h2⟩ := Option.bind_eq_some.mp h
    exact ih s1 s' h2 (hstep s a s1 h1 hP)

theorem addLineSegment_mode (cfg : Config K) (particles : List (Particle K)) (i j : Nat)
    (dist : K) (isDynamic : Bool) (s s' : ConnectionSystem K)
    (h : addLineSegment cfg particles i j dist isDynamic s = some s') :
    s'.connectionMode = s.connectionMode := by
  unfold addLineSegment at h
  obtain ⟨pi, _, h⟩ := Option.bind_eq_some.mp h
  obtain ⟨pj, _, h⟩ := Option.bind_eq_some.mp h
  cases h
  rfl

theorem scanStep_mode (distanceTo : Vector3 K → Vector3 K → K) (cfg : Config K)
    (particles : List (Particle K)) (s : ConnectionSystem K) (ij : Nat × Nat)
    (s' : ConnectionSystem K) (h : scanStep distanceTo cfg particles s ij = some s') :
    s'.connectionMode = s.connectionMode := by
  unfold scanStep at h
  obtain ⟨pi, _, h⟩ := Option.bind_eq_some.mp h
  obtain ⟨pj, _, h⟩ := Option.bind_eq_some.mp h
  simp only [] at h
  split at h
  · cases h
    rfl
  · cases h
    rfl

theorem drawStep_mode (distanceTo : Vector3 K → Vector3 K → K) (cfg : Config K)
    (particles : List (Particle K)) (s : ConnectionSystem K) (key : Int)
    (s' : ConnectionSystem K) (h : drawStep distanceTo cfg particles s key = some s') :
    s'.connectionMode = s.connectionMode := by
  unfold drawStep at h
  obtain ⟨pi, _, h⟩ := Option.bind_eq_some.mp h
  obtain ⟨pj, _, h⟩ := Option.bind_eq_some.mp h
  exact addLineSegment_mode cfg particles _ _ _ false s s' h

theorem updatePersistentConnections_mode (distanceTo : Vector3 K → Vector3 K → K)
    (cfg : Config K) (particles : List (Particle K)) (s s' : ConnectionSystem K)
    (h : updatePersistentConnections distanceTo cfg particles s = some s') :
    s'.connectionMode = s.connectionMode := by
  unfold updatePersistentConnections at h
  obtain ⟨s1, h1, h2⟩ := Option.bind_eq_some.mp h
  have e1 : s1.connectionMode = s.connectionMode :=
    foldlM_some_invariant (scanStep distanceTo cfg particles)
      (fun t => t.connectionMode = s.connectionMode)
      (fun t a t' ht hP => (scanStep_mode distanceTo cfg particles t a t' ht).trans hP)
      _ _ _ h1 rfl
  exact foldlM_some_invariant (drawStep distanceTo cfg particles)
    (fun t => t.connectionMode = s.connectionMode)
    (fun t a t' ht hP => (drawStep_mode distanceTo cfg particles t a t' ht).trans hP)
    _ _ _ h2 e1

/-- One call keeps the set empty whenever the mode is DYNAMIC. -/
theorem call_dynamic_empty (distanceTo : Vector3 K → Vector3 K → K) (cfg : Config K)
    (s : ConnectionSystem K) (c : ConnectionCall K) (s' : ConnectionSystem K)
    (h : ConnectionSystem.call distanceTo cfg s c = some s')
    (hinv : s.connectionMode = ConnectionMode.DYNAMIC → s.persistentConnections = []) :
    s'.connectionMode = ConnectionMode.DYNAMIC → s'.persistentConnections = [] := by
  cases c with
  | setConnectionMode mode =>
    cases mode
    · have : s' = { s with connectionMode := ConnectionMode.DYNAMIC,
                           persistentConnections := [] } := (Option.some.inj h).symm
      subst this
      intro _
      rfl
    · have : s' = { s with connectionMode := ConnectionMode.PERSISTENT } :=
        (Option.some.inj h).symm
      subst this
      intro hd
      exact ConnectionMode.noConfusion hd
  | update particles =>
    unfold ConnectionSystem.call ConnectionSystem.update at h
    cases hm : s.connectionMode
    · rw [hm] at h
      simp only [] at h
      rw [updateDynamicConnections_eq] at h
      have := (Option.some.inj h).symm
      subst this
      intro _
      exact hinv hm
    · rw [hm] at h
      simp only [] at h
      have := updatePersistentConnections_mode distanceTo cfg particles s s' h
      intro hd
      rw [this, hm] at hd
      exact ConnectionMode.noConfusion hd
  | resetConnections =>
    have : s' = resetConnections s := (Option.some.inj h).symm
    subst this
    intro _
    rfl

/-- One call on particle lists of length `n` succeeds and keeps the keys decodable. -/
theorem call_succeeds (distanceTo : Vector3 K → Vector3 K → K) (cfg : Config K) (n : Nat)
    (s : ConnectionSystem K) (c : ConnectionCall K)
    (hc : ∀ ps, c = ConnectionCall.update ps → ps.length = n)
    (hvalid : ∀ key ∈ s.persistentConnections,
      (decodeConnectionKey key).1 < n ∧ (decodeConnectionKey key).2 < n) :
    ∃ s', ConnectionSystem.call distanceTo cfg s c = some s' ∧
      ∀ key ∈ s'.persistentConnections,
        (decodeConnectionKey key).1 < n ∧ (decodeConnectionKey key).2 < n := by
  cases c with
  | setConnectionMode mode =>
    cases mode
    · exact ⟨_, rfl, by intro key hk; simp at hk⟩
    · exact ⟨_, rfl, hvalid⟩
  | update particles =>
    have hlen := hc particles rfl
    unfold ConnectionSystem.call ConnectionSystem.update
    cases hm : s.connectionMode
    · simp only []
      rw [updateDynamicConnections_eq]
      exact ⟨_, rfl, hvalid⟩
    · simp only []
      subst hlen
      rw [updatePersistentConnections_eq distanceTo cfg particles s hvalid]
      exact ⟨_, rfl, scanned_keys_valid distanceTo cfg particles _ hvalid⟩
  | resetConnections =>
    exact ⟨_, rfl, by intro key hk; simp [resetConnections] at hk⟩

theorem calls_succeed (distanceTo : Vector3 K → Vector3 K → K) (cfg : Config K) (n : Nat)
    (cs : List (ConnectionCall K))
    (hcs : ∀ ps, ConnectionCall.update ps ∈ cs → ps.length = n)
    (s : ConnectionSystem K)
    (hvalid : ∀ key ∈ s.persistentConnections,
      (decodeConnectionKey key).1 < n ∧ (decodeConnectionKey key).2 < n) :
    ∃ s', ConnectionSystem.calls distanceTo cfg cs s = some s' := by
  induction cs generalizing s with
  | nil => exact ⟨s, rfl⟩
  | cons c t ih =>
    obtain ⟨s1, h1, hv1⟩ := call_succeeds distanceTo cfg n s c
      (fun ps hps => hcs ps (by rw [hps]; exact List.mem_cons_self _ _)) hvalid
    obtain ⟨s', h'⟩ := ih (fun ps hps => hcs ps (List.mem_cons_of_mem c hps)) s1 hv1
    refine ⟨s', ?_⟩
    unfold ConnectionSystem.calls at h' ⊢
    rw [List.foldlM_cons, h1]
    exact h'

end ConnectionCalls

/-! ### The constructed state and the invariant of the motion engine -/

section Construction

set_option linter.unusedSectionVars false

variable {K : Type} [LinearOrderedField K] {M : Type} (fround : K → K)

theorem foldl_createStep_range (pos : Nat → Vector3 K) (n : Nat) (s : ParticleSystem K)
    (hp : s.particles = []) (h1 : n * 3 ≤ s.startPositions.length)
    (h2 : n * 3 ≤ s.endPositions.length) (h3 : n * 3 ≤ s.originalPositions.length)
    (h4 : n * 3 ≤ s.positionAttribute.length) :
    ((List.range n).foldl (createStep fround pos) s).particles =
      (List.range n).map (fun i => { position := pos i, basePosition := pos i }) ∧
    ∀ i < n,
      fromArray ((List.range n).foldl (createStep fround pos) s).startPositions (i * 3)
        = froundVec fround (pos i) ∧
      fromArray ((List.range n).foldl (createStep fround pos) s).endPositions (i * 3)
        = froundVec fround (pos i) ∧
      fromArray ((List.range n).foldl (createStep fround pos) s).originalPositions (i * 3)
        = froundVec fround (pos i) ∧
      fromArray ((List.range n).foldl (createStep fround pos) s).positionAttribute (i * 3)
        = froundVec fround (pos i) := by
  induction n with
  | zero => simp [hp]
  | succ n ih =>
    obtain ⟨ihp, iha⟩ := ih (by omega) (by omega) (by omega) (by omega)
    obtain ⟨f1, f2, f3, f4, _⟩ := foldl_createStep_fields fround pos (List.range n) s
    rw [List.range_succ, List.foldl_append]
    simp only [List.foldl_cons, List.foldl_nil]
    constructor
    · show ((List.range n).foldl (createStep fround pos) s).particles ++
        [{ position := pos n, basePosition := pos n }] = _
      rw [ihp, List.map_append]
      rfl
    · intro i hi
      by_cases hin : i = n
      · subst hin
        exact ⟨fromArray_setXYZ_self fround _ _ _ (by rw [f1]; omega),
          fromArray_setXYZ_self fround _ _ _ (by rw [f2]; omega),
          fromArray_setXYZ_self fround _ _ _ (by rw [f3]; omega),
          fromArray_setXYZ_self fround _ _ _ (by rw [f4]; omega)⟩
      · obtain ⟨a1, a2, a3, a4⟩ := iha i (by omega)
        exact ⟨(fromArray_setXYZ_of_ne fround _ _ _ _ hin).trans a1,
          (fromArray_setXYZ_of_ne fround _ _ _ _ hin).trans a2,
          (fromArray_setXYZ_of_ne fround _ _ _ _ hin).trans a3,
          (fromArray_setXYZ_of_ne fround _ _ _ _ hin).trans a4⟩

/-- What the constructor stores for the generated positions. -/
theorem new_positions (cfg : Config K) (basePosition entropy : Nat → Vector3 K) :
    (ParticleSystem.new fround cfg basePosition entropy).particles =
      (List.range cfg.PARTICLE_COUNT).map (fun i =>
        { position := (basePosition i).add (entropy i),
          basePosition := (basePosition i).add (entropy i) }) ∧
    ∀ i < cfg.PARTICLE_COUNT,
      fromArray (ParticleSystem.new fround cfg basePosition entropy).startPositions (i * 3)
        = froundVec fround ((basePosition i).add (entropy i)) ∧
      fromArray (ParticleSystem.new fround cfg basePosition entropy).endPositions (i * 3)
        = froundVec fround ((basePosition i).add (entropy i)) ∧
      fromArray (ParticleSystem.new fround cfg basePosition entropy).originalPositions (i * 3)
        = froundVec fround ((basePosition i).add (entropy i)) ∧
      fromArray (ParticleSystem.new fround cfg basePosition entropy).positionAttribute (i * 3)
        = froundVec fround ((basePosition i).add (entropy i)) := by
  unfold ParticleSystem.new
  exact foldl_createStep_range fround (fun i => (basePosition i).add (entropy i))
    cfg.PARTICLE_COUNT _ rfl (by simp) (by simp) (by simp) (by simp)

theorem new_particle (cfg : Config K) (basePosition entropy : Nat → Vector3 K) (i : Nat)
    (hi : i < cfg.PARTICLE_COUNT) :
    (ParticleSystem.new fround cfg basePosition entropy).particles[i]? =
      some { position := (basePosition i).add (entropy i),
             basePosition := (basePosition i).add (entropy i) } := by
  rw [(new_positions fround cfg basePosition entropy).1, List.getElem?_map,
    List.getElem?_range hi]
  rfl

theorem position_congr (s t : ParticleSystem K) (h : s.particles = t.particles) (i : Nat) :
    s.position i = t.position i := by
  unfold ParticleSystem.position
  rw [h]

theorem new_motionInvariant (cfg : Config K) (basePosition entropy : Nat → Vector3 K) :
    MotionInvariant fround cfg (ParticleSystem.new fround cfg basePosition entropy) := by
  obtain ⟨hwf, hst, _, _, hlog⟩ := new_fields fround cfg basePosition entropy
  refine ⟨hwf, ?_, ?_⟩
  · intro _
    refine Or.inr ⟨hlog, ?_⟩
    intro i hi
    unfold ParticleSystem.position
    rw [new_particle fround cfg basePosition entropy i hi,
      ((new_positions fround cfg basePosition entropy).2 i hi).2.1]
  · intro h
    rw [hst] at h
    exact AnimationState.noConfusion h

end Construction

section InvariantSteps

set_option linter.unusedSectionVars false

variable {K : Type} [LinearOrderedField K] {M : Type} (fround : K → K)

theorem updateMovingState_below_positions (cfg : Config K) (deltaTime : K)
    (s : ParticleSystem K) (h : s.progress + deltaTime / cfg.MOVE_DURATION < 1)
    (hlen : cfg.PARTICLE_COUNT ≤ s.particles.length) :
    ∀ i < cfg.PARTICLE_COUNT,
      (updateMovingState fround cfg deltaTime s).position i =
        lerpVectors (fromArray s.startPositions (i * 3)) (fromArray s.endPositions (i * 3))
          (easeInOutQuint (min (s.progress + deltaTime / cfg.MOVE_DURATION) 1)) := by
  rw [updateMovingState_def fround, if_neg (not_le.mpr h)]
  intro i hi
  exact (foldl_moveStep_range fround
    (easeInOutQuint (min (s.progress + deltaTime / cfg.MOVE_DURATION) 1))
    cfg.PARTICLE_COUNT { s with progress := s.progress + deltaTime / cfg.MOVE_DURATION }
    hlen).1 i hi

theorem updateWaitingState_cross_fields (applyMatrix4 : M → Vector3 K → Vector3 K)
    (cfg : Config K) (rnd : CycleRandom M) (deltaTime : K) (s : ParticleSystem K)
    (hwf : s.WellFormed cfg) (h : 1 ≤ s.progress + deltaTime / cfg.WAIT_DURATION) :
    (updateWaitingState fround applyMatrix4 cfg rnd deltaTime s).particles = s.particles ∧
    (updateWaitingState fround applyMatrix4 cfg rnd deltaTime s).startPositions = s.endPositions ∧
    (updateWaitingState fround applyMatrix4 cfg rnd deltaTime s).WellFormed cfg := by
  unfold updateWaitingState
  simp only [ge_iff_le, if_pos h]
  by_cases hK : cfg.RESET_CYCLE_COUNT ≤ s.resetProgress + 1
  · simp only [hK, decide_True, if_true]
    have hwf1 : ({ s with progress := s.progress + deltaTime / cfg.WAIT_DURATION,
                          resetProgress := 0 } : ParticleSystem K).WellFormed cfg := hwf
    exact ⟨(startNewCycle_fields fround applyMatrix4 cfg rnd true _).2.2.1,
      (startNewCycle_reset_eq fround applyMatrix4 cfg rnd _ hwf1).1,
      startNewCycle_wellFormed fround applyMatrix4 cfg rnd true _ hwf1⟩
  · simp only [hK, decide_False, if_false]
    have hwf1 : ({ s with progress := s.progress + deltaTime / cfg.WAIT_DURATION,
                          resetProgress := s.resetProgress + 1 } :
        ParticleSystem K).WellFormed cfg := hwf
    exact ⟨(startNewCycle_fields fround applyMatrix4 cfg rnd false _).2.2.1,
      (startNewCycle_transform_eq fround applyMatrix4 cfg rnd _ hwf1).1,
      startNewCycle_wellFormed fround applyMatrix4 cfg rnd false _ hwf1⟩

theorem update_motionInvariant (applyMatrix4 : M → Vector3 K → Vector3 K) (cfg : Config K)
    (rnd : CycleRandom M) (deltaTime : K) (s : ParticleSystem K)
    (hinv : MotionInvariant fround cfg s) :
    MotionInvariant fround cfg
      (ParticleSystem.update fround applyMatrix4 cfg rnd deltaTime s) := by
  obtain ⟨hwf, hwait, hmove⟩ := hinv
  cases hst : s.currentState
  · -- WAITING
    have hupd : ParticleSystem.update fround applyMatrix4 cfg rnd deltaTime s
        = updateWaitingState fround applyMatrix4 cfg rnd deltaTime s := by
      unfold ParticleSystem.update
      rw [hst]
    rw [hupd]
    by_cases hc : 1 ≤ s.progress + deltaTime / cfg.WAIT_DURATION
    · obtain ⟨c1, c2, c3, _⟩ :=
        updateWaitingState_cross fround applyMatrix4 cfg rnd deltaTime s hc
      obtain ⟨f1, f2, f3⟩ :=
        updateWaitingState_cross_fields fround applyMatrix4 cfg rnd deltaTime s hwf hc
      refine ⟨f3, ?_, ?_⟩
      · intro hw
        rw [c1] at hw
        exact AnimationState.noConfusion hw
      · intro _
        refine ⟨by rw [c3]; exact List.append_ne_nil_of_right_ne_nil _ (List.cons_ne_nil _ _),
          ?_⟩
        rcases hwait hst with ⟨_, hon⟩ | ⟨hlog, hfresh⟩
        · refine Or.inl ?_
          intro i hi
          rw [c2, min_eq_left (zero_le_one), easeInOutQuint_zero, lerpVectors_zero, f2,
            position_congr _ s f1 i]
          exact hon i hi
        · refine Or.inr ⟨c2, by rw [c3, hlog]; rfl, ?_⟩
          intro i hi
          rw [f2, position_congr _ s f1 i]
          exact hfresh i hi
    · rw [updateWaitingState_stay fround applyMatrix4 cfg rnd deltaTime s (not_le.mp hc)]
      refine ⟨hwf, ?_, ?_⟩
      · intro _
        exact hwait hst
      · intro hm
        have hm' : s.currentState = AnimationState.MOVING := hm
        rw [hst] at hm'
        exact AnimationState.noConfusion hm'
  · -- MOVING
    have hupd : ParticleSystem.update fround applyMatrix4 cfg rnd deltaTime s
        = updateMovingState fround cfg deltaTime s := by
      unfold ParticleSystem.update
      rw [hst]
    rw [hupd]
    have hlen : cfg.PARTICLE_COUNT ≤ s.particles.length := by rw [hwf.1]
    obtain ⟨g1, g2, _, _, g5, _⟩ := updateMovingState_fields fround cfg deltaTime s
    have hne : (updateMovingState fround cfg deltaTime s).cycleLog ≠ [] := by
      rw [g5]
      exact (hmove hst).1
    refine ⟨updateMovingState_wellFormed fround cfg deltaTime s hwf, ?_, ?_⟩
    · intro hw
      refine Or.inl ⟨hne, ?_⟩
      intro i hi
      by_cases hc : 1 ≤ s.progress + deltaTime / cfg.MOVE_DURATION
      · rw [g2]
        exact (updateMovingState_done fround cfg deltaTime s hc hlen).2.2 i hi
      · have := (updateMovingState_below fround cfg deltaTime s (not_le.mp hc)).1
        rw [this, hst] at hw
        exact AnimationState.noConfusion hw
    · intro hm
      refine ⟨hne, Or.inl ?_⟩
      intro i hi
      by_cases hc : 1 ≤ s.progress + deltaTime / cfg.MOVE_DURATION
      · have := (updateMovingState_done fround cfg deltaTime s hc hlen).1
        rw [this] at hm
        exact AnimationState.noConfusion hm
      · rw [g1, g2, (updateMovingState_below fround cfg deltaTime s (not_le.mp hc)).2]
        exact updateMovingState_below_positions fround cfg deltaTime s (not_le.mp hc) hlen
          i hi

theorem updates_motionInvariant (applyMatrix4 : M → Vector3 K → Vector3 K) (cfg : Config K)
    (calls : List (K × CycleRandom M)) (s : ParticleSystem K)
    (hinv : MotionInvariant fround cfg s) :
    MotionInvariant fround cfg (ParticleSystem.updates fround applyMatrix4 cfg s calls) := by
  induction calls generalizing s with
  | nil => exact hinv
  | cons c t ih =>
    unfold ParticleSystem.updates
    rw [List.foldl_cons]
    exact ih _ (update_motionInvariant fround applyMatrix4 cfg c.2 c.1 s hinv)

/-- An update made in MOVING that stays in MOVING puts every particle on the eased
interpolation. -/
theorem update_moving_interpolated (applyMatrix4 : M → Vector3 K → Vector3 K)
    (cfg : Config K) (rnd : CycleRandom M) (deltaTime : K) (s : ParticleSystem K)
    (hwf : s.WellFormed cfg) (hst : s.currentState = AnimationState.MOVING)
    (hnext : (ParticleSystem.update fround applyMatrix4 cfg rnd deltaTime s).currentState
      = AnimationState.MOVING) :
    Interpolated cfg (ParticleSystem.update fround applyMatrix4 cfg rnd deltaTime s) := by
  have hupd : ParticleSystem.update fround applyMatrix4 cfg rnd deltaTime s
      = updateMovingState fround cfg deltaTime s := by
    unfold ParticleSystem.update
    rw [hst]
  rw [hupd] at hnext ⊢
  have hlen : cfg.PARTICLE_COUNT ≤ s.particles.length := by rw [hwf.1]
  obtain ⟨g1, g2, _⟩ := updateMovingState_fields fround cfg deltaTime s
  intro i hi
  by_cases hc : 1 ≤ s.progress + deltaTime / cfg.MOVE_DURATION
  · have := (updateMovingState_done fround cfg deltaTime s hc hlen).1
    rw [this] at hnext
    exact AnimationState.noConfusion hnext
  · rw [g1, g2, (updateMovingState_below fround cfg deltaTime s (not_le.mp hc)).2]
    exact updateMovingState_below_positions fround cfg deltaTime s (not_le.mp hc) hlen i hi

/-- The update that leads from WAITING to MOVING gives progress 0 and moves no particle;
the new `startPositions` entry is the particle's position once a cycle has been started
before, and its narrowing at the first transition. -/
theorem update_transition (applyMatrix4 : M → Vector3 K → Vector3 K) (cfg : Config K)
    (rnd : CycleRandom M) (deltaTime : K) (s : ParticleSystem K)
    (hinv : MotionInvariant fround cfg s) (hst : s.currentState = AnimationState.WAITING)
    (hnext : (ParticleSystem.update fround applyMatrix4 cfg rnd deltaTime s).currentState
      = AnimationState.MOVING) :
    (ParticleSystem.update fround applyMatrix4 cfg rnd deltaTime s).progress = 0 ∧
    ∀ i < cfg.PARTICLE_COUNT,
      (ParticleSystem.update fround applyMatrix4 cfg rnd deltaTime s).position i
        = s.position i ∧
      (s.cycleLog ≠ [] →
        (ParticleSystem.update fround applyMatrix4 cfg rnd deltaTime s).position i =
          fromArray (ParticleSystem.update fround applyMatrix4 cfg rnd deltaTime s).startPositions
            (i * 3)) ∧
      (s.cycleLog = [] →
        fromArray (ParticleSystem.update fround applyMatrix4 cfg rnd deltaTime s).startPositions
            (i * 3) =
          froundVec fround
            ((ParticleSystem.update fround applyMatrix4 cfg rnd deltaTime s).position i)) := by
  obtain ⟨hwf, hwait, _⟩ := hinv
  have hupd : ParticleSystem.update fround applyMatrix4 cfg rnd deltaTime s
      = updateWaitingState fround applyMatrix4 cfg rnd deltaTime s := by
    unfold ParticleSystem.update
    rw [hst]
  rw [hupd] at hnext ⊢
  by_cases hc : 1 ≤ s.progress + deltaTime / cfg.WAIT_DURATION
  · obtain ⟨_, c2, _, _⟩ := updateWaitingState_cross fround applyMatrix4 cfg rnd deltaTime s hc
    obtain ⟨f1, f2, _⟩ :=
      updateWaitingState_cross_fields fround applyMatrix4 cfg rnd deltaTime s hwf hc
    refine ⟨c2, ?_⟩
    intro i hi
    rw [f2, position_congr _ s f1 i]
    refine ⟨rfl, ?_, ?_⟩
    · intro hne
      rcases hwait hst with ⟨_, hon⟩ | ⟨hlog, _⟩
      · exact hon i hi
      · exact absurd hlog hne
    · intro hnil
      rcases hwait hst with ⟨hne, _⟩ | ⟨_, hfresh⟩
      · exact absurd hnil hne
      · exact hfresh i hi
  · rw [updateWaitingState_stay fround applyMatrix4 cfg rnd deltaTime s (not_le.mp hc)] at hnext
    have hn : s.currentState = AnimationState.MOVING := hnext
    rw [hst] at hn
    exact AnimationState.noConfusion hn

end InvariantSteps

/-! ### The sphere point and the entropy bound -/

section SphereBound

set_option linter.unusedSectionVars false

variable {K : Type} [LinearOrderedField K]

theorem generateSpherePoint_lengthSq (m : JsMath K)
    (hm : ∀ x, m.sin x * m.sin x + m.cos x * m.cos x = 1) (radius random1 random2 : K) :
    (generateSpherePoint m radius random1 random2).lengthSq = radius * radius := by
  have h1 := hm (random1 * m.PI * 2)
  have h2 := hm (m.acos (2 * random2 - 1))
  unfold generateSpherePoint Vector3.lengthSq
  simp only []
  linear_combination
    (radius * radius * m.sin (m.acos (2 * random2 - 1)) * m.sin (m.acos (2 * random2 - 1))) * h1
      + (radius * radius) * h2

theorem jitter_sq_le (r a : K) (h0 : 0 ≤ r) (h1 : r < 1) :
    ((r - 1 / 2) * a) * ((r - 1 / 2) * a) ≤ 1 / 4 * (a * a) := by
  have hr : (r - 1 / 2) * (r - 1 / 2) ≤ 1 / 4 := by nlinarith
  have ha : 0 ≤ a * a := mul_self_nonneg a
  have : ((r - 1 / 2) * a) * ((r - 1 / 2) * a) = (r - 1 / 2) * (r - 1 / 2) * (a * a) := by ring
  rw [this]
  exact mul_le_mul_of_nonneg_right hr ha

theorem entropyVector_lengthSq_le (cfg : Config K) (r : ParticleRandom K)
    (h3 : 0 ≤ r.r3 ∧ r.r3 < 1) (h4 : 0 ≤ r.r4 ∧ r.r4 < 1) (h5 : 0 ≤ r.r5 ∧ r.r5 < 1) :
    (entropyVector cfg r).lengthSq ≤
      3 / 4 * ((cfg.ENTROPY_FACTOR * cfg.SPHERE_RADIUS)
        * (cfg.ENTROPY_FACTOR * cfg.SPHERE_RADIUS)) := by
  have a3 := jitter_sq_le r.r3 (cfg.ENTROPY_FACTOR * cfg.SPHERE_RADIUS) h3.1 h3.2
  have a4 := jitter_sq_le r.r4 (cfg.ENTROPY_FACTOR * cfg.SPHERE_RADIUS) h4.1 h4.2
  have a5 := jitter_sq_le r.r5 (cfg.ENTROPY_FACTOR * cfg.SPHERE_RADIUS) h5.1 h5.2
  unfold entropyVector Vector3.lengthSq
  simp only []
  have e : ∀ u : K, (u - 1 / 2) * cfg.ENTROPY_FACTOR * cfg.SPHERE_RADIUS
      = (u - 1 / 2) * (cfg.ENTROPY_FACTOR * cfg.SPHERE_RADIUS) := fun u => by ring
  rw [e, e, e]
  linarith

/-- The triangle inequality for `Vector3.add`, stated on squared lengths. -/
theorem length_add_le (b e : Vector3 K) (B m n : K) (hB : 0 ≤ B) (hm : 0 ≤ m)
    (hb : b.lengthSq = B * B) (he : e.lengthSq ≤ m * m)
    (hn : n * n = (b.add e).lengthSq) : n ≤ B + m := by
  by_contra hlt
  have hlt : B + m < n := not_le.mp hlt
  have hsq : (B + m) * (B + m) < n * n :=
    mul_self_lt_mul_self (add_nonneg hB hm) hlt
  have hcs : (b.x * e.x + b.y * e.y + b.z * e.z) * (b.x * e.x + b.y * e.y + b.z * e.z)
      ≤ b.lengthSq * e.lengthSq := by
    have hid : b.lengthSq * e.lengthSq
        - (b.x * e.x + b.y * e.y + b.z * e.z) * (b.x * e.x + b.y * e.y + b.z * e.z)
        = (b.x * e.y - b.y * e.x) * (b.x * e.y - b.y * e.x)
          + (b.x * e.z - b.z * e.x) * (b.x * e.z - b.z * e.x)
          + (b.y * e.z - b.z * e.y) * (b.y * e.z - b.z * e.y) := by
      unfold Vector3.lengthSq
      ring
    have := add_nonneg (add_nonneg (mul_self_nonneg (b.x * e.y - b.y * e.x))
      (mul_self_nonneg (b.x * e.z - b.z * e.x))) (mul_self_nonneg (b.y * e.z - b.z * e.y))
    linarith
  have hle : b.lengthSq * e.lengthSq ≤ (B * m) * (B * m) := by
    rw [hb]
    have : B * B * e.lengthSq ≤ B * B * (m * m) :=
      mul_le_mul_of_nonneg_left he (mul_self_nonneg B)
    linarith [this, (by ring : B * B * (m * m) = (B * m) * (B * m))]
  have hdot : b.x * e.x + b.y * e.y + b.z * e.z ≤ B * m := by
    by_contra hgt
    have hgt : B * m < b.x * e.x + b.y * e.y + b.z * e.z := not_le.mp hgt
    have := mul_self_lt_mul_self (mul_nonneg hB hm) hgt
    linarith
  have hexp : (b.add e).lengthSq
      = b.lengthSq + 2 * (b.x * e.x + b.y * e.y + b.z * e.z) + e.lengthSq := by
    unfold Vector3.add Vector3.lengthSq
    ring
  rw [hn, hexp, hb] at hsq
  nlinarith

end SphereBound

theorem lengthSq_nonneg {K : Type} [LinearOrderedField K] (v : Vector3 K) :
    0 ≤ v.lengthSq :=
  add_nonneg (add_nonneg (mul_self_nonneg _) (mul_self_nonneg _)) (mul_self_nonneg _)

theorem createParticles_length {K : Type} [LinearOrderedField K] (fround : K → K)
    (m : JsMath K)
    (cfg : Config K) (draws : Nat → ParticleRandom K) :
    (createParticles fround m cfg draws).particles.length = cfg.PARTICLE_COUNT :=
  (new_fields fround cfg _ _).1.1

/-- The first update of the constructed motion engine of config.js, with a delta time of one
second, starts the first MOVING phase. -/
theorem first_update_moves {M : Type} (fround : ℚ → ℚ)
    (applyMatrix4 : M → Vector3 ℚ → Vector3 ℚ)
    (rnd : CycleRandom M) (basePosition entropy : Nat → Vector3 ℚ) :
    (ParticleSystem.updates fround applyMatrix4 CONFIG
      (ParticleSystem.new fround CONFIG basePosition entropy) [((1 : ℚ), rnd)]).currentState
        = AnimationState.MOVING := by
  obtain ⟨_, hst, hpr, _⟩ := new_fields fround (CONFIG : Config ℚ) basePosition entropy
  have hupd : ParticleSystem.updates fround applyMatrix4 CONFIG
      (ParticleSystem.new fround CONFIG basePosition entropy) [((1 : ℚ), rnd)]
      = updateWaitingState fround applyMatrix4 CONFIG rnd 1
          (ParticleSystem.new fround CONFIG basePosition entropy) := by
    unfold ParticleSystem.updates
    rw [List.foldl_cons, List.foldl_nil]
    unfold ParticleSystem.update
    rw [hst]
  rw [hupd]
  exact (updateWaitingState_cross fround applyMatrix4 CONFIG rnd 1 _
    (by rw [hpr]; norm_num [CONFIG])).1

/-- The second update of the constructed motion engine of config.js, one second after the
first, stays in the MOVING phase. -/
theorem second_update_moves {M : Type} (fround : ℚ → ℚ)
    (applyMatrix4 : M → Vector3 ℚ → Vector3 ℚ)
    (rnd rnd2 : CycleRandom M) (basePosition entropy : Nat → Vector3 ℚ) :
    (ParticleSystem.updates fround applyMatrix4 CONFIG
      (ParticleSystem.new fround CONFIG basePosition entropy)
      ([((1 : ℚ), rnd)] ++ [((1 : ℚ), rnd2)])).currentState = AnimationState.MOVING := by
  have h1 := first_update_moves fround applyMatrix4 rnd basePosition entropy
  have hinv := updates_motionInvariant fround applyMatrix4 CONFIG [((1 : ℚ), rnd)] _
    (new_motionInvariant fround CONFIG basePosition entropy)
  obtain ⟨_, hst, hpr, _⟩ := new_fields fround (CONFIG : Config ℚ) basePosition entropy
  have hp : (ParticleSystem.updates fround applyMatrix4 CONFIG
      (ParticleSystem.new fround CONFIG basePosition entropy) [((1 : ℚ), rnd)]).progress
        = 0 := by
    have hupd : ParticleSystem.updates fround applyMatrix4 CONFIG
        (ParticleSystem.new fround CONFIG basePosition entropy) [((1 : ℚ), rnd)]
        = updateWaitingState fround applyMatrix4 CONFIG rnd 1
            (ParticleSystem.new fround CONFIG basePosition entropy) := by
      unfold ParticleSystem.updates
      rw [List.foldl_cons, List.foldl_nil]
      unfold ParticleSystem.update
      rw [hst]
    rw [hupd]
    exact (updateWaitingState_cross fround applyMatrix4 CONFIG rnd 1 _
      (by rw [hpr]; norm_num [CONFIG])).2.1
  rw [updates_append_singleton fround]
  generalize ParticleSystem.updates fround applyMatrix4 CONFIG
    (ParticleSystem.new fround CONFIG basePosition entropy) [((1 : ℚ), rnd)] = S at h1 hp
  have hupd : ParticleSystem.update fround applyMatrix4 CONFIG rnd2 1 S
      = updateMovingState fround CONFIG 1 S := by
    unfold ParticleSystem.update
    rw [h1]
  show (ParticleSystem.update fround applyMatrix4 CONFIG rnd2 1 S).currentState = _
  rw [hupd, (updateMovingState_below fround CONFIG 1 S (by rw [hp]; norm_num [CONFIG])).1]
  exact h1

theorem originSystem_entries {K : Type} [LinearOrderedField K] (fround : K → K) (i : Nat)
    (hi : i < (CONFIG : Config K).PARTICLE_COUNT) :
    fromArray (originSystem fround : ParticleSystem K).endPositions (i * 3)
      = froundVec fround ⟨0 + 0, 0 + 0, 0 + 0⟩ := by
  unfold originSystem
  exact ((new_positions fround CONFIG _ _).2 i hi).2.1

theorem axisSystem_eq :
    axisSystem = ParticleSystem.new fround32 CONFIG
      (fun i => generateSpherePoint axisMath (CONFIG : Config ℚ).SPHERE_RADIUS
        (axisDraws i).r1 (axisDraws i).r2)
      (fun i => entropyVector CONFIG (axisDraws i)) := by
  unfold axisSystem createParticles
  rfl

theorem axisMath_pythagoras (x : ℚ) :
    axisMath.sin x * axisMath.sin x + axisMath.cos x * axisMath.cos x = 1 := by
  by_cases h : x = 0 <;> simp [axisMath, h]

theorem createdPosition_axis (i : Nat) :
    createdPosition axisMath CONFIG axisDraws i = ⟨99 / 10, 0, 0⟩ := by
  simp only [createdPosition, generateSpherePoint, entropyVector, Vector3.add, axisMath,
    axisDraws, CONFIG]
  norm_num

theorem froundVec_axis : froundVec fround32 (⟨99 / 10, 0, 0⟩ : Vector3 ℚ)
    = ⟨10380902 / 1048576, 0, 0⟩ := by
  unfold froundVec
  simp only [fround32_99_10, fround32_zero]

theorem geometryAfter_positionCount {K : Type} [LinearOrderedField K]
    (calls : List (List K)) : (geometryAfter calls).positionCount = 8 := by
  unfold geometryAfter
  have key : ∀ (cs : List (List K)) (g : LineSegmentsGeometry K), g.positionCount = 8 →
      (cs.foldl (fun g linePositions => updateGeometryOf linePositions g) g).positionCount
        = 8 := by
    intro cs
    induction cs with
    | nil => intro g hg; exact hg
    | cons c t ih =>
      intro g hg
      rw [List.foldl_cons]
      apply ih
      unfold updateGeometryOf
      split
      · rfl
      · exact hg
      · rfl
  exact key calls _ rfl

theorem geometryAfter_append {K : Type} [LinearOrderedField K] (calls : List (List K))
    (linePositions : List K) :
    geometryAfter (calls ++ [linePositions])
      = updateGeometryOf linePositions (geometryAfter calls) := by
  unfold geometryAfter
  rw [List.foldl_append]
  rfl

theorem updateGeometryOf_recreate {K : Type} [LinearOrderedField K] (linePositions : List K)
    (g : LineSegmentsGeometry K)
    (h : updateGeometry linePositions (some g.positionCount) = GeometryAction.recreate) :
    updateGeometryOf linePositions g
      = LineSegmentsGeometry.setPositions LineSegmentsGeometry.new linePositions := by
  unfold updateGeometryOf
  rw [h]

theorem updateGeometry_quad {K : Type} [LinearOrderedField K] (linePositions : List K)
    (h : 27 ≤ linePositions.length) :
    updateGeometry linePositions (some 8) = GeometryAction.recreate := by
  have h27 : (27 : K) ≤ (linePositions.length : K) := by exact_mod_cast h
  have hpos : linePositions.length > 0 := by omega
  have hc : (currentLineCount (some 8) : K) = 4 := by
    unfold currentLineCount
    norm_num
  unfold updateGeometry
  rw [if_pos hpos]
  simp only [hc]
  rw [if_pos]
  rw [abs_of_nonneg (by linarith)]
  show (4 : K) * (1 / 10) < (linePositions.length : K) / 6 - 4
  linarith

/-! ## The claims -/

/-- C1: `getConnectionKey` is symmetric: for all indices `i ≠ j` below 65536,
`getConnectionKey(i, j) = getConnectionKey(j, i)`, with `<<` and `|` the 32-bit operators. -/
theorem getConnectionKey_symmetric (i j : Nat) (hne : i ≠ j) (_hi : i < 65536)
    (_hj : j < 65536) : getConnectionKey i j = getConnectionKey j i :=
  getConnectionKey_comm i j hne

theorem getConnectionKey_symmetric_witness :
    (40000 ≠ 7 ∧ 40000 < 65536 ∧ 7 < 65536) ∧
      getConnectionKey 40000 7 = getConnectionKey 7 40000 :=
  ⟨by decide, getConnectionKey_symmetric 40000 7 (by decide) (by decide) (by decide)⟩

/-- C2: `getConnectionKey` is unique per unordered pair: for indices below 65536 with
`i ≠ j` and `k ≠ l`, equal keys mean `{i, j} = {k, l}`; this covers indices from 32768 on,
where `i << 16` is negative. -/
theorem getConnectionKey_unique (i j k l : Nat) (hi : i < 65536) (hj : j < 65536)
    (hk : k < 65536) (hl : l < 65536) (hij : i ≠ j) (hkl : k ≠ l)
    (h : getConnectionKey i j = getConnectionKey k l) :
    (i = k ∧ j = l) ∨ (i = l ∧ j = k) := by
  rcases Nat.lt_or_gt_of_ne hij with h1 | h1 <;> rcases Nat.lt_or_gt_of_ne hkl with h2 | h2
  · exact Or.inl (getConnectionKey_inj_of_lt h1 h2 hj hl h)
  · rw [getConnectionKey_comm k l hkl] at h
    have := getConnectionKey_inj_of_lt h1 h2 hj hk h
    exact Or.inr this
  · rw [getConnectionKey_comm i j hij] at h
    have := getConnectionKey_inj_of_lt h1 h2 hi hl h
    exact Or.inr ⟨this.2, this.1⟩
  · rw [getConnectionKey_comm i j hij, getConnectionKey_comm k l hkl] at h
    have := getConnectionKey_inj_of_lt h1 h2 hi hk h
    exact Or.inl ⟨this.2, this.1⟩

theorem getConnectionKey_unique_witness :
    (40000 < 65536 ∧ 50000 < 65536 ∧ 40000 ≠ 50000 ∧
        getConnectionKey 40000 50000 = getConnectionKey 50000 40000) ∧
      ((40000 = 50000 ∧ 50000 = 40000) ∨ (40000 = 40000 ∧ 50000 = 50000)) :=
  ⟨by decide,
    getConnectionKey_unique 40000 50000 50000 40000 (by decide) (by decide) (by decide)
      (by decide) (by decide) (by decide) (by decide)⟩

/-- C3: persistent connections are never removed by an update. For a persistent set whose
keys decode to indices of the particle list, `updatePersistentConnections` returns a state
whose set contains every key of the old set and whose position buffer holds one segment (six
scalars) for every key of the new set, whatever the current distance of its pair. In the
scenario, with pairs 0-1 and 2-3 in the set and particle 1 moved to `(100,0,0)`, both
segments are emitted. -/
theorem updatePersistentConnections_never_removes {K : Type} [LinearOrderedField K]
    (distanceTo : Vector3 K → Vector3 K → K) (cfg : Config K) (particles : List (Particle K))
    (s : ConnectionSystem K)
    (hvalid : ∀ key ∈ s.persistentConnections,
      (decodeConnectionKey key).1 < particles.length ∧
        (decodeConnectionKey key).2 < particles.length) :
    (∃ s', updatePersistentConnections distanceTo cfg particles s = some s' ∧
      (∀ key ∈ s.persistentConnections, key ∈ s'.persistentConnections) ∧
      (s.persistentConnections.Nodup → s'.persistentConnections.Nodup) ∧
      s'.linePositions = s'.persistentConnections.flatMap
        (fun key => segmentPositions particles (decodeConnectionKey key)) ∧
      s'.linePositions.length = 6 * s'.persistentConnections.length) ∧
    (IsEuclidean distanceTo →
      ∃ s', updatePersistentConnections distanceTo scenarioConfig scenarioMoved
          { connectionMode := ConnectionMode.PERSISTENT,
            persistentConnections := [getConnectionKey 0 1, getConnectionKey 2 3],
            linePositions := [], lineColors := [] } = some s' ∧
        s'.persistentConnections = [getConnectionKey 0 1, getConnectionKey 2 3] ∧
        s'.linePositions = [0, 0, 0, 100, 0, 0, 10, 0, 0, 10, 1, 0]) := by
  constructor
  · refine ⟨_, updatePersistentConnections_eq distanceTo cfg particles s hvalid, ?_, ?_, rfl, ?_⟩
    · intro key hkey
      exact (mem_foldl_setAdd _ _ _).mpr (Or.inl hkey)
    · intro hnd
      exact nodup_foldl_setAdd _ _ hnd
    · exact length_flatMap_decode particles _
        (scanned_keys_valid distanceTo cfg particles _ hvalid)
  · intro hE
    refine ⟨_, updatePersistentConnections_eq distanceTo scenarioConfig scenarioMoved _
      (scenario_keys_valid scenarioMoved rfl), ?_, ?_⟩
    · simp only [scenarioMoved_closePairs hE]
      exact scenario_setAdd
    · simp only [scenarioMoved_closePairs hE, scenario_setAdd]
      exact scenarioMoved_segments

theorem updatePersistentConnections_never_removes_witness :
    (∀ key ∈ [getConnectionKey 0 1, getConnectionKey 2 3],
      (decodeConnectionKey key).1 < (scenarioMoved : List (Particle ℝ)).length ∧
        (decodeConnectionKey key).2 < (scenarioMoved : List (Particle ℝ)).length) ∧
    ∃ s', updatePersistentConnections
        (fun p q : Vector3 ℝ => Real.sqrt (p.distanceToSquared q)) scenarioConfig scenarioMoved
        { connectionMode := ConnectionMode.PERSISTENT,
          persistentConnections := [getConnectionKey 0 1, getConnectionKey 2 3],
          linePositions := [], lineColors := [] } = some s' ∧
      s'.linePositions = [0, 0, 0, 100, 0, 0, 10, 0, 0, 10, 1, 0] :=
  ⟨scenario_keys_valid scenarioMoved rfl,
    match (updatePersistentConnections_never_removes
        (fun p q : Vector3 ℝ => Real.sqrt (p.distanceToSquared q)) scenarioConfig scenarioMoved
        { connectionMode := ConnectionMode.PERSISTENT,
          persistentConnections := [getConnectionKey 0 1, getConnectionKey 2 3],
          linePositions := [], lineColors := [] }
        (scenario_keys_valid scenarioMoved rfl)).2 isEuclidean_sqrt with
    | ⟨s', h1, _, h3⟩ => ⟨s', h1, h3⟩⟩

/-- C4: in DYNAMIC mode `updateDynamicConnections` returns a state whose position buffer
holds exactly one segment (six scalars) for every pair `i < j` whose distance is strictly
below `CONNECTION_DISTANCE`, and none for any other pair: the buffer is the concatenation of
the segments of a duplicate-free list `pairs` made of exactly the connected pairs, so
`linePositions.length / 6` is the number of such pairs; a second run on the same particles
gives the same state. In the scenario (threshold 1.5, Euclidean distance) exactly the two
segments of the pairs 0-1 and 2-3 are emitted. -/
theorem updateDynamicConnections_exact {K : Type} [LinearOrderedField K]
    (distanceTo : Vector3 K → Vector3 K → K) (cfg : Config K) (particles : List (Particle K))
    (s : ConnectionSystem K) :
    (∃ (s' : ConnectionSystem K) (pairs : List (Nat × Nat)),
      updateDynamicConnections distanceTo cfg particles s = some s' ∧
      pairs.Nodup ∧
      (∀ i j, (i, j) ∈ pairs ↔ Connected distanceTo cfg particles i j) ∧
      s'.linePositions = pairs.flatMap (segmentPositions particles) ∧
      s'.linePositions.length / 6 = pairs.length ∧
      s'.lineColors.length = s'.linePositions.length ∧
      updateDynamicConnections distanceTo cfg particles s' = some s') ∧
    (IsEuclidean distanceTo →
      ∃ s', updateDynamicConnections distanceTo scenarioConfig scenarioParticles s = some s' ∧
        s'.linePositions = [0, 0, 0, 1, 0, 0, 10, 0, 0, 10, 1, 0] ∧
        s'.linePositions.length / 6 = 2) := by
  constructor
  · refine ⟨_, (indexPairs particles.length).filter (isClose distanceTo cfg particles),
      updateDynamicConnections_eq distanceTo cfg particles s,
      nodup_filter_isClose distanceTo cfg particles,
      mem_filter_isClose distanceTo cfg particles, rfl, ?_, ?_, ?_⟩
    · simp only [length_flatMap_segmentPositions particles _
        (filter_isClose_valid distanceTo cfg particles)]
      omega
    · simp only [length_flatMap_segmentPositions particles _
        (filter_isClose_valid distanceTo cfg particles)]
      exact length_flatMap_segmentColors _ _ _ _
    · rw [updateDynamicConnections_eq]
  · intro hE
    refine ⟨_, updateDynamicConnections_eq distanceTo scenarioConfig scenarioParticles s, ?_, ?_⟩
    · simp only [scenario_closePairs hE]
      exact scenario_segments
    · simp only [scenario_closePairs hE, scenario_segments]
      simp

theorem updateDynamicConnections_exact_witness :
    IsEuclidean (fun p q : Vector3 ℝ => Real.sqrt (p.distanceToSquared q)) ∧
    ∃ s', updateDynamicConnections
        (fun p q : Vector3 ℝ => Real.sqrt (p.distanceToSquared q)) scenarioConfig
        scenarioParticles ConnectionSystem.new = some s' ∧
      s'.linePositions = [0, 0, 0, 1, 0, 0, 10, 0, 0, 10, 1, 0] ∧
      s'.linePositions.length / 6 = 2 :=
  ⟨isEuclidean_sqrt,
    (updateDynamicConnections_exact
      (fun p q : Vector3 ℝ => Real.sqrt (p.distanceToSquared q)) scenarioConfig
      scenarioParticles ConnectionSystem.new).2 isEuclidean_sqrt⟩

/-- C5, as stated, fails. The connection system's own `setConnectionMode(PERSISTENT)` calls
`initializePersistentConnections()` without a particle list, which returns at once: on the
scenario particles, from a PERSISTENT state holding the key of the pair 0-2 (not connected
now), the set is unchanged afterwards; it keeps the old key and lacks the key of the
connected pair 0-1. -/
theorem setConnectionMode_persistent_does_not_seed :
    ∃ s', setConnectionMode (fun p q : Vector3 ℝ => Real.sqrt (p.distanceToSquared q))
        scenarioConfig ConnectionMode.PERSISTENT
        { connectionMode := ConnectionMode.PERSISTENT,
          persistentConnections := [getConnectionKey 0 2],
          linePositions := [], lineColors := [] } = some s' ∧
      s'.persistentConnections = [getConnectionKey 0 2] ∧
      Connected (fun p q : Vector3 ℝ => Real.sqrt (p.distanceToSquared q)) scenarioConfig
        scenarioParticles 0 1 ∧
      getConnectionKey 0 1 ∉ s'.persistentConnections ∧
      ¬ Connected (fun p q : Vector3 ℝ => Real.sqrt (p.distanceToSquared q)) scenarioConfig
        scenarioParticles 0 2 := by
  refine ⟨_, rfl, rfl, ?_, ?_, ?_⟩
  · rw [scenario_connected_iff isEuclidean_sqrt]
    decide
  · decide
  · rw [scenario_connected_iff isEuclidean_sqrt]
    decide

/-- C5, amended: the switch performed by the application,
`ParticleSystemApp.setConnectionMode(PERSISTENT)` (the connection system's
`setConnectionMode`, then `initializePersistentConnections(particles)`), seeds the set from
the current geometry: for every particle list and every prior state it returns a state in
PERSISTENT mode whose set is duplicate-free and holds exactly the keys of the pairs `i < j`
whose distance is below `CONNECTION_DISTANCE` (prior keys are discarded, the buffers are
untouched); the next `update`, on any list of the same length, keeps every seeded key and
emits one segment per key, and below 65536 particles the segment of a pair connected at
switch time joins that pair. The connection system's `setConnectionMode(PERSISTENT)` alone
only sets the mode. In the scenario the set is seeded with the keys of 0-1 and 2-3, and after
particle 1 moves to `(100,0,0)` the update emits both segments. -/
theorem appSetConnectionMode_persistent_seeds {K : Type} [LinearOrderedField K]
    (distanceTo : Vector3 K → Vector3 K → K) (cfg : Config K) (particles : List (Particle K))
    (s : ConnectionSystem K) :
    (∃ s' : ConnectionSystem K,
      appSetConnectionMode distanceTo cfg particles ConnectionMode.PERSISTENT s = some s' ∧
      s'.connectionMode = ConnectionMode.PERSISTENT ∧
      s'.persistentConnections.Nodup ∧
      (∀ key, key ∈ s'.persistentConnections ↔
        ∃ i j, Connected distanceTo cfg particles i j ∧ key = getConnectionKey i j) ∧
      s'.linePositions = s.linePositions ∧ s'.lineColors = s.lineColors ∧
      ∀ moved : List (Particle K), moved.length = particles.length →
        ∃ s'' : ConnectionSystem K,
          ConnectionSystem.update distanceTo cfg moved s' = some s'' ∧
          (∀ key ∈ s'.persistentConnections, key ∈ s''.persistentConnections) ∧
          s''.linePositions = s''.persistentConnections.flatMap
            (fun key => segmentPositions moved (decodeConnectionKey key)) ∧
          (particles.length ≤ 65536 → ∀ i j, Connected distanceTo cfg particles i j →
            ∃ key ∈ s''.persistentConnections, decodeConnectionKey key = (i, j))) ∧
    setConnectionMode distanceTo cfg ConnectionMode.PERSISTENT s =
      some { s with connectionMode := ConnectionMode.PERSISTENT } ∧
    (IsEuclidean distanceTo →
      ∃ s' s'' : ConnectionSystem K,
        appSetConnectionMode distanceTo scenarioConfig scenarioParticles
          ConnectionMode.PERSISTENT s = some s' ∧
        s'.persistentConnections = [getConnectionKey 0 1, getConnectionKey 2 3] ∧
        ConnectionSystem.update distanceTo scenarioConfig scenarioMoved s' = some s'' ∧
        s''.linePositions = [0, 0, 0, 100, 0, 0, 10, 0, 0, 10, 1, 0]) := by
  refine ⟨?_, rfl, ?_⟩
  · refine ⟨_, appSetConnectionMode_persistent_eq distanceTo cfg particles s, rfl,
      nodup_foldl_setAdd _ _ List.nodup_nil, mem_seeded_iff distanceTo cfg particles, rfl, rfl,
      ?_⟩
    intro moved hlen
    have hvalid : ∀ key ∈ (((indexPairs particles.length).filter
          (isClose distanceTo cfg particles)).map
            (fun ij => getConnectionKey ij.1 ij.2)).foldl setAdd [],
        (decodeConnectionKey key).1 < moved.length ∧
          (decodeConnectionKey key).2 < moved.length := by
      rw [hlen]
      exact scanned_keys_valid distanceTo cfg particles [] (by simp)
    refine ⟨_, updatePersistentConnections_eq distanceTo cfg moved _ hvalid, ?_, rfl, ?_⟩
    · intro key hkey
      exact (mem_foldl_setAdd _ _ _).mpr (Or.inl hkey)
    · intro hn i j hc
      refine ⟨getConnectionKey i j, ?_, ?_⟩
      · exact (mem_foldl_setAdd _ _ _).mpr
          (Or.inl ((mem_seeded_iff distanceTo cfg particles _).mpr ⟨i, j, hc, rfl⟩))
      · have hm := mem_indexPairs.mp (List.mem_of_mem_filter
          ((mem_filter_isClose distanceTo cfg particles i j).mpr hc))
        exact decodeConnectionKey_getConnectionKey hm.1 (by omega)
  · intro hE
    have h1 := appSetConnectionMode_persistent_eq distanceTo scenarioConfig
      scenarioParticles s
    simp only [scenario_closePairs hE, scenario_seed] at h1
    have h2 := updatePersistentConnections_eq distanceTo scenarioConfig scenarioMoved
      { s with connectionMode := ConnectionMode.PERSISTENT,
               persistentConnections := [getConnectionKey 0 1, getConnectionKey 2 3] }
      (scenario_keys_valid scenarioMoved rfl)
    simp only [scenarioMoved_closePairs hE, scenario_setAdd, scenarioMoved_segments] at h2
    exact ⟨_, _, h1, rfl, h2, rfl⟩

theorem appSetConnectionMode_persistent_seeds_witness :
    IsEuclidean (fun p q : Vector3 ℝ => Real.sqrt (p.distanceToSquared q)) ∧
    ∃ s' s'' : ConnectionSystem ℝ,
      appSetConnectionMode (fun p q : Vector3 ℝ => Real.sqrt (p.distanceToSquared q))
        scenarioConfig scenarioParticles ConnectionMode.PERSISTENT ConnectionSystem.new
          = some s' ∧
      s'.persistentConnections = [getConnectionKey 0 1, getConnectionKey 2 3] ∧
      ConnectionSystem.update (fun p q : Vector3 ℝ => Real.sqrt (p.distanceToSquared q))
        scenarioConfig scenarioMoved s' = some s'' ∧
      s''.linePositions = [0, 0, 0, 100, 0, 0, 10, 0, 0, 10, 1, 0] :=
  ⟨isEuclidean_sqrt,
    (appSetConnectionMode_persistent_seeds
      (fun p q : Vector3 ℝ => Real.sqrt (p.distanceToSquared q)) scenarioConfig
      scenarioParticles ConnectionSystem.new).2.2 isEuclidean_sqrt⟩

/-- C6: `resetConnections` empties the persistent set in either mode and leaves the mode
unchanged. Hence in PERSISTENT mode (at most 65536 particles), `resetConnections` followed
by `update(particles)` emits exactly the segments of the pairs `i < j` whose distance is
below `CONNECTION_DISTANCE`, one each, and no segment at all when no pair is that close. -/
theorem resetConnections_then_update {K : Type} [LinearOrderedField K]
    (distanceTo : Vector3 K → Vector3 K → K) (cfg : Config K) (particles : List (Particle K))
    (s : ConnectionSystem K) :
    (resetConnections s).persistentConnections = [] ∧
    (resetConnections s).connectionMode = s.connectionMode ∧
    (s.connectionMode = ConnectionMode.PERSISTENT → particles.length ≤ 65536 →
      ∃ (s' : ConnectionSystem K) (pairs : List (Nat × Nat)),
        ConnectionSystem.update distanceTo cfg particles (resetConnections s) = some s' ∧
        pairs.Nodup ∧
        (∀ i j, (i, j) ∈ pairs ↔ Connected distanceTo cfg particles i j) ∧
        s'.linePositions = pairs.flatMap (segmentPositions particles) ∧
        s'.linePositions.length = 6 * pairs.length ∧
        ((∀ i j, ¬ Connected distanceTo cfg particles i j) → s'.linePositions = [])) := by
  refine ⟨rfl, rfl, ?_⟩
  intro hmode hn
  obtain ⟨s', h1, h2⟩ := update_resetConnections_eq distanceTo cfg particles s hmode hn
  refine ⟨s', (indexPairs particles.length).filter (isClose distanceTo cfg particles), h1,
    nodup_filter_isClose distanceTo cfg particles,
    mem_filter_isClose distanceTo cfg particles, h2, ?_, ?_⟩
  · rw [h2]
    exact length_flatMap_segmentPositions particles _
      (filter_isClose_valid distanceTo cfg particles)
  · intro hnone
    have hnil : (indexPairs particles.length).filter (isClose distanceTo cfg particles) = [] := by
      rw [List.eq_nil_iff_forall_not_mem]
      rintro ⟨i, j⟩ hmem
      exact hnone i j ((mem_filter_isClose distanceTo cfg particles i j).mp hmem)
    rw [h2, hnil]
    rfl

theorem resetConnections_then_update_witness :
    ((⟨ConnectionMode.PERSISTENT, [getConnectionKey 0 2], [], []⟩ :
        ConnectionSystem ℝ).connectionMode = ConnectionMode.PERSISTENT ∧
      (scenarioParticles : List (Particle ℝ)).length ≤ 65536) ∧
    ∃ (s' : ConnectionSystem ℝ) (pairs : List (Nat × Nat)),
      ConnectionSystem.update (fun p q : Vector3 ℝ => Real.sqrt (p.distanceToSquared q))
        scenarioConfig scenarioParticles
        (resetConnections ⟨ConnectionMode.PERSISTENT, [getConnectionKey 0 2], [], []⟩)
          = some s' ∧
      pairs.Nodup ∧
      (∀ i j, (i, j) ∈ pairs ↔
        Connected (fun p q : Vector3 ℝ => Real.sqrt (p.distanceToSquared q)) scenarioConfig
          scenarioParticles i j) ∧
      s'.linePositions = pairs.flatMap (segmentPositions scenarioParticles) ∧
      s'.linePositions.length = 6 * pairs.length :=
  ⟨⟨rfl, by decide⟩,
    match (resetConnections_then_update
        (fun p q : Vector3 ℝ => Real.sqrt (p.distanceToSquared q)) scenarioConfig
        scenarioParticles ⟨ConnectionMode.PERSISTENT, [getConnectionKey 0 2], [], []⟩).2.2
        rfl (by decide) with
    | ⟨s', pairs, h1, h2, h3, h4, h5, _⟩ => ⟨s', pairs, h1, h2, h3, h4, h5⟩⟩

/-- C7: when a MOVING phase completes, the particles sit exactly on their targets. From a
well-formed state in MOVING with progress 0 and `MOVE_DURATION > 0`, let `calls` be updates
with non-negative delta times whose accumulated progress stays below 1 and `last` the first
update with which it reaches or exceeds 1: after it every particle's position equals its
`endPositions` entry (the lerp at `easeInOutQuint(1) = 1`), the targets are those of the
start, progress is 0 and the state is WAITING; before it the state was still MOVING. -/
theorem moving_phase_ends_on_targets {K : Type} [LinearOrderedField K] {M : Type}
    (fround : K → K) (applyMatrix4 : M → Vector3 K → Vector3 K) (cfg : Config K) (s : ParticleSystem K)
    (calls : List (K × CycleRandom M)) (last : K × CycleRandom M)
    (hwf : s.WellFormed cfg) (hstate : s.currentState = AnimationState.MOVING)
    (hprog : s.progress = 0) (hMD : 0 < cfg.MOVE_DURATION)
    (hnonneg : ∀ c ∈ calls, 0 ≤ c.1)
    (hbelow : (calls.map (fun c => c.1 / cfg.MOVE_DURATION)).sum < 1)
    (hreach : 1 ≤ (calls.map (fun c => c.1 / cfg.MOVE_DURATION)).sum
      + last.1 / cfg.MOVE_DURATION) :
    (∀ i < cfg.PARTICLE_COUNT,
      (ParticleSystem.updates fround applyMatrix4 cfg s (calls ++ [last])).position i =
        fromArray (ParticleSystem.updates fround applyMatrix4 cfg s (calls ++ [last])).endPositions
          (i * 3)) ∧
    (ParticleSystem.updates fround applyMatrix4 cfg s (calls ++ [last])).endPositions
      = s.endPositions ∧
    (ParticleSystem.updates fround applyMatrix4 cfg s (calls ++ [last])).progress = 0 ∧
    (ParticleSystem.updates fround applyMatrix4 cfg s (calls ++ [last])).currentState
      = AnimationState.WAITING ∧
    (ParticleSystem.updates fround applyMatrix4 cfg s calls).currentState
      = AnimationState.MOVING := by
  obtain ⟨r1, r2, r3, r4⟩ := updates_moving_below fround applyMatrix4 cfg hMD calls s hwf hstate
    hnonneg (by rw [hprog, zero_add]; exact hbelow)
  rw [hprog, zero_add] at r3
  have hstep : ParticleSystem.update fround applyMatrix4 cfg last.2 last.1
      (ParticleSystem.updates fround applyMatrix4 cfg s calls)
        = updateMovingState fround cfg last.1 (ParticleSystem.updates fround applyMatrix4 cfg s calls) := by
    unfold ParticleSystem.update
    rw [r2]
  rw [updates_append_singleton fround, hstep]
  obtain ⟨d1, d2, d3⟩ := updateMovingState_done fround cfg last.1
    (ParticleSystem.updates fround applyMatrix4 cfg s calls) (by rw [r3]; exact hreach)
    (by rw [r1.1])
  have hf := updateMovingState_fields fround cfg last.1
    (ParticleSystem.updates fround applyMatrix4 cfg s calls)
  refine ⟨?_, by rw [hf.2.1, r4], d2, d1, r2⟩
  intro i hi
  rw [hf.2.1]
  exact d3 i hi

theorem moving_phase_ends_on_targets_witness :
    ((0 : ℚ) < (CONFIG : Config ℚ).MOVE_DURATION ∧
      ([((1 : ℚ), idleRandom)].map (fun c => c.1 / (CONFIG : Config ℚ).MOVE_DURATION)).sum < 1 ∧
      1 ≤ ([((1 : ℚ), idleRandom)].map
          (fun c => c.1 / (CONFIG : Config ℚ).MOVE_DURATION)).sum
        + (5 : ℚ) / (CONFIG : Config ℚ).MOVE_DURATION) ∧
    (ParticleSystem.updates fround32 (fun (_ : Unit) (v : Vector3 ℚ) => v) CONFIG
        { (originSystem fround32 : ParticleSystem ℚ) with
          currentState := AnimationState.MOVING }
        ([((1 : ℚ), idleRandom)] ++ [((5 : ℚ), idleRandom)])).currentState
      = AnimationState.WAITING :=
  ⟨⟨by norm_num [CONFIG], by norm_num [CONFIG], by norm_num [CONFIG]⟩,
    (moving_phase_ends_on_targets fround32 (fun (_ : Unit) (v : Vector3 ℚ) => v) CONFIG
      { (originSystem fround32 : ParticleSystem ℚ) with
        currentState := AnimationState.MOVING }
      [((1 : ℚ), idleRandom)] ((5 : ℚ), idleRandom)
      (wellFormed_withState CONFIG (originSystem fround32) AnimationState.MOVING
        (originSystem_fields fround32).1)
      rfl (originSystem_fields fround32).2.2.1
      (by norm_num [CONFIG]) (by simp) (by norm_num [CONFIG])
      (by norm_num [CONFIG])).2.2.2.1⟩

/-- C8: `startNewCycle(true)` makes the previous target the new start and the original
configuration the new target: on a well-formed state with `endPositions = E`, afterwards
`startPositions = E` and `endPositions = originalPositions`, element for element, and
`originalPositions` is unchanged. -/
theorem startNewCycle_reset_targets {K : Type} [LinearOrderedField K] {M : Type}
    (fround : K → K) (applyMatrix4 : M → Vector3 K → Vector3 K) (cfg : Config K) (rnd : CycleRandom M)
    (s : ParticleSystem K) (hwf : s.WellFormed cfg) :
    (startNewCycle fround applyMatrix4 cfg rnd true s).startPositions = s.endPositions ∧
    (startNewCycle fround applyMatrix4 cfg rnd true s).endPositions = s.originalPositions ∧
    (startNewCycle fround applyMatrix4 cfg rnd true s).originalPositions = s.originalPositions :=
  ⟨(startNewCycle_reset_eq fround applyMatrix4 cfg rnd s hwf).1,
    (startNewCycle_reset_eq fround applyMatrix4 cfg rnd s hwf).2,
    (startNewCycle_fields fround applyMatrix4 cfg rnd true s).2.1⟩

theorem startNewCycle_reset_targets_witness :
    (originSystem fround32 : ParticleSystem ℚ).WellFormed CONFIG ∧
    (startNewCycle fround32 (fun (_ : Unit) (v : Vector3 ℚ) => v) CONFIG idleRandom true
        (originSystem fround32)).endPositions
      = (originSystem fround32 : ParticleSystem ℚ).originalPositions :=
  ⟨(originSystem_fields fround32).1,
    (startNewCycle_reset_targets fround32 (fun (_ : Unit) (v : Vector3 ℚ) => v) CONFIG
      idleRandom (originSystem fround32) (originSystem_fields fround32).1).2.1⟩

/-- A state whose first target is the origin, a translation by 1.1 along the x-axis for both
groups: `startNewCycle(false)` stores `Math.fround(1.1) = 9227469 / 8388608`
(1.100000023841858) in `endPositions[0]`, not 1.1, because `endPositions` is a
`Float32Array`. -/
theorem startNewCycle_entry_is_narrowed :
    fromArray (startNewCycle fround32 translateX CONFIG ⟨11 / 10, 11 / 10, fun _ => 0⟩ false
        (originSystem fround32)).endPositions (0 * 3)
      = (⟨9227469 / 8388608, 0, 0⟩ : Vector3 ℚ) ∧
    translateX (11 / 10)
        (fromArray (startNewCycle fround32 translateX CONFIG ⟨11 / 10, 11 / 10, fun _ => 0⟩
          false (originSystem fround32)).startPositions (0 * 3))
      = (⟨11 / 10, 0, 0⟩ : Vector3 ℚ) ∧
    fromArray (startNewCycle fround32 translateX CONFIG ⟨11 / 10, 11 / 10, fun _ => 0⟩ false
        (originSystem fround32)).endPositions (0 * 3)
      ≠ translateX (11 / 10)
        (fromArray (startNewCycle fround32 translateX CONFIG ⟨11 / 10, 11 / 10, fun _ => 0⟩
          false (originSystem fround32)).startPositions (0 * 3)) := by
  obtain ⟨h1, _, h3⟩ := startNewCycle_transform_eq fround32 translateX CONFIG
    ⟨11 / 10, 11 / 10, fun _ => 0⟩ (originSystem fround32) (originSystem_fields fround32).1
  have h0 : (0 : Nat) < (CONFIG : Config ℚ).PARTICLE_COUNT := by decide
  have he : fromArray (originSystem fround32 : ParticleSystem ℚ).endPositions (0 * 3)
      = ⟨0, 0, 0⟩ := by
    rw [originSystem_entries fround32 0 h0]
    simp only [froundVec, add_zero, fround32_zero]
  have hentry := h3 0 h0
  rw [he] at hentry
  simp only [if_true, translateX, froundVec, zero_add, fround32_11_10, fround32_zero]
    at hentry
  have hstart : translateX (11 / 10)
      (fromArray (startNewCycle fround32 translateX CONFIG ⟨11 / 10, 11 / 10, fun _ => 0⟩
        false (originSystem fround32)).startPositions (0 * 3))
      = (⟨11 / 10, 0, 0⟩ : Vector3 ℚ) := by
    rw [h1, he]
    simp only [translateX, zero_add]
  refine ⟨hentry, hstart, ?_⟩
  rw [hentry, hstart]
  intro h
  have hx := congrArg Vector3.x h
  norm_num at hx

/-- C9: `startNewCycle(false)`, the two generated matrices and the group of every particle
being parameters: on a well-formed state, with `P` the resulting `startPositions` (the
`endPositions` before the call), for every `i < PARTICLE_COUNT` the new `endPositions` entry
`i` is the single-precision narrowing (`fround` on every component, the write to a
`Float32Array`) of `matrix1` applied to `P[i]` when the group of `i` is 0 and of `matrix2`
applied to `P[i]` otherwise, and `originalPositions` is unchanged. -/
theorem startNewCycle_applies_rounded_group_transform {K : Type} [LinearOrderedField K]
    {M : Type} (fround : K → K) (applyMatrix4 : M → Vector3 K → Vector3 K) (cfg : Config K)
    (rnd : CycleRandom M) (s : ParticleSystem K) (hwf : s.WellFormed cfg) :
    (startNewCycle fround applyMatrix4 cfg rnd false s).startPositions = s.endPositions ∧
    (∀ i < cfg.PARTICLE_COUNT,
      fromArray (startNewCycle fround applyMatrix4 cfg rnd false s).endPositions (i * 3) =
        froundVec fround
          (if rnd.particleGroups i = 0 then
            applyMatrix4 rnd.matrix1
              (fromArray (startNewCycle fround applyMatrix4 cfg rnd false s).startPositions
                (i * 3))
          else
            applyMatrix4 rnd.matrix2
              (fromArray (startNewCycle fround applyMatrix4 cfg rnd false s).startPositions
                (i * 3)))) ∧
    (startNewCycle fround applyMatrix4 cfg rnd false s).endPositions.length
      = cfg.PARTICLE_COUNT * 3 ∧
    (startNewCycle fround applyMatrix4 cfg rnd false s).originalPositions
      = s.originalPositions := by
  obtain ⟨h1, h2, h3⟩ := startNewCycle_transform_eq fround applyMatrix4 cfg rnd s hwf
  refine ⟨h1, ?_, h2, (startNewCycle_fields fround applyMatrix4 cfg rnd false s).2.1⟩
  intro i hi
  rw [h1]
  exact h3 i hi

theorem startNewCycle_applies_rounded_group_transform_witness :
    (originSystem fround32 : ParticleSystem ℚ).WellFormed CONFIG ∧
    ∀ i < (CONFIG : Config ℚ).PARTICLE_COUNT,
      fromArray (startNewCycle fround32 translateX CONFIG ⟨1, 2, fun i => i % 2⟩ false
          (originSystem fround32)).endPositions (i * 3) =
        froundVec fround32
          (if (fun i => i % 2) i = 0 then
            translateX 1
              (fromArray (startNewCycle fround32 translateX CONFIG ⟨1, 2, fun i => i % 2⟩
                false (originSystem fround32)).startPositions (i * 3))
          else
            translateX 2
              (fromArray (startNewCycle fround32 translateX CONFIG ⟨1, 2, fun i => i % 2⟩
                false (originSystem fround32)).startPositions (i * 3))) :=
  ⟨(originSystem_fields fround32).1,
    (startNewCycle_applies_rounded_group_transform fround32 translateX
      CONFIG ⟨1, 2, fun i => i % 2⟩ (originSystem fround32)
      (originSystem_fields fround32).1).2.1⟩

/-- C10: a full reset happens every `K = RESET_CYCLE_COUNT` cycles. From the constructed
state (WAITING, `resetProgress` 0) with `K ≥ 1`, after every sequence of `update` calls:
`resetProgress ≤ K - 1`; the `n`-th cycle started so far (`n = 1, 2, ...`) was started by
`startNewCycle(true)` if and only if `K` divides `n`; and a further `update` starts a cycle,
the next in the count, exactly when it leads from WAITING to MOVING. -/
theorem reset_every_K_cycles {K : Type} [LinearOrderedField K] {M : Type}
    (fround : K → K) (applyMatrix4 : M → Vector3 K → Vector3 K) (cfg : Config K)
    (hK : 1 ≤ cfg.RESET_CYCLE_COUNT) (basePosition entropy : Nat → Vector3 K)
    (calls : List (K × CycleRandom M)) :
    (ParticleSystem.updates fround applyMatrix4 cfg (ParticleSystem.new fround cfg basePosition entropy)
      calls).resetProgress ≤ cfg.RESET_CYCLE_COUNT - 1 ∧
    (∀ n, 1 ≤ n →
      n ≤ (ParticleSystem.updates fround applyMatrix4 cfg
        (ParticleSystem.new fround cfg basePosition entropy) calls).cycleLog.length →
      ((ParticleSystem.updates fround applyMatrix4 cfg
        (ParticleSystem.new fround cfg basePosition entropy) calls).cycleLog[n - 1]? = some true ↔
          cfg.RESET_CYCLE_COUNT ∣ n)) ∧
    (∀ c : K × CycleRandom M,
      ((ParticleSystem.updates fround applyMatrix4 cfg
          (ParticleSystem.new fround cfg basePosition entropy) calls).currentState
            = AnimationState.WAITING ∧
        (ParticleSystem.updates fround applyMatrix4 cfg
          (ParticleSystem.new fround cfg basePosition entropy) (calls ++ [c])).currentState
            = AnimationState.MOVING ∧
        (ParticleSystem.updates fround applyMatrix4 cfg
          (ParticleSystem.new fround cfg basePosition entropy) (calls ++ [c])).cycleLog =
          (ParticleSystem.updates fround applyMatrix4 cfg
            (ParticleSystem.new fround cfg basePosition entropy) calls).cycleLog ++
            [decide (cfg.RESET_CYCLE_COUNT ∣
              (ParticleSystem.updates fround applyMatrix4 cfg
                (ParticleSystem.new fround cfg basePosition entropy) calls).cycleLog.length + 1)]) ∨
      (¬ ((ParticleSystem.updates fround applyMatrix4 cfg
          (ParticleSystem.new fround cfg basePosition entropy) calls).currentState
            = AnimationState.WAITING ∧
        (ParticleSystem.updates fround applyMatrix4 cfg
          (ParticleSystem.new fround cfg basePosition entropy) (calls ++ [c])).currentState
            = AnimationState.MOVING) ∧
        (ParticleSystem.updates fround applyMatrix4 cfg
          (ParticleSystem.new fround cfg basePosition entropy) (calls ++ [c])).cycleLog =
          (ParticleSystem.updates fround applyMatrix4 cfg
            (ParticleSystem.new fround cfg basePosition entropy) calls).cycleLog)) := by
  have hinv := updates_cycleInvariant fround applyMatrix4 cfg hK calls _
    (new_cycleInvariant fround cfg hK basePosition entropy)
  simp only [updates_append_singleton fround]
  generalize ParticleSystem.updates fround applyMatrix4 cfg
    (ParticleSystem.new fround cfg basePosition entropy) calls = S at hinv ⊢
  obtain ⟨h1, h2, h3⟩ := hinv
  refine ⟨by omega, ?_, ?_⟩
  · intro n hn1 hn2
    rw [h3 (n - 1) (by omega), Nat.sub_add_cancel hn1]
    simp
  · intro c
    have hdec := (cycleInvariant_extend cfg hK S.resetProgress S.cycleLog h1 h2 h3).1
    rcases update_cycleLog fround applyMatrix4 cfg c.2 c.1 S with h | h
    · exact Or.inl ⟨h.1, h.2.1, by rw [h.2.2, hdec]⟩
    · exact Or.inr h

theorem reset_every_K_cycles_witness :
    1 ≤ (CONFIG : Config ℚ).RESET_CYCLE_COUNT ∧
    (ParticleSystem.updates fround32 (fun (_ : Unit) (v : Vector3 ℚ) => v) CONFIG
      (ParticleSystem.new fround32 CONFIG (fun _ => ⟨0, 0, 0⟩) (fun _ => ⟨0, 0, 0⟩))
      [((1 : ℚ), idleRandom), ((5 : ℚ), idleRandom)]).resetProgress
        ≤ (CONFIG : Config ℚ).RESET_CYCLE_COUNT - 1 :=
  ⟨by decide,
    (reset_every_K_cycles fround32 (fun (_ : Unit) (v : Vector3 ℚ) => v) CONFIG (by decide)
      (fun _ => ⟨0, 0, 0⟩) (fun _ => ⟨0, 0, 0⟩)
      [((1 : ℚ), idleRandom), ((5 : ℚ), idleRandom)]).1⟩

/-- C11: `easeInOutQuint` takes the values `f(0) = 0`, `f(1) = 1` and `f(0.5) = 0.5` in exact
arithmetic, where `f(t) = 16 t^5` for `t < 0.5` and `1 - (2 - 2t)^5 / 2` otherwise. -/
theorem easeInOutQuint_values {K : Type} [LinearOrderedField K] :
    easeInOutQuint (0 : K) = 0 ∧ easeInOutQuint (1 : K) = 1 ∧
    easeInOutQuint (1 / 2 : K) = 1 / 2 ∧
    (∀ t : K, t < 1 / 2 → easeInOutQuint t = 16 * t ^ 5) ∧
    (∀ t : K, 1 / 2 ≤ t → easeInOutQuint t = 1 - (2 - 2 * t) ^ 5 / 2) := by
  refine ⟨easeInOutQuint_zero, easeInOutQuint_one, ?_, fun t h => easeInOutQuint_of_lt h,
    fun t h => easeInOutQuint_of_ge h⟩
  rw [easeInOutQuint_of_ge (le_refl _)]
  norm_num

/-- C12: `easeInOutQuint` is monotonically non-decreasing on `[0, 1]`: for `0 ≤ s ≤ t ≤ 1`,
`f(s) ≤ f(t)`, also when `s` and `t` lie on the two sides of the branch switch at `0.5`. -/
theorem easeInOutQuint_monotone {K : Type} [LinearOrderedField K] (s t : K) (hs : 0 ≤ s)
    (hst : s ≤ t) (ht : t ≤ 1) : easeInOutQuint s ≤ easeInOutQuint t := by
  by_cases h1 : s < 1 / 2
  · by_cases h2 : t < 1 / 2
    · rw [easeInOutQuint_of_lt h1, easeInOutQuint_of_lt h2]
      have := pow_le_pow_left₀ hs hst 5
      linarith
    · exact le_trans (easeInOutQuint_le_half hs h1)
        (half_le_easeInOutQuint (not_lt.mp h2) ht)
  · have h1' : 1 / 2 ≤ s := not_lt.mp h1
    have h2' : 1 / 2 ≤ t := le_trans h1' hst
    rw [easeInOutQuint_of_ge h1', easeInOutQuint_of_ge h2']
    have := pow_le_pow_left₀ (by linarith : (0 : K) ≤ 2 - 2 * t)
      (by linarith : 2 - 2 * t ≤ 2 - 2 * s) 5
    linarith

theorem easeInOutQuint_monotone_witness :
    ((0 : ℚ) ≤ 1 / 4 ∧ (1 / 4 : ℚ) ≤ 3 / 4 ∧ (3 / 4 : ℚ) ≤ 1) ∧
    easeInOutQuint (1 / 4 : ℚ) ≤ easeInOutQuint (3 / 4 : ℚ) :=
  ⟨by norm_num, easeInOutQuint_monotone (1 / 4 : ℚ) (3 / 4) (by norm_num) (by norm_num)
    (by norm_num)⟩

/-- C14: `initializePersistentConnections` called with no particle list is a silent no-op:
it returns without error and leaves the persistent set, the mode and the two line buffers as
they were; in particular it does not clear the set. -/
theorem initializePersistentConnections_no_particles {K : Type} [LinearOrderedField K]
    (distanceTo : Vector3 K → Vector3 K → K) (cfg : Config K) (s : ConnectionSystem K) :
    initializePersistentConnections distanceTo cfg none s = some s ∧
    ∀ s', initializePersistentConnections distanceTo cfg none s = some s' →
      s'.persistentConnections = s.persistentConnections ∧
      s'.connectionMode = s.connectionMode ∧
      s'.linePositions = s.linePositions ∧ s'.lineColors = s.lineColors := by
  refine ⟨rfl, ?_⟩
  intro s' h
  have : s = s' := Option.some.inj h
  subst this
  exact ⟨rfl, rfl, rfl, rfl⟩

/-- C18: dynamic segment colours are floored and brighter for closer pairs. For a distance
`d` with `0 ≤ d < CONNECTION_DISTANCE`, `addLineSegment` with `isDynamic = true` pushes the
same `(r, g, b)` for both endpoints, with `r = max(0.3, 0.7 + 0.2 p)` and
`g = b = max(0.3, 0.3 + 0.8 p)`, `p = 1 - d / CONNECTION_DISTANCE`; every channel is at
least `0.3`, and for `d1 ≤ d2` in that range every channel at `d1` is at least the channel
at `d2`. -/
theorem dynamic_colours_floored_and_antitone {K : Type} [LinearOrderedField K]
    (cfg : Config K) (particles : List (Particle K)) (i j : Nat)
    (hi : i < particles.length) (hj : j < particles.length) (s : ConnectionSystem K)
    (d1 d2 : K) (h0 : 0 ≤ d1) (h12 : d1 ≤ d2) (h2 : d2 < cfg.CONNECTION_DISTANCE) :
    (∃ s' : ConnectionSystem K,
      addLineSegment cfg particles i j d1 true s = some s' ∧
      s'.lineColors = s.lineColors ++
        [specDynamicRed cfg d1, specDynamicGreenBlue cfg d1, specDynamicGreenBlue cfg d1,
         specDynamicRed cfg d1, specDynamicGreenBlue cfg d1, specDynamicGreenBlue cfg d1]) ∧
    3 / 10 ≤ specDynamicRed cfg d1 ∧ 3 / 10 ≤ specDynamicGreenBlue cfg d1 ∧
    specDynamicRed cfg d2 ≤ specDynamicRed cfg d1 ∧
    specDynamicGreenBlue cfg d2 ≤ specDynamicGreenBlue cfg d1 := by
  have hD : 0 < cfg.CONNECTION_DISTANCE := lt_of_le_of_lt (le_trans h0 h12) h2
  refine ⟨⟨_, addLineSegment_eq cfg particles hi hj d1 true s, ?_⟩, le_max_left _ _,
    le_max_left _ _, specDynamicRed_antitone cfg hD h12,
    specDynamicGreenBlue_antitone cfg hD h12⟩
  rw [← segmentColors_dynamic]

theorem dynamic_colours_floored_and_antitone_witness :
    ((0 : Nat) < (scenarioParticles : List (Particle ℚ)).length ∧
      (1 : Nat) < (scenarioParticles : List (Particle ℚ)).length ∧
      (0 : ℚ) ≤ 1 ∧ (1 : ℚ) ≤ 2 ∧ (2 : ℚ) < (CONFIG : Config ℚ).CONNECTION_DISTANCE) ∧
    specDynamicRed (CONFIG : Config ℚ) 2 ≤ specDynamicRed (CONFIG : Config ℚ) 1 :=
  ⟨⟨by decide, by decide, by norm_num, by norm_num, by norm_num [CONFIG]⟩,
    (dynamic_colours_floored_and_antitone (CONFIG : Config ℚ) scenarioParticles 0 1
      (by decide) (by decide) ConnectionSystem.new 1 2 (by norm_num) (by norm_num)
      (by norm_num [CONFIG])).2.2.2.1⟩

/-- C19: decoding a connection key recovers its pair. For `0 ≤ i < j < 65536` and
`key = getConnectionKey(i, j)` or `getConnectionKey(j, i)`, the decode of
`updatePersistentConnections` gives `(key >> 16) & 0xFFFF = i` and `key & 0xFFFF = j` under
the 32-bit signed operators, also when `i ≥ 32768` makes the key negative; so each decoded
index is below the number of particles whenever `j` is, and the segment drawn for the key
joins the particles `i` and `j`. -/
theorem decode_recovers_pair {K : Type} [LinearOrderedField K] (i j : Nat) (hij : i < j)
    (hj : j < 65536) :
    jsAnd (jsShr (getConnectionKey i j) 16) 65535 = Int.ofNat i ∧
    jsAnd (getConnectionKey i j) 65535 = Int.ofNat j ∧
    jsAnd (jsShr (getConnectionKey j i) 16) 65535 = Int.ofNat i ∧
    jsAnd (getConnectionKey j i) 65535 = Int.ofNat j ∧
    decodeConnectionKey (getConnectionKey i j) = (i, j) ∧
    (∀ (distanceTo : Vector3 K → Vector3 K → K) (cfg : Config K)
        (particles : List (Particle K)) (s : ConnectionSystem K),
      j < particles.length →
        (decodeConnectionKey (getConnectionKey i j)).1 < particles.length ∧
        (decodeConnectionKey (getConnectionKey i j)).2 < particles.length ∧
        ∃ s' : ConnectionSystem K,
          drawStep distanceTo cfg particles s (getConnectionKey i j) = some s' ∧
          s'.linePositions = s.linePositions ++ segmentPositions particles (i, j)) := by
  have hu := toUint32_getConnectionKey hij hj
  have hi : i < 65536 := by omega
  have ha : jsAnd (jsShr (getConnectionKey i j) 16) 65535 = Int.ofNat i := by
    rw [jsAnd_65535_eq, toUint32_jsShr_16 hi hj hu]
  have hb : jsAnd (getConnectionKey i j) 65535 = Int.ofNat j := by
    have hmod : (i * 65536 + j) % 65536 = j := by omega
    rw [jsAnd_65535_eq, hu, hmod]
  have hc : getConnectionKey j i = getConnectionKey i j :=
    getConnectionKey_comm j i (by omega)
  refine ⟨ha, hb, by rw [hc]; exact ha, by rw [hc]; exact hb,
    decodeConnectionKey_getConnectionKey hij hj, ?_⟩
  intro distanceTo cfg particles s hN
  rw [decodeConnectionKey_getConnectionKey hij hj]
  exact ⟨lt_trans hij hN, hN, _, drawStep_getConnectionKey distanceTo cfg particles hij hj hN s,
    rfl⟩

theorem decode_recovers_pair_witness :
    ((40000 : Nat) < 50000 ∧ (50000 : Nat) < 65536) ∧
    jsAnd (jsShr (getConnectionKey 40000 50000) 16) 65535 = Int.ofNat 40000 ∧
    jsAnd (getConnectionKey 40000 50000) 65535 = Int.ofNat 50000 :=
  ⟨by decide,
    (@decode_recovers_pair ℚ _ 40000 50000 (by decide) (by decide)).1,
    (@decode_recovers_pair ℚ _ 40000 50000 (by decide) (by decide)).2.1⟩

/-- C17: the decision of `updateGeometry` does not depend on the number of segments
currently rendered. After `createLinesMesh()` and any calls of `updateGeometry()`, the
attribute `position` of the geometry has count 8, so `currentLineCount` is 4. With 600
scalars in `linePositions` at the last call the geometry renders 100 segments, and a further
call with 600 scalars (`n = 100 = c`) recreates the geometry instead of updating it in
place, as does every call with more than 26 scalars; with no scalars an empty geometry is
installed. -/
theorem updateGeometry_recreates_at_equal_count {K : Type} [LinearOrderedField K]
    (calls : List (List K)) (linePositions : List K) :
    (currentLineCount (some (geometryAfter calls).positionCount) : K) = 4 ∧
    renderedLineCount (geometryAfter (calls ++ [List.replicate 600 (0 : K)])) = 100 ∧
    ((List.replicate 600 (0 : K)).length : K) / 6 = 100 ∧
    updateGeometry (List.replicate 600 (0 : K))
        (some (geometryAfter (calls ++ [List.replicate 600 (0 : K)])).positionCount)
      = GeometryAction.recreate ∧
    (updateGeometry linePositions (some (geometryAfter calls).positionCount)
        = GeometryAction.recreate ↔ 27 ≤ linePositions.length ∨
          (1 ≤ linePositions.length ∧ linePositions.length ≤ 21)) ∧
    (updateGeometry linePositions (some (geometryAfter calls).positionCount)
        = GeometryAction.installEmpty ↔ linePositions.length = 0) := by
  have h600 : ((List.replicate 600 (0 : K)).length : K) / 6 = 100 := by
    rw [List.length_replicate]
    norm_num
  have hq : updateGeometry (List.replicate 600 (0 : K)) (some 8) = GeometryAction.recreate :=
    updateGeometry_quad _ (by rw [List.length_replicate]; norm_num)
  have hc : (currentLineCount (some 8) : K) = 4 := by
    unfold currentLineCount
    norm_num
  rw [geometryAfter_positionCount, geometryAfter_positionCount]
  refine ⟨hc, ?_, h600, hq, ?_, ?_⟩
  · rw [geometryAfter_append,
      updateGeometryOf_recreate _ _ (by rw [geometryAfter_positionCount]; exact hq)]
    exact h600
  · constructor
    · intro h
      by_contra hne
      have hlen : linePositions.length = 0 ∨
          (22 ≤ linePositions.length ∧ linePositions.length ≤ 26) := by omega
      rcases hlen with h0 | ⟨h22, h26⟩
      · unfold updateGeometry at h
        rw [if_neg (by omega)] at h
        exact GeometryAction.noConfusion h
      · have a22 : (22 : K) ≤ (linePositions.length : K) := by exact_mod_cast h22
        have a26 : (linePositions.length : K) ≤ 26 := by exact_mod_cast h26
        unfold updateGeometry at h
        rw [if_pos (by omega)] at h
        simp only [hc] at h
        rw [if_neg] at h
        · exact GeometryAction.noConfusion h
        · rw [gt_iff_lt, not_lt, abs_le]
          constructor <;> linarith
    · rintro (h | ⟨h1, h21⟩)
      · exact updateGeometry_quad _ h
      · have a1 : (1 : K) ≤ (linePositions.length : K) := by exact_mod_cast h1
        have a21 : (linePositions.length : K) ≤ 21 := by exact_mod_cast h21
        unfold updateGeometry
        rw [if_pos (by omega)]
        simp only [hc]
        rw [if_pos]
        rw [gt_iff_lt, abs_of_nonpos (by linarith)]
        linarith
  · constructor
    · intro h
      by_contra hne
      unfold updateGeometry at h
      rw [if_pos (by omega)] at h
      simp only [] at h
      split at h <;> exact GeometryAction.noConfusion h
    · intro h
      unfold updateGeometry
      rw [if_neg (by omega)]

/-- C16: in DYNAMIC mode no persistent set exists. After every sequence of
`setConnectionMode`, `update` and `resetConnections` calls on a newly constructed
`ConnectionSystem` that runs without a TypeError, the persistent set is empty whenever the
mode is DYNAMIC; and every such sequence whose `update` calls all receive particle lists of
one length does run without a TypeError. -/
theorem dynamic_mode_has_empty_set {K : Type} [LinearOrderedField K]
    (distanceTo : Vector3 K → Vector3 K → K) (cfg : Config K)
    (cs : List (ConnectionCall K)) :
    (∀ s', ConnectionSystem.calls distanceTo cfg cs ConnectionSystem.new = some s' →
      s'.connectionMode = ConnectionMode.DYNAMIC → s'.persistentConnections = []) ∧
    (∀ n : Nat, (∀ ps, ConnectionCall.update ps ∈ cs → ps.length = n) →
      ∃ s', ConnectionSystem.calls distanceTo cfg cs ConnectionSystem.new = some s') := by
  constructor
  · intro s' h
    exact foldlM_some_invariant (ConnectionSystem.call distanceTo cfg)
      (fun t => t.connectionMode = ConnectionMode.DYNAMIC → t.persistentConnections = [])
      (call_dynamic_empty distanceTo cfg) cs ConnectionSystem.new s' h (fun _ => rfl)
  · intro n hcs
    exact calls_succeed distanceTo cfg n cs hcs ConnectionSystem.new
      (by intro key hk; simp [ConnectionSystem.new] at hk)

/-- The motion engine of config.js with a particle generated at `(9.9, 0, 0)`, after the
first update (one second): the state is MOVING with progress 0, particle 0 is still at
`(9.9, 0, 0)`, but `startPositions` holds `Math.fround(9.9) = 10380902 / 1048576`
(9.899999618530273), so the particle is neither on its `startPositions` entry nor on the
eased interpolation. -/
theorem first_moving_state_off_interpolation :
    (ParticleSystem.updates fround32 (fun (_ : Unit) (v : Vector3 ℚ) => v) CONFIG axisSystem
      [((1 : ℚ), idleRandom)]).currentState = AnimationState.MOVING ∧
    (ParticleSystem.updates fround32 (fun (_ : Unit) (v : Vector3 ℚ) => v) CONFIG axisSystem
      [((1 : ℚ), idleRandom)]).progress = 0 ∧
    (ParticleSystem.updates fround32 (fun (_ : Unit) (v : Vector3 ℚ) => v) CONFIG axisSystem
      [((1 : ℚ), idleRandom)]).position 0 = ⟨99 / 10, 0, 0⟩ ∧
    fromArray (ParticleSystem.updates fround32 (fun (_ : Unit) (v : Vector3 ℚ) => v) CONFIG
      axisSystem [((1 : ℚ), idleRandom)]).startPositions (0 * 3)
        = ⟨10380902 / 1048576, 0, 0⟩ ∧
    (ParticleSystem.updates fround32 (fun (_ : Unit) (v : Vector3 ℚ) => v) CONFIG axisSystem
      [((1 : ℚ), idleRandom)]).position 0 ≠
      lerpVectors
        (fromArray (ParticleSystem.updates fround32 (fun (_ : Unit) (v : Vector3 ℚ) => v)
          CONFIG axisSystem [((1 : ℚ), idleRandom)]).startPositions (0 * 3))
        (fromArray (ParticleSystem.updates fround32 (fun (_ : Unit) (v : Vector3 ℚ) => v)
          CONFIG axisSystem [((1 : ℚ), idleRandom)]).endPositions (0 * 3))
        (easeInOutQuint (min (ParticleSystem.updates fround32
          (fun (_ : Unit) (v : Vector3 ℚ) => v) CONFIG axisSystem
          [((1 : ℚ), idleRandom)]).progress 1)) := by
  rw [axisSystem_eq]
  have hmov := first_update_moves fround32 (fun (_ : Unit) (v : Vector3 ℚ) => v) idleRandom
    (fun i => generateSpherePoint axisMath (CONFIG : Config ℚ).SPHERE_RADIUS
      (axisDraws i).r1 (axisDraws i).r2)
    (fun i => entropyVector CONFIG (axisDraws i))
  have hinv := new_motionInvariant fround32 (CONFIG : Config ℚ)
    (fun i => generateSpherePoint axisMath (CONFIG : Config ℚ).SPHERE_RADIUS
      (axisDraws i).r1 (axisDraws i).r2)
    (fun i => entropyVector CONFIG (axisDraws i))
  obtain ⟨_, hst, _, _, hlog⟩ := new_fields fround32 (CONFIG : Config ℚ)
    (fun i => generateSpherePoint axisMath (CONFIG : Config ℚ).SPHERE_RADIUS
      (axisDraws i).r1 (axisDraws i).r2)
    (fun i => entropyVector CONFIG (axisDraws i))
  have h0 : (0 : Nat) < (CONFIG : Config ℚ).PARTICLE_COUNT := by decide
  have hpart := new_particle fround32 (CONFIG : Config ℚ)
    (fun i => generateSpherePoint axisMath (CONFIG : Config ℚ).SPHERE_RADIUS
      (axisDraws i).r1 (axisDraws i).r2)
    (fun i => entropyVector CONFIG (axisDraws i)) 0 h0
  have hpos0 : (ParticleSystem.new fround32 (CONFIG : Config ℚ)
      (fun i => generateSpherePoint axisMath (CONFIG : Config ℚ).SPHERE_RADIUS
        (axisDraws i).r1 (axisDraws i).r2)
      (fun i => entropyVector CONFIG (axisDraws i))).position 0 = ⟨99 / 10, 0, 0⟩ := by
    unfold ParticleSystem.position
    rw [hpart]
    exact createdPosition_axis 0
  have hone : ∀ S : ParticleSystem ℚ,
      ParticleSystem.updates fround32 (fun (_ : Unit) (v : Vector3 ℚ) => v) CONFIG S
        [((1 : ℚ), idleRandom)]
      = ParticleSystem.update fround32 (fun (_ : Unit) (v : Vector3 ℚ) => v) CONFIG
          idleRandom 1 S := fun S => rfl
  rw [hone] at hmov ⊢
  generalize ParticleSystem.new fround32 (CONFIG : Config ℚ)
    (fun i => generateSpherePoint axisMath (CONFIG : Config ℚ).SPHERE_RADIUS
      (axisDraws i).r1 (axisDraws i).r2)
    (fun i => entropyVector CONFIG (axisDraws i)) = S0 at hmov hinv hst hlog hpos0 ⊢
  obtain ⟨hprog, hall⟩ := update_transition fround32 (fun (_ : Unit) (v : Vector3 ℚ) => v)
    CONFIG idleRandom 1 S0 hinv hst hmov
  obtain ⟨hsame, _, hfresh⟩ := hall 0 h0
  have hposition : (ParticleSystem.update fround32 (fun (_ : Unit) (v : Vector3 ℚ) => v)
      CONFIG idleRandom 1 S0).position 0 = ⟨99 / 10, 0, 0⟩ := by
    rw [hsame, hpos0]
  have hstart : fromArray (ParticleSystem.update fround32
      (fun (_ : Unit) (v : Vector3 ℚ) => v) CONFIG idleRandom 1 S0).startPositions (0 * 3)
        = ⟨10380902 / 1048576, 0, 0⟩ := by
    rw [hfresh hlog, hposition]
    exact froundVec_axis
  refine ⟨hmov, hprog, hposition, hstart, ?_⟩
  rw [hprog, min_eq_left (zero_le_one), easeInOutQuint_zero, lerpVectors_zero, hstart,
    hposition]
  intro h
  have hx := congrArg Vector3.x h
  norm_num at hx

/-- C15: during MOVING the live position is the eased interpolation, except right after the
first transition to MOVING. In every state reached from the constructed state by `update`
calls (with any delta times, so in particular non-negative ones) in which the state is
MOVING, either every particle `i` has
`position = start_i + (end_i - start_i) * easeInOutQuint(min(progress, 1))`, or the state is
the one right after the first transition from WAITING to MOVING (progress 0, one cycle
started) and `start_i` is the single-precision narrowing of the position. Every update made
in MOVING that stays in MOVING gives the interpolation. The update that leads from WAITING
to MOVING gives progress 0 and leaves every particle where it was; the particle is on its
new `startPositions` entry (no jump) if a cycle was started before, and at the first
transition the entry is the narrowing of its position. -/
theorem moving_position_eased_lerp_or_fresh {K : Type} [LinearOrderedField K] {M : Type}
    (fround : K → K) (applyMatrix4 : M → Vector3 K → Vector3 K) (cfg : Config K)
    (basePosition entropy : Nat → Vector3 K) (calls : List (K × CycleRandom M)) :
    ((ParticleSystem.updates fround applyMatrix4 cfg
        (ParticleSystem.new fround cfg basePosition entropy) calls).currentState
          = AnimationState.MOVING →
      (∀ i < cfg.PARTICLE_COUNT,
        (ParticleSystem.updates fround applyMatrix4 cfg
          (ParticleSystem.new fround cfg basePosition entropy) calls).position i =
        lerpVectors
          (fromArray (ParticleSystem.updates fround applyMatrix4 cfg
            (ParticleSystem.new fround cfg basePosition entropy) calls).startPositions (i * 3))
          (fromArray (ParticleSystem.updates fround applyMatrix4 cfg
            (ParticleSystem.new fround cfg basePosition entropy) calls).endPositions (i * 3))
          (easeInOutQuint (min (ParticleSystem.updates fround applyMatrix4 cfg
            (ParticleSystem.new fround cfg basePosition entropy) calls).progress 1))) ∨
      ((ParticleSystem.updates fround applyMatrix4 cfg
          (ParticleSystem.new fround cfg basePosition entropy) calls).progress = 0 ∧
        (ParticleSystem.updates fround applyMatrix4 cfg
          (ParticleSystem.new fround cfg basePosition entropy) calls).cycleLog.length = 1 ∧
        ∀ i < cfg.PARTICLE_COUNT,
          fromArray (ParticleSystem.updates fround applyMatrix4 cfg
            (ParticleSystem.new fround cfg basePosition entropy) calls).startPositions (i * 3)
          = froundVec fround ((ParticleSystem.updates fround applyMatrix4 cfg
            (ParticleSystem.new fround cfg basePosition entropy) calls).position i))) ∧
    (∀ c : K × CycleRandom M,
      (ParticleSystem.updates fround applyMatrix4 cfg
        (ParticleSystem.new fround cfg basePosition entropy) calls).currentState
          = AnimationState.MOVING →
      (ParticleSystem.updates fround applyMatrix4 cfg
        (ParticleSystem.new fround cfg basePosition entropy) (calls ++ [c])).currentState
          = AnimationState.MOVING →
      ∀ i < cfg.PARTICLE_COUNT,
        (ParticleSystem.updates fround applyMatrix4 cfg
          (ParticleSystem.new fround cfg basePosition entropy) (calls ++ [c])).position i =
        lerpVectors
          (fromArray (ParticleSystem.updates fround applyMatrix4 cfg
            (ParticleSystem.new fround cfg basePosition entropy) (calls ++ [c])).startPositions
            (i * 3))
          (fromArray (ParticleSystem.updates fround applyMatrix4 cfg
            (ParticleSystem.new fround cfg basePosition entropy) (calls ++ [c])).endPositions
            (i * 3))
          (easeInOutQuint (min (ParticleSystem.updates fround applyMatrix4 cfg
            (ParticleSystem.new fround cfg basePosition entropy) (calls ++ [c])).progress 1))) ∧
    (∀ c : K × CycleRandom M,
      (ParticleSystem.updates fround applyMatrix4 cfg
        (ParticleSystem.new fround cfg basePosition entropy) calls).currentState
          = AnimationState.WAITING →
      (ParticleSystem.updates fround applyMatrix4 cfg
        (ParticleSystem.new fround cfg basePosition entropy) (calls ++ [c])).currentState
          = AnimationState.MOVING →
      (ParticleSystem.updates fround applyMatrix4 cfg
        (ParticleSystem.new fround cfg basePosition entropy) (calls ++ [c])).progress = 0 ∧
      ∀ i < cfg.PARTICLE_COUNT,
        (ParticleSystem.updates fround applyMatrix4 cfg
          (ParticleSystem.new fround cfg basePosition entropy) (calls ++ [c])).position i =
          (ParticleSystem.updates fround applyMatrix4 cfg
            (ParticleSystem.new fround cfg basePosition entropy) calls).position i ∧
        ((ParticleSystem.updates fround applyMatrix4 cfg
            (ParticleSystem.new fround cfg basePosition entropy) calls).cycleLog ≠ [] →
          (ParticleSystem.updates fround applyMatrix4 cfg
            (ParticleSystem.new fround cfg basePosition entropy) (calls ++ [c])).position i =
            fromArray (ParticleSystem.updates fround applyMatrix4 cfg
              (ParticleSystem.new fround cfg basePosition entropy)
              (calls ++ [c])).startPositions (i * 3)) ∧
        ((ParticleSystem.updates fround applyMatrix4 cfg
            (ParticleSystem.new fround cfg basePosition entropy) calls).cycleLog = [] →
          fromArray (ParticleSystem.updates fround applyMatrix4 cfg
              (ParticleSystem.new fround cfg basePosition entropy)
              (calls ++ [c])).startPositions (i * 3) =
            froundVec fround ((ParticleSystem.updates fround applyMatrix4 cfg
              (ParticleSystem.new fround cfg basePosition entropy)
              (calls ++ [c])).position i))) := by
  have hinv := updates_motionInvariant fround applyMatrix4 cfg calls _
    (new_motionInvariant fround cfg basePosition entropy)
  simp only [updates_append_singleton fround]
  generalize ParticleSystem.updates fround applyMatrix4 cfg
    (ParticleSystem.new fround cfg basePosition entropy) calls = S at hinv ⊢
  refine ⟨fun h => (hinv.2.2 h).2, ?_, ?_⟩
  · intro c hst hnext
    exact update_moving_interpolated fround applyMatrix4 cfg c.2 c.1 S hinv.1 hst hnext
  · intro c hst hnext
    exact update_transition fround applyMatrix4 cfg c.2 c.1 S hinv hst hnext

theorem moving_position_eased_lerp_or_fresh_witness :
    (ParticleSystem.updates fround32 (fun (_ : Unit) (v : Vector3 ℚ) => v) CONFIG
      (ParticleSystem.new fround32 CONFIG (fun _ => ⟨10, 0, 0⟩) (fun _ => ⟨-1 / 10, 0, 0⟩))
      ([((1 : ℚ), idleRandom)] ++ [((1 : ℚ), idleRandom)])).currentState
        = AnimationState.MOVING ∧
    ∀ i < (CONFIG : Config ℚ).PARTICLE_COUNT,
      (ParticleSystem.updates fround32 (fun (_ : Unit) (v : Vector3 ℚ) => v) CONFIG
        (ParticleSystem.new fround32 CONFIG (fun _ => ⟨10, 0, 0⟩) (fun _ => ⟨-1 / 10, 0, 0⟩))
        ([((1 : ℚ), idleRandom)] ++ [((1 : ℚ), idleRandom)])).position i =
      lerpVectors
        (fromArray (ParticleSystem.updates fround32 (fun (_ : Unit) (v : Vector3 ℚ) => v)
          CONFIG
          (ParticleSystem.new fround32 CONFIG (fun _ => ⟨10, 0, 0⟩) (fun _ => ⟨-1 / 10, 0, 0⟩))
          ([((1 : ℚ), idleRandom)] ++ [((1 : ℚ), idleRandom)])).startPositions (i * 3))
        (fromArray (ParticleSystem.updates fround32 (fun (_ : Unit) (v : Vector3 ℚ) => v)
          CONFIG
          (ParticleSystem.new fround32 CONFIG (fun _ => ⟨10, 0, 0⟩) (fun _ => ⟨-1 / 10, 0, 0⟩))
          ([((1 : ℚ), idleRandom)] ++ [((1 : ℚ), idleRandom)])).endPositions (i * 3))
        (easeInOutQuint (min (ParticleSystem.updates fround32
          (fun (_ : Unit) (v : Vector3 ℚ) => v) CONFIG
          (ParticleSystem.new fround32 CONFIG (fun _ => ⟨10, 0, 0⟩) (fun _ => ⟨-1 / 10, 0, 0⟩))
          ([((1 : ℚ), idleRandom)] ++ [((1 : ℚ), idleRandom)])).progress 1)) :=
  ⟨second_update_moves fround32 _ _ _ _ _,
    (moving_position_eased_lerp_or_fresh fround32 (fun (_ : Unit) (v : Vector3 ℚ) => v)
      CONFIG (fun _ => ⟨10, 0, 0⟩) (fun _ => ⟨-1 / 10, 0, 0⟩) [((1 : ℚ), idleRandom)]).2.1
      ((1 : ℚ), idleRandom) (first_update_moves fround32 _ _ _ _)
      (second_update_moves fround32 _ _ _ _ _)⟩

/-- The constructor of config.js with the draws 0, 0.5 (sphere point `(10, 0, 0)`) and 0.45,
0.5, 0.5 (entropy `(-0.1, 0, 0)`) for particle 0: the particle holds `(9.9, 0, 0)`, while
`startPositions`, a `Float32Array`, holds `Math.fround(9.9) = 10380902 / 1048576`
(9.899999618530273) in its first entry. -/
theorem createParticles_start_entry_differs :
    (createParticles fround32 axisMath CONFIG axisDraws).particles[0]? =
      some { position := ⟨99 / 10, 0, 0⟩, basePosition := ⟨99 / 10, 0, 0⟩ } ∧
    createdPosition axisMath CONFIG axisDraws 0 = ⟨99 / 10, 0, 0⟩ ∧
    fromArray (createParticles fround32 axisMath CONFIG axisDraws).startPositions (0 * 3)
      = ⟨10380902 / 1048576, 0, 0⟩ ∧
    fromArray (createParticles fround32 axisMath CONFIG axisDraws).startPositions (0 * 3)
      ≠ createdPosition axisMath CONFIG axisDraws 0 := by
  have h0 : (0 : Nat) < (CONFIG : Config ℚ).PARTICLE_COUNT := by decide
  have hpart := new_particle fround32 (CONFIG : Config ℚ)
    (fun i => generateSpherePoint axisMath (CONFIG : Config ℚ).SPHERE_RADIUS
      (axisDraws i).r1 (axisDraws i).r2)
    (fun i => entropyVector CONFIG (axisDraws i)) 0 h0
  have hbuf := ((new_positions fround32 (CONFIG : Config ℚ)
    (fun i => generateSpherePoint axisMath (CONFIG : Config ℚ).SPHERE_RADIUS
      (axisDraws i).r1 (axisDraws i).r2)
    (fun i => entropyVector CONFIG (axisDraws i))).2 0 h0).1
  have hcp := createdPosition_axis 0
  have hcp2 : (generateSpherePoint axisMath (CONFIG : Config ℚ).SPHERE_RADIUS
      (axisDraws 0).r1 (axisDraws 0).r2).add (entropyVector CONFIG (axisDraws 0))
      = ⟨99 / 10, 0, 0⟩ := hcp
  have hstart : fromArray (createParticles fround32 axisMath CONFIG axisDraws).startPositions
      (0 * 3) = ⟨10380902 / 1048576, 0, 0⟩ := by
    unfold createParticles
    rw [hbuf, hcp2]
    exact froundVec_axis
  refine ⟨?_, hcp, hstart, ?_⟩
  · unfold createParticles
    rw [hpart, hcp2]
  · rw [hstart, hcp]
    intro h
    have hx := congrArg Vector3.x h
    norm_num at hx

/-- C13: every constructed particle lies within the sphere radius plus the entropy bound of
the origin. With `sin` and `cos` satisfying `sin² + cos² = 1`, a non-negative radius `R` and
entropy factor, for every pair of draws behind `theta` and `phi = acos(2u - 1)`
`generateSpherePoint(R)` has squared length `R²`, so norm exactly `R`; for jitter draws in
`[0, 1)` the perturbed position `p` has `|p| ≤ R + (√3 / 2) * ENTROPY_FACTOR * R`, where
`|p|` is any `n` with `n² = |p|²` and `√3` any `c ≥ 0` with `c² = 3`; and the constructor
stores `PARTICLE_COUNT` particles with `position = basePosition = p`, while the entries of
`startPositions`, `endPositions` and `originalPositions` are the single-precision narrowing
of `p` (`fround` on every component, the write to a `Float32Array`). -/
theorem constructed_particles_within_bound {K : Type} [LinearOrderedField K]
    (fround : K → K) (m : JsMath K)
    (hm : ∀ x, m.sin x * m.sin x + m.cos x * m.cos x = 1) (cfg : Config K)
    (hR : 0 ≤ cfg.SPHERE_RADIUS) (hE : 0 ≤ cfg.ENTROPY_FACTOR)
    (draws : Nat → ParticleRandom K)
    (hdraws : ∀ i, (0 ≤ (draws i).r3 ∧ (draws i).r3 < 1) ∧
      (0 ≤ (draws i).r4 ∧ (draws i).r4 < 1) ∧ (0 ≤ (draws i).r5 ∧ (draws i).r5 < 1)) :
    (∀ i, (generateSpherePoint m cfg.SPHERE_RADIUS (draws i).r1 (draws i).r2).lengthSq
        = cfg.SPHERE_RADIUS * cfg.SPHERE_RADIUS ∧
      ∀ n : K, 0 ≤ n →
        n * n = (generateSpherePoint m cfg.SPHERE_RADIUS (draws i).r1 (draws i).r2).lengthSq →
        n = cfg.SPHERE_RADIUS) ∧
    (∀ (i : Nat) (c n : K), 0 ≤ c → c * c = 3 →
      n * n = (createdPosition m cfg draws i).lengthSq →
      n ≤ cfg.SPHERE_RADIUS + c / 2 * cfg.ENTROPY_FACTOR * cfg.SPHERE_RADIUS) ∧
    (createParticles fround m cfg draws).particles.length = cfg.PARTICLE_COUNT ∧
    (∀ i < cfg.PARTICLE_COUNT,
      (createParticles fround m cfg draws).particles[i]? =
        some { position := createdPosition m cfg draws i,
               basePosition := createdPosition m cfg draws i } ∧
      fromArray (createParticles fround m cfg draws).startPositions (i * 3)
        = froundVec fround (createdPosition m cfg draws i) ∧
      fromArray (createParticles fround m cfg draws).endPositions (i * 3)
        = froundVec fround (createdPosition m cfg draws i) ∧
      fromArray (createParticles fround m cfg draws).originalPositions (i * 3)
        = froundVec fround (createdPosition m cfg draws i)) := by
  refine ⟨?_, ?_, createParticles_length fround m cfg draws, ?_⟩
  · intro i
    have hlen := generateSpherePoint_lengthSq m hm cfg.SPHERE_RADIUS (draws i).r1 (draws i).r2
    refine ⟨hlen, ?_⟩
    intro n hn hnn
    rw [hlen] at hnn
    exact (mul_self_inj hn hR).mp hnn
  · intro i c n hc hc3 hn
    have hb := generateSpherePoint_lengthSq m hm cfg.SPHERE_RADIUS (draws i).r1 (draws i).r2
    have he := entropyVector_lengthSq_le cfg (draws i) (hdraws i).1 (hdraws i).2.1
      (hdraws i).2.2
    have hmm : (c / 2 * cfg.ENTROPY_FACTOR * cfg.SPHERE_RADIUS)
        * (c / 2 * cfg.ENTROPY_FACTOR * cfg.SPHERE_RADIUS)
        = 3 / 4 * ((cfg.ENTROPY_FACTOR * cfg.SPHERE_RADIUS)
          * (cfg.ENTROPY_FACTOR * cfg.SPHERE_RADIUS)) := by
      have : (c / 2 * cfg.ENTROPY_FACTOR * cfg.SPHERE_RADIUS)
          * (c / 2 * cfg.ENTROPY_FACTOR * cfg.SPHERE_RADIUS)
          = (c * c) / 4 * ((cfg.ENTROPY_FACTOR * cfg.SPHERE_RADIUS)
            * (cfg.ENTROPY_FACTOR * cfg.SPHERE_RADIUS)) := by ring
      rw [this, hc3]
    exact length_add_le _ _ cfg.SPHERE_RADIUS (c / 2 * cfg.ENTROPY_FACTOR * cfg.SPHERE_RADIUS)
      n hR (mul_nonneg (mul_nonneg (div_nonneg hc (by norm_num)) hE) hR) hb
      (by rw [hmm]; exact he) hn
  · intro i hi
    obtain ⟨_, h2⟩ := new_positions fround cfg
      (fun i => generateSpherePoint m cfg.SPHERE_RADIUS (draws i).r1 (draws i).r2)
      (fun i => entropyVector cfg (draws i))
    obtain ⟨a1, a2, a3, _⟩ := h2 i hi
    exact ⟨new_particle fround cfg _ _ i hi, a1, a2, a3⟩

theorem constructed_particles_within_bound_witness :
    (((∀ x : ℝ, Real.sin x * Real.sin x + Real.cos x * Real.cos x = 1) ∧
        (0 : ℝ) ≤ (CONFIG : Config ℝ).SPHERE_RADIUS ∧
        (0 : ℝ) ≤ (CONFIG : Config ℝ).ENTROPY_FACTOR) ∧
      Real.sqrt ((createdPosition ⟨Real.sin, Real.cos, Real.arccos, Real.pi⟩ CONFIG
          (fun _ => ⟨1 / 3, 1 / 4, 0, 1 / 2, 9 / 10⟩) 0).lengthSq)
        ≤ (CONFIG : Config ℝ).SPHERE_RADIUS
          + Real.sqrt 3 / 2 * (CONFIG : Config ℝ).ENTROPY_FACTOR
            * (CONFIG : Config ℝ).SPHERE_RADIUS) ∧
    (((∀ x : ℚ, axisMath.sin x * axisMath.sin x + axisMath.cos x * axisMath.cos x = 1) ∧
        (0 : ℚ) ≤ (CONFIG : Config ℚ).SPHERE_RADIUS ∧
        (0 : ℚ) ≤ (CONFIG : Config ℚ).ENTROPY_FACTOR) ∧
      fromArray (createParticles fround32 axisMath CONFIG axisDraws).startPositions (0 * 3)
        = froundVec fround32 (createdPosition axisMath CONFIG axisDraws 0)) :=
  ⟨⟨⟨fun x => by have := Real.sin_sq_add_cos_sq x; nlinarith,
        by norm_num [CONFIG], by norm_num [CONFIG]⟩,
      (constructed_particles_within_bound (fun x : ℝ => x)
        ⟨Real.sin, Real.cos, Real.arccos, Real.pi⟩
        (fun x => by have := Real.sin_sq_add_cos_sq x; nlinarith) CONFIG
        (by norm_num [CONFIG]) (by norm_num [CONFIG])
        (fun _ => ⟨1 / 3, 1 / 4, 0, 1 / 2, 9 / 10⟩)
        (fun _ => by norm_num)).2.1 0 (Real.sqrt 3) _ (Real.sqrt_nonneg 3)
        (Real.mul_self_sqrt (by norm_num)) (Real.mul_self_sqrt (lengthSq_nonneg _))⟩,
    ⟨⟨axisMath_pythagoras, by norm_num [CONFIG], by norm_num [CONFIG]⟩,
      ((constructed_particles_within_bound fround32 axisMath axisMath_pythagoras CONFIG
        (by norm_num [CONFIG]) (by norm_num [CONFIG]) axisDraws
        (fun _ => by norm_num [axisDraws])).2.2.2 0 (by decide)).2.1⟩⟩

end ParticleFriend
